import Mathlib

/-!
# A verification development for `mymalloc.c`

The allocator of `mymalloc.c` / `mymalloc.h` is embedded as pure functions on an
explicit machine state.

* Memory is a map from byte addresses to 8-byte little-endian words.  Every
  access the allocator makes is to a `Block` header field, and every header the
  allocator creates lies at a multiple of 16 bytes from the first `sbrk` result,
  so the pointer fields `next` (offset 0), `prev` (offset 8) and `info.size`
  (offset 16) are whole words, and the 4-byte `info.isfree` (offset 24) is the
  low half of the word at offset 24 (`info.padding` is its high half).  Headers
  may overlap each other at 16-byte displacements; the word model keeps track of
  that exactly.  Memory obtained from `sbrk` starts out zeroed.  The calls of a
  session are `mymalloc` and `myfree` only; a store by the client into a region
  it holds is written `client_store`.
* Pointers are natural numbers below `2^64`; `NULL` is `0`, `(void *)-1` is
  `2^64 - 1`; pointer and `uint64_t` arithmetic is reduced modulo `2^64`.
* The library call `sbrk` hands out contiguous memory from the current break and
  fails when the break would pass `limit`.
* The loops of the source (the free-list search of `mymalloc`, the scan of
  `prev_block_in_addr`, the address-order walk of `printheap`) take a fuel
  argument and return `none` when it runs out.
* A client session (`Run`) is a sequence of `mymalloc` / `myfree` calls from the
  empty heap in which `myfree` is only applied to pointers the client holds.
-/

namespace Malloc

/-- The heap increment, `#define HEAP_SIZE 1024`. -/
def HEAP_SIZE : Nat := 1024

/-- The value of `sizeof(Block)`: two 8-byte pointers and the 16-byte `Tag`. -/
def SIZEOF_BLOCK : Nat := 32

/-- Word size of the machine: pointers, `size_t` and `uint64_t` live modulo `2^64`. -/
def W64 : Nat := 2 ^ 64

/-- The null pointer. -/
def NULL : Nat := 0

/-- The value `(void *)-1` that `sbrk` reports on failure. -/
def SBRK_FAIL : Nat := 2 ^ 64 - 1

/-- The global variables of `mymalloc.c` together with the memory, the program
break, and two ghost counters for the `sbrk(HEAP_SIZE)` calls. -/
structure Heap where
  /-- memory: the 8-byte word stored at a byte address -/
  mem : Nat → Nat
  /-- the global `Block *free_list` -/
  free_list : Nat
  /-- the global `Block *heap_start` -/
  heap_start : Nat
  /-- the global `Block *heap_end` -/
  heap_end : Nat
  /-- the global `Block *last_freed` -/
  last_freed : Nat
  /-- current program break, the value of `sbrk(0)` -/
  brk : Nat
  /-- the break may not pass this address -/
  limit : Nat
  /-- ghost: number of `sbrk(HEAP_SIZE)` calls made so far -/
  calls : Nat
  /-- ghost: number of successful `sbrk(HEAP_SIZE)` calls so far -/
  grown : Nat

/-- The state before the first call: all globals are `NULL`, memory is zero. -/
def Heap.empty (base limit : Nat) : Heap :=
  { mem := fun _ => 0, free_list := NULL, heap_start := NULL, heap_end := NULL,
    last_freed := NULL, brk := base, limit := limit, calls := 0, grown := 0 }

/-- Store of an 8-byte word. -/
def wr (m : Nat → Nat) (a v : Nat) : Nat → Nat :=
  fun x => if x = a then v else m x

/-- Read of `b->next`. -/
def rd_next (m : Nat → Nat) (b : Nat) : Nat := m b

/-- Read of `b->prev`. -/
def rd_prev (m : Nat → Nat) (b : Nat) : Nat := m (b + 8)

/-- Read of `b->info.size`. -/
def rd_size (m : Nat → Nat) (b : Nat) : Nat := m (b + 16)

/-- Read of the 32-bit `b->info.isfree`. -/
def rd_isfree (m : Nat → Nat) (b : Nat) : Nat := m (b + 24) % 2 ^ 32

/-- Store to `b->next`. -/
def wr_next (m : Nat → Nat) (b v : Nat) : Nat → Nat := wr m b v

/-- Store to `b->prev`. -/
def wr_prev (m : Nat → Nat) (b v : Nat) : Nat → Nat := wr m (b + 8) v

/-- Store to `b->info.size`. -/
def wr_size (m : Nat → Nat) (b v : Nat) : Nat → Nat := wr m (b + 16) v

/-- Store to the 32-bit `b->info.isfree`; the padding half of the word is kept. -/
def wr_isfree (m : Nat → Nat) (b v : Nat) : Nat → Nat :=
  wr m (b + 24) (m (b + 24) / 2 ^ 32 * 2 ^ 32 + v)

/-- The address of `b->data`. -/
def data_of (b : Nat) : Nat := (b + SIZEOF_BLOCK) % W64

/-- Subtraction `a - b` of two 64-bit values, wrapping around below zero. -/
def sub64 (a b : Nat) : Nat := if b ≤ a then a - b else a + W64 - b

/-- The block that owns a data pointer: `(char *)p - offsetof(Block, data)`. -/
def block_of (p : Nat) : Nat := sub64 p SIZEOF_BLOCK

/-- The function `numberof16blocks`: `(size_inbytes + 15) / 16` in 64-bit arithmetic. -/
def numberof16blocks (size_inbytes : Nat) : Nat := (size_inbytes + 15) % W64 / 16

/-- The library call `sbrk(incr)` for `incr > 0`: returns the old break and moves
it, or returns `(void *)-1` and leaves it. -/
def sbrk (s : Heap) (incr : Nat) : Nat × Heap :=
  if s.brk + incr ≤ s.limit ∧ s.brk + incr < W64 then
    (s.brk, { s with brk := s.brk + incr, calls := s.calls + 1, grown := s.grown + 1 })
  else
    (SBRK_FAIL, { s with calls := s.calls + 1 })

/-- The function `next_block_in_addr`: the block right after `b`, or `NULL` at or past
`sbrk(0)`. -/
def next_block_in_addr (s : Heap) (b : Nat) : Nat :=
  let next := (b + SIZEOF_BLOCK + rd_size s.mem b * 16) % W64
  if next < s.brk then next else NULL

/-- The loop of `prev_block_in_addr`, started at `current`. -/
def prev_scan (s : Heap) (b : Nat) : Nat → Nat → Option Nat
  | 0, _ => none
  | fuel + 1, current =>
    if current ≠ NULL ∧ next_block_in_addr s current ≠ b then
      prev_scan s b fuel (next_block_in_addr s current)
    else some current

/-- The function `prev_block_in_addr`. -/
def prev_block_in_addr (fuel : Nat) (s : Heap) (b : Nat) : Option Nat :=
  if b = s.heap_start then some NULL else prev_scan s b fuel s.heap_start

/-- The function `split_block`. -/
def split_block (s : Heap) (b size : Nat) : Nat × Heap :=
  if rd_size s.mem b ≤ (size + 1) % W64 then (b, s) else
  let new_block := (b + SIZEOF_BLOCK + size * 16) % W64
  let m := wr_size s.mem new_block (sub64 (sub64 (rd_size s.mem b) size) 1)
  let m := wr_isfree m new_block 1
  let m := wr_next m new_block (rd_next m b)
  let m := wr_prev m new_block (rd_prev m b)
  let m := if rd_prev m b ≠ NULL then wr_next m (rd_prev m b) new_block else m
  let m := if rd_next m b ≠ NULL then wr_prev m (rd_next m b) new_block else m
  let fl := if b = s.free_list then new_block else s.free_list
  let m := wr_size m b size
  let m := wr_next m b NULL
  let m := wr_prev m b NULL
  (b, { s with mem := m, free_list := fl })

/-- The body of `left_coalesce`, given the result `left` of `prev_block_in_addr(b)`. -/
def left_coalesce_with (s : Heap) (b left : Nat) : Nat × Heap :=
  if left ≠ NULL ∧ rd_isfree s.mem left ≠ 0 then
    let m := wr_size s.mem left ((rd_size s.mem left + (rd_size s.mem b + 1)) % W64)
    let m := if rd_next m b ≠ NULL then wr_prev m (rd_next m b) (rd_prev m b) else m
    let m := if rd_prev m b ≠ NULL then wr_next m (rd_prev m b) (rd_next m b) else m
    let fl := if b = s.free_list then rd_next m b else s.free_list
    (left, { s with mem := m, free_list := fl })
  else (b, s)

/-- The function `left_coalesce`. -/
def left_coalesce (fuel : Nat) (s : Heap) (b : Nat) : Option (Nat × Heap) :=
  match prev_block_in_addr fuel s b with
  | none => none
  | some left => some (left_coalesce_with s b left)

/-- The function `right_coalesce`. -/
def right_coalesce (s : Heap) (b : Nat) : Nat × Heap :=
  let right := next_block_in_addr s b
  if right ≠ NULL ∧ rd_isfree s.mem right ≠ 0 then
    let m := wr_size s.mem b ((rd_size s.mem b + (rd_size s.mem right + 1)) % W64)
    let m := wr_next m b (rd_next m right)
    let m := if rd_next m right ≠ NULL then wr_prev m (rd_next m right) b else m
    let fl := if right = s.free_list then b else s.free_list
    (b, { s with mem := m, free_list := fl })
  else (b, s)

/-- The lazy initialisation at the top of `mymalloc` (lines 21-33).  The flag is
`false` when `sbrk` failed and `mymalloc` returns `NULL` from here. -/
def init_heap (s : Heap) : Heap × Bool :=
  if s.free_list = NULL then
    let r := sbrk s HEAP_SIZE
    let s := { r.2 with heap_start := r.1 }
    if s.heap_start = SBRK_FAIL then (s, false) else
    let s := { s with heap_end := s.heap_start }
    let m := wr_size s.mem s.heap_start (numberof16blocks (HEAP_SIZE - SIZEOF_BLOCK))
    let m := wr_isfree m s.heap_start 1
    let m := wr_next m s.heap_start NULL
    let m := wr_prev m s.heap_start NULL
    ({ s with mem := m, free_list := s.heap_start, last_freed := s.heap_start }, true)
  else (s, true)

/-- The first-fit search loop of `mymalloc` (lines 36-42), started at `block`:
`some NULL` when the list ends, `none` when the fuel runs out. -/
def find_fit (m : Nat → Nat) (needed : Nat) : Nat → Nat → Option Nat
  | 0, _ => none
  | fuel + 1, block =>
    if block = NULL then some NULL
    else if rd_isfree m block ≠ 0 ∧ rd_size m block ≥ needed then some block
    else find_fit m needed fuel (rd_next m block)

/-- The heap extension of `mymalloc` (lines 45-59) when the search found no
block; the returned block is `(void *)-1` when `sbrk` failed. -/
def grow_heap (s : Heap) : Nat × Heap :=
  let r := sbrk s HEAP_SIZE
  let block := r.1
  let s := r.2
  if block = SBRK_FAIL then (block, s) else
  let m := wr_size s.mem block (numberof16blocks (HEAP_SIZE - SIZEOF_BLOCK))
  let m := wr_isfree m block 1
  let m := wr_next m block s.free_list
  let m := wr_prev m block NULL
  let m := if s.free_list ≠ NULL then wr_prev m s.free_list block else m
  (block, { s with mem := m, free_list := block, heap_end := block })

/-- The end of `mymalloc` (lines 66-74): mark `block` allocated, unlink it from
the free list and return `block->data`. -/
def detach (s : Heap) (block : Nat) : Nat × Heap :=
  let m := wr_isfree s.mem block 0
  let m := if rd_prev m block ≠ NULL then wr_next m (rd_prev m block) (rd_next m block) else m
  let m := if rd_next m block ≠ NULL then wr_prev m (rd_next m block) (rd_prev m block) else m
  let fl := if block = s.free_list then rd_next m block else s.free_list
  let m := wr_next m block NULL
  let m := wr_prev m block NULL
  (data_of block, { s with mem := m, free_list := fl })

/-- The tail of `mymalloc` (lines 61-74): split when the block is larger than
needed, then detach. -/
def take_block (s : Heap) (block size_in_16blocks : Nat) : Nat × Heap :=
  if rd_size s.mem block > (size_in_16blocks + 1) % W64 then
    detach (split_block s block size_in_16blocks).2 (split_block s block size_in_16blocks).1
  else detach s block

/-- The number of 16-byte units `mymalloc` asks for (lines 17-18). -/
def units_needed (size : Nat) : Nat :=
  if numberof16blocks size = 0 then 1 else numberof16blocks size

/-- The function `mymalloc`: the returned pointer (`NULL` is `0`) and the new state; `none` when
the search loop does not finish within `fuel` steps. -/
def mymalloc (fuel : Nat) (s : Heap) (size : Nat) : Option (Nat × Heap) :=
  if size = 0 then some (NULL, s) else
  let size_in_16blocks := units_needed size
  let i := init_heap s
  if i.2 = false then some (NULL, i.1) else
  let s := i.1
  match find_fit s.mem size_in_16blocks fuel s.free_list with
  | none => none
  | some block =>
    if block = NULL then
      let g := grow_heap s
      if g.1 = SBRK_FAIL then some (NULL, g.2)
      else some (take_block g.2 g.1 size_in_16blocks)
    else some (take_block s block size_in_16blocks)

/-- The end of `myfree` (lines 89-96): put `block` at the head of the free list. -/
def push_free (s : Heap) (block : Nat) : Heap :=
  let m := wr_next s.mem block s.free_list
  let m := wr_prev m block NULL
  let m := if s.free_list ≠ NULL then wr_prev m s.free_list block else m
  { s with mem := m, free_list := block, last_freed := block }

/-- The body of `myfree` (lines 83-96) once the block has been recovered from
the data pointer. -/
def free_block (fuel : Nat) (s : Heap) (block : Nat) : Option Heap :=
  let s := { s with mem := wr_isfree s.mem block 1 }
  match left_coalesce fuel s block with
  | none => none
  | some l =>
    let r := right_coalesce l.2 l.1
    some (push_free r.2 r.1)

/-- The function `myfree`; `none` when the scan of `prev_block_in_addr` does not finish within
`fuel` steps. -/
def myfree (fuel : Nat) (s : Heap) (p : Nat) : Option Heap :=
  if p = NULL then some s else free_block fuel s (block_of p)

/-- One call of the public interface made by a client. -/
inductive Call where
  | malloc (size : Nat)
  | free (p : Nat)

/-- A client session: the allocator state, the pointers the client currently
holds (returned by `mymalloc` and not yet released), and every result
`mymalloc` has returned, oldest first. -/
structure Run where
  heap : Heap
  live : List Nat
  rets : List Nat

/-- The session before the first call. -/
def Run.start (base limit : Nat) : Run :=
  { heap := Heap.empty base limit, live := [], rets := [] }

/-- One client call; `myfree` is only ever called on a pointer the client holds. -/
def Run.step (fuel : Nat) (r : Run) : Call → Option Run
  | Call.malloc size =>
    (mymalloc fuel r.heap size).map fun q =>
      { heap := q.2, live := if q.1 = NULL then r.live else q.1 :: r.live,
        rets := r.rets ++ [q.1] }
  | Call.free p =>
    if p ∈ r.live then
      (myfree fuel r.heap p).map fun h =>
        { heap := h, live := r.live.erase p, rets := r.rets }
    else none

/-- A sequence of client calls. -/
def Run.exec (fuel : Nat) : Run → List Call → Option Run
  | r, [] => some r
  | r, c :: cs =>
    match Run.step fuel r c with
    | none => none
    | some r1 => Run.exec fuel r1 cs

/-- The address-order walk of `printheap`, summing the footprint
`sizeof(Block) + info.size * 16` of every block visited from `b` on. -/
def footprint_sum (s : Heap) : Nat → Nat → Option Nat
  | 0, _ => none
  | fuel + 1, b =>
    if b = NULL then some 0
    else (footprint_sum s fuel (next_block_in_addr s b)).map
      (fun t => SIZEOF_BLOCK + rd_size s.mem b * 16 + t)

/-- The block reached from `start` after `k` steps along `next`. -/
def nth_free (m : Nat → Nat) (start : Nat) : Nat → Nat
  | 0 => start
  | k + 1 => rd_next m (nth_free m start k)

/-- The loop condition of the search in `mymalloc`: the block is marked free and
holds at least `needed` units. -/
def fits (m : Nat → Nat) (needed b : Nat) : Prop :=
  rd_isfree m b ≠ 0 ∧ needed ≤ rd_size m b

instance (m : Nat → Nat) (needed b : Nat) : Decidable (fits m needed b) := by
  unfold fits; infer_instance

/-- The address ranges `[block, block + 32 + info.size * 16)` of the blocks that
own the data pointers `p` and `q` intersect. -/
def blocks_overlap (m : Nat → Nat) (p q : Nat) : Prop :=
  block_of p < block_of q + SIZEOF_BLOCK + rd_size m (block_of q) * 16 ∧
  block_of q < block_of p + SIZEOF_BLOCK + rd_size m (block_of p) * 16

instance (m : Nat → Nat) (p q : Nat) : Decidable (blocks_overlap m p q) := by
  unfold blocks_overlap; infer_instance

/-- The data regions `[p, p + info.size * 16)` and `[q, q + info.size * 16)` of
two returned pointers intersect. -/
def data_overlap (m : Nat → Nat) (p q : Nat) : Prop :=
  p < q + rd_size m (block_of q) * 16 ∧ q < p + rd_size m (block_of p) * 16

instance (m : Nat → Nat) (p q : Nat) : Decidable (data_overlap m p q) := by
  unfold data_overlap; infer_instance

/-- The test `myfree` makes in `left_coalesce` for the block `b` it releases: the
scan of `prev_block_in_addr` finds a block before `b` and it is marked free. -/
def merges_left (fuel : Nat) (s : Heap) (b : Nat) : Prop :=
  ∃ left ∈ prev_block_in_addr fuel { s with mem := wr_isfree s.mem b 1 } b,
    left ≠ NULL ∧ rd_isfree (wr_isfree s.mem b 1) left ≠ 0

instance (fuel : Nat) (s : Heap) (b : Nat) : Decidable (merges_left fuel s b) := by
  unfold merges_left; infer_instance

/-- The heap of a session, or the empty heap when the session did not finish. -/
def heap_after (fuel : Nat) (base limit : Nat) (calls : List Call) : Heap :=
  ((Run.exec fuel (Run.start base limit) calls).getD (Run.start base limit)).heap

/-- The members of the free list, read from `b` along `next` until `NULL`; `none`
when `NULL` is not reached within `fuel` steps. -/
def free_members (m : Nat → Nat) : Nat → Nat → Option (List Nat)
  | 0, _ => none
  | fuel + 1, b =>
    if b = NULL then some [] else (free_members m fuel (rd_next m b)).map (fun l => b :: l)

/-- The `prev` of every block of the list is the block before it, and `p` for the
first. -/
def prev_linked (m : Nat → Nat) : Nat → List Nat → Prop
  | _, [] => True
  | p, b :: bs => rd_prev m b = p ∧ prev_linked m b bs

instance prev_linked_decidable (m : Nat → Nat) :
    (p : Nat) → (l : List Nat) → Decidable (prev_linked m p l)
  | _, [] => isTrue trivial
  | p, b :: bs =>
    match Nat.decEq (rd_prev m b) p, prev_linked_decidable m b bs with
    | isTrue h1, isTrue h2 => isTrue ⟨h1, h2⟩
    | isFalse h1, _ => isFalse (fun h => h1 h.1)
    | _, isFalse h2 => isFalse (fun h => h2 h.2)

/-- The free list is a well-formed doubly linked list: following `next` from
`free_list` reaches `NULL` within `fuel` steps, no block is met twice, the `prev`
of the head is `NULL` and the `prev` of every other member is the member before. -/
def well_formed (fuel : Nat) (s : Heap) : Prop :=
  ∃ l ∈ free_members s.mem fuel s.free_list, l.Nodup ∧ prev_linked s.mem NULL l

instance (fuel : Nat) (s : Heap) : Decidable (well_formed fuel s) := by
  unfold well_formed; infer_instance

/-- The first address past a block: `(char *)b + sizeof(Block) + b->info.size * 16`,
over the integers. -/
def block_end (m : Nat → Nat) (b : Nat) : Nat := b + SIZEOF_BLOCK + rd_size m b * 16

/-- The block reached from `heap_start` after `k` steps of `next_block_in_addr`. -/
def nth_in_addr (s : Heap) : Nat → Nat
  | 0 => s.heap_start
  | k + 1 => next_block_in_addr s (nth_in_addr s k)

/-- The count the specification asks of `blocks_needed`: `ceil(size_in_bytes / 16)`
over the rationals, and at least 1. -/
def spec_blocks_needed (size_in_bytes : Nat) : Nat := max 1 ⌈(size_in_bytes : ℚ) / 16⌉₊

/-- The headers of the blocks `a` and `b` (32 bytes each) do not intersect. -/
def apart (a b : Nat) : Prop := a + SIZEOF_BLOCK ≤ b ∨ b + SIZEOF_BLOCK ≤ a

instance (a b : Nat) : Decidable (apart a b) := by
  unfold apart; infer_instance

/-- A store by the client of the word `v` at the address `a`, meant for an address
inside a region the client holds; the globals of the allocator are untouched. -/
def client_store (s : Heap) (a v : Nat) : Heap := { s with mem := wr s.mem a v }

/-- The blocks of `l`, in this order, form the doubly linked list that starts at
`start` and ends at `NULL`, and `p` is the `prev` of its first block. -/
def linked (m : Nat → Nat) : Nat → Nat → List Nat → Prop
  | _, start, [] => start = NULL
  | p, start, b :: bs => start = b ∧ b ≠ NULL ∧ rd_prev m b = p ∧ linked m b (rd_next m b) bs

/-! ## Behaviour on concrete sessions -/

/-- C1 fails on the growth path: on the empty heap `mymalloc(993)` needs 63 units,
the search rejects the 62-unit initial block, and the freshly grown 62-unit block
is handed out without a size check: the result `5152` is non-null and its block
records `62 * 16 = 992 < 993` bytes. -/
theorem mymalloc_growth_block_too_small :
    ∃ r ∈ Run.exec 8 (Run.start 4096 65536) [.malloc 993],
      r.rets = [5152] ∧ 5152 ≠ NULL ∧ r.heap.calls = 2 ∧
      rd_size r.heap.mem (block_of 5152) * 16 = 992 ∧ 992 < 993 := by
  decide

/-- C2 fails: after three 10-byte allocations the trailing free block at `4240`
records 56 units and so claims the bytes up to `5168`, 48 past the break `5120`.
With the first block released (1 unit, too small for what follows), the trailing
block is handed out whole for `mymalloc(896)`; `mymalloc(32)` then grows the heap
at `5120` and returns `5152`, whose block and data lie inside the live block of
`4272`.  `heap_start` is still the first block. -/
theorem live_blocks_overlap :
    ∃ r ∈ Run.exec 8 (Run.start 4096 65536)
        [.malloc 10, .malloc 10, .malloc 10, .free 4128, .malloc 896, .malloc 32],
      r.rets = [4128, 4176, 4224, 4272, 5152] ∧
      4272 ∈ r.live ∧ 5152 ∈ r.live ∧
      blocks_overlap r.heap.mem 4272 5152 ∧ data_overlap r.heap.mem 4272 5152 ∧
      rd_size r.heap.mem (block_of 4272) = 56 ∧ rd_size r.heap.mem (block_of 5152) = 2 ∧
      r.heap.heap_start = 4096 := by
  decide

/-- C4 fails after the first split: `mymalloc(10)` on the empty heap leaves a
1-unit block at `4096` and a 60-unit block at `4144`, whose footprints add up to
`48 + 992 = 1040` bytes although a single `sbrk(1024)` has been made. -/
theorem footprint_sum_exceeds_growth :
    ∃ r ∈ Run.exec 8 (Run.start 4096 65536) [.malloc 10],
      footprint_sum r.heap 8 r.heap.heap_start = some 1040 ∧
      r.heap.grown = 1 ∧ r.heap.calls = 1 ∧ 1040 ≠ HEAP_SIZE * 1 := by
  decide

/-- C5 fails: after `mymalloc(10)`, `myfree` and `mymalloc(10)` again the client
holds `4128`, whose block `4096` has `isfree = 0`, and that block is the `next`
of the free-list head `4144`. -/
theorem live_block_on_free_list :
    ∃ r ∈ Run.exec 8 (Run.start 4096 65536) [.malloc 10, .free 4128, .malloc 10],
      r.live = [4128] ∧ r.heap.free_list = 4144 ∧
      nth_free r.heap.mem r.heap.free_list 1 = block_of 4128 ∧
      rd_isfree r.heap.mem (block_of 4128) = 0 := by
  decide

/-- C6 fails once `heap_start` has moved: with both increments handed out, the
live blocks of `4128` and `4176` are address-adjacent 1-unit blocks; releasing
them in that order merges nothing, and `mymalloc(32)` needs a third `sbrk`. -/
theorem adjacent_release_still_grows :
    ∃ r ∈ Run.exec 8 (Run.start 4096 65536) [.malloc 10, .malloc 10, .malloc 928, .malloc 992],
      4128 ∈ r.live ∧ 4176 ∈ r.live ∧
      next_block_in_addr r.heap (block_of 4128) = block_of 4176 ∧
      16 * (rd_size r.heap.mem (block_of 4128) + rd_size r.heap.mem (block_of 4176)) = 32 ∧
      r.heap.calls = 2 ∧ r.heap.heap_start = 5120 ∧
      ∃ r2 ∈ Run.exec 8 r [.free 4128, .free 4176, .malloc 32],
        r2.heap.calls = 3 ∧ r2.heap.grown = 3 := by
  decide

/-- C7 fails on the initialisation path: with `sbrk` exhausted, `mymalloc(16)` on
the uninitialised heap returns `NULL` but has already stored `(void *)-1` in
`heap_start`. -/
theorem failed_init_clobbers_heap_start :
    (Heap.empty 4096 4096).heap_start = NULL ∧
    ∃ r ∈ mymalloc 8 (Heap.empty 4096 4096) 16,
      r.1 = NULL ∧ r.2.grown = 0 ∧ r.2.heap_start = 2 ^ 64 - 1 := by
  decide

theorem nth_free_succ (m : Nat → Nat) (start k : Nat) :
    nth_free m start (k + 1) = nth_free m (rd_next m start) k := by
  induction k with
  | zero => rfl
  | succ k ih => rw [nth_free, ih, nth_free]

theorem find_fit_nth (m : Nat → Nat) (needed : Nat) :
    ∀ (k fuel start : Nat), k < fuel →
      (∀ i ≤ k, nth_free m start i ≠ NULL) →
      (∀ i < k, ¬ fits m needed (nth_free m start i)) →
      fits m needed (nth_free m start k) →
      find_fit m needed fuel start = some (nth_free m start k) := by
  intro k
  induction k with
  | zero =>
    intro fuel start hf hnn _ hfit
    obtain ⟨f, rfl⟩ : ∃ f, fuel = f + 1 := ⟨fuel - 1, by omega⟩
    have h0 : start ≠ NULL := hnn 0 (le_refl 0)
    have hfit0 : rd_isfree m start ≠ 0 ∧ rd_size m start ≥ needed := hfit
    simp [find_fit, nth_free, h0, hfit0]
  | succ k ih =>
    intro fuel start hf hnn hno hfit
    obtain ⟨f, rfl⟩ : ∃ f, fuel = f + 1 := ⟨fuel - 1, by omega⟩
    have h0 : start ≠ NULL := hnn 0 (Nat.zero_le _)
    have hno0 : ¬ (rd_isfree m start ≠ 0 ∧ rd_size m start ≥ needed) := hno 0 (Nat.succ_pos k)
    rw [find_fit, if_neg h0, if_neg hno0, nth_free_succ]
    apply ih f (rd_next m start) (by omega)
    · intro i hi
      rw [← nth_free_succ]
      exact hnn (i + 1) (by omega)
    · intro i hi
      rw [← nth_free_succ]
      exact hno (i + 1) (by omega)
    · rw [← nth_free_succ]
      exact hfit

theorem split_block_fst (s : Heap) (b size : Nat) : (split_block s b size).1 = b := by
  unfold split_block
  split <;> rfl

theorem split_block_calls (s : Heap) (b size : Nat) :
    (split_block s b size).2.calls = s.calls ∧ (split_block s b size).2.grown = s.grown ∧
    (split_block s b size).2.brk = s.brk := by
  unfold split_block
  split <;> simp

theorem take_block_fst (s : Heap) (b k : Nat) : (take_block s b k).1 = data_of b := by
  unfold take_block
  split
  · simp [detach, split_block_fst]
  · simp [detach]

theorem take_block_calls (s : Heap) (b k : Nat) :
    (take_block s b k).2.calls = s.calls ∧ (take_block s b k).2.grown = s.grown ∧
    (take_block s b k).2.brk = s.brk := by
  unfold take_block
  split
  · simp [detach, split_block_calls]
  · simp [detach]

theorem init_heap_of_ne (s : Heap) (h : s.free_list ≠ NULL) : init_heap s = (s, true) := by
  simp [init_heap, h]

theorem units_needed_eq (n : Nat) (h0 : 0 < n) (h : n + 15 < W64) :
    units_needed n = numberof16blocks n := by
  unfold units_needed numberof16blocks
  rw [Nat.mod_eq_of_lt h]
  have : (n + 15) / 16 ≠ 0 := by omega
  simp [this]

theorem units_needed_pos (n : Nat) : 0 < units_needed n := by
  unfold units_needed
  split <;> omega

theorem data_of_eq (b : Nat) (h : b + SIZEOF_BLOCK < W64) : data_of b = b + SIZEOF_BLOCK :=
  Nat.mod_eq_of_lt h

theorem find_fit_head (m : Nat → Nat) (needed fuel b : Nat) (hb : b ≠ NULL)
    (h : fits m needed b) : find_fit m needed (fuel + 1) b = some b := by
  have h' : rd_isfree m b ≠ 0 ∧ rd_size m b ≥ needed := h
  rw [find_fit, if_neg hb, if_pos h']


theorem mymalloc_of_find (fuel : Nat) (s : Heap) (n b : Nat) (hn : 0 < n)
    (hfl : s.free_list ≠ NULL) (hb : b ≠ NULL)
    (hfind : find_fit s.mem (units_needed n) fuel s.free_list = some b) :
    mymalloc fuel s n = some (take_block s b (units_needed n)) := by
  have hn0 : n ≠ 0 := by omega
  unfold mymalloc
  rw [if_neg hn0]
  simp only [init_heap_of_ne s hfl, hfind, if_neg hb]
  rfl

theorem right_coalesce_fst (s : Heap) (b : Nat) : (right_coalesce s b).1 = b := by
  unfold right_coalesce
  simp only
  split <;> rfl

theorem push_free_head (s : Heap) (b : Nat) : (push_free s b).free_list = b := rfl

theorem sbrk_fail (s : Heap) (incr : Nat)
    (h : ¬ (s.brk + incr ≤ s.limit ∧ s.brk + incr < W64)) :
    sbrk s incr = (SBRK_FAIL, { s with calls := s.calls + 1 }) := by
  unfold sbrk
  rw [if_neg h]

/-- The growth path of `mymalloc` keeps the allocator state when `sbrk` fails: with
an initialised heap whose free list holds no fitting block, the call returns
`NULL` and only the ghost count of `sbrk` calls moves. -/
theorem failed_growth_keeps_state (fuel : Nat) (s : Heap) (n : Nat) (hn : 0 < n)
    (hfl : s.free_list ≠ NULL)
    (hfind : find_fit s.mem (units_needed n) fuel s.free_list = some NULL)
    (hfail : ¬ (s.brk + HEAP_SIZE ≤ s.limit ∧ s.brk + HEAP_SIZE < W64)) :
    mymalloc fuel s n = some (NULL, { s with calls := s.calls + 1 }) := by
  have hn0 : n ≠ 0 := by omega
  have hg : grow_heap s = (SBRK_FAIL, { s with calls := s.calls + 1 }) := by
    unfold grow_heap
    simp only [sbrk_fail s HEAP_SIZE hfail, if_true]
  unfold mymalloc
  rw [if_neg hn0]
  simp only [init_heap_of_ne s hfl, hfind, hg, if_true]
  rfl

/-! ## Claims that hold in every state -/

/-- C8: `mymalloc(0)` returns `NULL` and leaves the whole state as it was, the
`sbrk` counters included, whatever the state and the fuel. -/
theorem mymalloc_zero_is_noop (fuel : Nat) (s : Heap) :
    mymalloc fuel s 0 = some (NULL, s) := by
  unfold mymalloc
  rw [if_pos rfl]

theorem wr_apply (m : Nat → Nat) (a v x : Nat) : wr m a v x = if x = a then v else m x := rfl

theorem exec_cons (fuel : Nat) (r : Run) (c : Call) (cs : List Call) :
    Run.exec fuel r (c :: cs) =
      match Run.step fuel r c with
      | none => none
      | some r1 => Run.exec fuel r1 cs := rfl

theorem exec_nil (fuel : Nat) (r : Run) : Run.exec fuel r [] = some r := rfl

theorem step_malloc_eq (fuel : Nat) (h : Heap) (live rets : List Nat) (n : Nat) :
    Run.step fuel { heap := h, live := live, rets := rets } (Call.malloc n) =
      (mymalloc fuel h n).map (fun r =>
        { heap := r.2, live := if r.1 = NULL then live else r.1 :: live, rets := rets ++ [r.1] }) :=
  rfl

theorem step_free_eq (fuel : Nat) (h : Heap) (live rets : List Nat) (p : Nat) (hm : p ∈ live) :
    Run.step fuel { heap := h, live := live, rets := rets } (Call.free p) =
      (myfree fuel h p).map (fun h1 => { heap := h1, live := live.erase p, rets := rets }) := by
  unfold Run.step
  exact if_pos hm

/-- C10: the end-to-end scenario, for every initial break `base > 0` with room for
one increment and any positive fuel.  `A = mymalloc(10)` is `base + 32` and
`B = mymalloc(20)` is `base + 80`, so `B > A` and `[A, A+10)`, `[B, B+20)` are
disjoint; after `myfree(A)`, `mymalloc(8)` returns `A`; after `myfree(B)` the
block of `B` is free and is the address-order successor of the block of `A`;
after `myfree(A)` the block of `A` is free, its size is its old size plus the
size of `B`'s freed block plus 1, and no block follows it below the break. -/
theorem end_to_end_scenario (base limit fuel : Nat) (hbase : 0 < base) (hfuel : 0 < fuel)
    (hlim : base + HEAP_SIZE ≤ limit) (hw : base + HEAP_SIZE < W64) :
    ∃ r1 ∈ Run.exec fuel (Run.start base limit) [.malloc 10, .malloc 20],
      r1.rets = [base + 32, base + 80] ∧ base + 32 ≠ NULL ∧ base + 32 + 10 ≤ base + 80 ∧
      ∃ r2 ∈ Run.exec fuel r1 [.free (base + 32), .malloc 8],
        r2.rets = [base + 32, base + 80, base + 32] ∧
        ∃ r3 ∈ Run.exec fuel r2 [.free (base + 80)],
          rd_isfree r3.heap.mem (block_of (base + 80)) ≠ 0 ∧
          next_block_in_addr r3.heap (block_of (base + 32)) = block_of (base + 80) ∧
          ∃ r4 ∈ Run.exec fuel r3 [.free (base + 32)],
            rd_isfree r4.heap.mem (block_of (base + 32)) ≠ 0 ∧
            rd_size r4.heap.mem (block_of (base + 32)) =
              rd_size r3.heap.mem (block_of (base + 32)) +
                rd_size r3.heap.mem (block_of (base + 80)) + 1 ∧
            next_block_in_addr r4.heap (block_of (base + 32)) = NULL ∧
            r4.live = [] ∧ r4.heap.calls = 1 := by
  obtain ⟨c, rfl⟩ : ∃ c, base = c + 1 := ⟨base - 1, by omega⟩
  obtain ⟨f, rfl⟩ : ∃ f, fuel = f + 1 := ⟨fuel - 1, by omega⟩
  have hl' : c + 1025 ≤ limit := by unfold HEAP_SIZE at hlim; omega
  have hw' : c + 1025 < 18446744073709551616 := by unfold W64 HEAP_SIZE at hw; omega
  have hw2 : c ≤ 18446744073709550590 := by omega
  have hcc : ∀ k, (c + (k + 1) = c) = False := fun k => eq_false (by omega)
  have hcc2 : ∀ k, (c = c + (k + 1)) = False := fun k => eq_false (by omega)
  have hc1 : (c = 18446744073709551614) = False := eq_false (by omega)
  have hcle : ∀ k, (c + (k + 1) ≤ c) = False := fun k => eq_false (by omega)
  have e : ∀ k, k ≤ 1025 → (c + k) % 18446744073709551616 = c + k :=
    fun k hk => Nat.mod_eq_of_lt (by omega)
  have e33 := e 33 (by omega)
  have e49 := e 49 (by omega)
  have e81 := e 81 (by omega)
  have e113 := e 113 (by omega)
  have e1025 := e 1025 (by omega)
  have hbo32 : block_of (c + 33) = c + 1 := by
    unfold block_of sub64 W64 SIZEOF_BLOCK; split <;> omega
  have hbo80 : block_of (c + 81) = c + 49 := by
    unfold block_of sub64 W64 SIZEOF_BLOCK; split <;> omega
  simp only [Run.start, Heap.empty, Nat.add_assoc, Nat.reduceAdd]
  -- A = mymalloc(10)
  rw [exec_cons, step_malloc_eq]
  simp only [mymalloc, units_needed, numberof16blocks, init_heap, sbrk, hl', hw', sub64, NULL,
    SBRK_FAIL, HEAP_SIZE, SIZEOF_BLOCK, W64, wr_next, wr_prev, wr_isfree, wr_size, rd_next,
    rd_prev, rd_isfree, rd_size, wr_apply, hbo32, hbo80, hcc, hcc2, hc1, hcle, Nat.le_add_right,
    e33, e49, e81, e113, e1025, Nat.add_assoc, Nat.reduceAdd, Nat.reduceMul, Nat.reduceDiv,
    Nat.reduceMod, Nat.reducePow, Nat.reduceSub, Nat.reduceEqDiff, Nat.reduceLeDiff,
    Nat.reduceLTLE, ite_true, ite_false, and_self, and_true, true_and, if_true, if_false, ne_eq,
    not_true_eq_false, not_false_eq_true, ↓reduceIte, not_false_iff, and_false, false_and,
    Nat.zero_add, Nat.add_zero, Nat.zero_mul, Nat.zero_div, Nat.zero_mod, gt_iff_lt, ge_iff_le,
    hw2, List.nil_append, List.cons_append, List.mem_cons, List.mem_singleton, or_true, true_or,
    or_false, false_or, List.not_mem_nil, Option.map_some', Option.map_none', Bool.false_eq_true,
    Bool.true_eq_false, Nat.not_le, Nat.le_refl, Nat.lt_iff_add_one_le]
  simp only [find_fit, sub64, NULL, SBRK_FAIL, HEAP_SIZE, SIZEOF_BLOCK, W64, wr_next, wr_prev,
    wr_isfree, wr_size, rd_next, rd_prev, rd_isfree, rd_size, wr_apply, hbo32, hbo80, hcc, hcc2,
    hc1, hcle, Nat.le_add_right, e33, e49, e81, e113, e1025, Nat.add_assoc, Nat.reduceAdd,
    Nat.reduceMul, Nat.reduceDiv, Nat.reduceMod, Nat.reducePow, Nat.reduceSub, Nat.reduceEqDiff,
    Nat.reduceLeDiff, Nat.reduceLTLE, ite_true, ite_false, and_self, and_true, true_and, if_true,
    if_false, ne_eq, not_true_eq_false, not_false_eq_true, ↓reduceIte, not_false_iff, and_false,
    false_and, Nat.zero_add, Nat.add_zero, Nat.zero_mul, Nat.zero_div, Nat.zero_mod, gt_iff_lt,
    ge_iff_le, hw2, List.nil_append, List.cons_append, List.mem_cons, List.mem_singleton, or_true,
    true_or, or_false, false_or, List.not_mem_nil, Option.map_some', Option.map_none',
    Bool.false_eq_true, Bool.true_eq_false, Nat.not_le, Nat.le_refl, Nat.lt_iff_add_one_le]
  simp only [take_block, split_block, sub64, NULL, SBRK_FAIL, HEAP_SIZE, SIZEOF_BLOCK, W64,
    wr_next, wr_prev, wr_isfree, wr_size, rd_next, rd_prev, rd_isfree, rd_size, wr_apply, hbo32,
    hbo80, hcc, hcc2, hc1, hcle, Nat.le_add_right, e33, e49, e81, e113, e1025, Nat.add_assoc,
    Nat.reduceAdd, Nat.reduceMul, Nat.reduceDiv, Nat.reduceMod, Nat.reducePow, Nat.reduceSub,
    Nat.reduceEqDiff, Nat.reduceLeDiff, Nat.reduceLTLE, ite_true, ite_false, and_self, and_true,
    true_and, if_true, if_false, ne_eq, not_true_eq_false, not_false_eq_true, ↓reduceIte,
    not_false_iff, and_false, false_and, Nat.zero_add, Nat.add_zero, Nat.zero_mul, Nat.zero_div,
    Nat.zero_mod, gt_iff_lt, ge_iff_le, hw2, List.nil_append, List.cons_append, List.mem_cons,
    List.mem_singleton, or_true, true_or, or_false, false_or, List.not_mem_nil, Option.map_some',
    Option.map_none', Bool.false_eq_true, Bool.true_eq_false, Nat.not_le, Nat.le_refl,
    Nat.lt_iff_add_one_le]
  simp only [detach, data_of, sub64, NULL, SBRK_FAIL, HEAP_SIZE, SIZEOF_BLOCK, W64, wr_next,
    wr_prev, wr_isfree, wr_size, rd_next, rd_prev, rd_isfree, rd_size, wr_apply, hbo32, hbo80,
    hcc, hcc2, hc1, hcle, Nat.le_add_right, e33, e49, e81, e113, e1025, Nat.add_assoc,
    Nat.reduceAdd, Nat.reduceMul, Nat.reduceDiv, Nat.reduceMod, Nat.reducePow, Nat.reduceSub,
    Nat.reduceEqDiff, Nat.reduceLeDiff, Nat.reduceLTLE, ite_true, ite_false, and_self, and_true,
    true_and, if_true, if_false, ne_eq, not_true_eq_false, not_false_eq_true, ↓reduceIte,
    not_false_iff, and_false, false_and, Nat.zero_add, Nat.add_zero, Nat.zero_mul, Nat.zero_div,
    Nat.zero_mod, gt_iff_lt, ge_iff_le, hw2, List.nil_append, List.cons_append, List.mem_cons,
    List.mem_singleton, or_true, true_or, or_false, false_or, List.not_mem_nil, Option.map_some',
    Option.map_none', Bool.false_eq_true, Bool.true_eq_false, Nat.not_le, Nat.le_refl,
    Nat.lt_iff_add_one_le]
  -- B = mymalloc(20)
  rw [exec_cons, step_malloc_eq]
  simp only [mymalloc, units_needed, numberof16blocks, init_heap, sbrk, hl', hw', sub64, NULL,
    SBRK_FAIL, HEAP_SIZE, SIZEOF_BLOCK, W64, wr_next, wr_prev, wr_isfree, wr_size, rd_next,
    rd_prev, rd_isfree, rd_size, wr_apply, hbo32, hbo80, hcc, hcc2, hc1, hcle, Nat.le_add_right,
    e33, e49, e81, e113, e1025, Nat.add_assoc, Nat.reduceAdd, Nat.reduceMul, Nat.reduceDiv,
    Nat.reduceMod, Nat.reducePow, Nat.reduceSub, Nat.reduceEqDiff, Nat.reduceLeDiff,
    Nat.reduceLTLE, ite_true, ite_false, and_self, and_true, true_and, if_true, if_false, ne_eq,
    not_true_eq_false, not_false_eq_true, ↓reduceIte, not_false_iff, and_false, false_and,
    Nat.zero_add, Nat.add_zero, Nat.zero_mul, Nat.zero_div, Nat.zero_mod, gt_iff_lt, ge_iff_le,
    hw2, List.nil_append, List.cons_append, List.mem_cons, List.mem_singleton, or_true, true_or,
    or_false, false_or, List.not_mem_nil, Option.map_some', Option.map_none', Bool.false_eq_true,
    Bool.true_eq_false, Nat.not_le, Nat.le_refl, Nat.lt_iff_add_one_le]
  simp only [find_fit, sub64, NULL, SBRK_FAIL, HEAP_SIZE, SIZEOF_BLOCK, W64, wr_next, wr_prev,
    wr_isfree, wr_size, rd_next, rd_prev, rd_isfree, rd_size, wr_apply, hbo32, hbo80, hcc, hcc2,
    hc1, hcle, Nat.le_add_right, e33, e49, e81, e113, e1025, Nat.add_assoc, Nat.reduceAdd,
    Nat.reduceMul, Nat.reduceDiv, Nat.reduceMod, Nat.reducePow, Nat.reduceSub, Nat.reduceEqDiff,
    Nat.reduceLeDiff, Nat.reduceLTLE, ite_true, ite_false, and_self, and_true, true_and, if_true,
    if_false, ne_eq, not_true_eq_false, not_false_eq_true, ↓reduceIte, not_false_iff, and_false,
    false_and, Nat.zero_add, Nat.add_zero, Nat.zero_mul, Nat.zero_div, Nat.zero_mod, gt_iff_lt,
    ge_iff_le, hw2, List.nil_append, List.cons_append, List.mem_cons, List.mem_singleton, or_true,
    true_or, or_false, false_or, List.not_mem_nil, Option.map_some', Option.map_none',
    Bool.false_eq_true, Bool.true_eq_false, Nat.not_le, Nat.le_refl, Nat.lt_iff_add_one_le]
  simp only [take_block, split_block, sub64, NULL, SBRK_FAIL, HEAP_SIZE, SIZEOF_BLOCK, W64,
    wr_next, wr_prev, wr_isfree, wr_size, rd_next, rd_prev, rd_isfree, rd_size, wr_apply, hbo32,
    hbo80, hcc, hcc2, hc1, hcle, Nat.le_add_right, e33, e49, e81, e113, e1025, Nat.add_assoc,
    Nat.reduceAdd, Nat.reduceMul, Nat.reduceDiv, Nat.reduceMod, Nat.reducePow, Nat.reduceSub,
    Nat.reduceEqDiff, Nat.reduceLeDiff, Nat.reduceLTLE, ite_true, ite_false, and_self, and_true,
    true_and, if_true, if_false, ne_eq, not_true_eq_false, not_false_eq_true, ↓reduceIte,
    not_false_iff, and_false, false_and, Nat.zero_add, Nat.add_zero, Nat.zero_mul, Nat.zero_div,
    Nat.zero_mod, gt_iff_lt, ge_iff_le, hw2, List.nil_append, List.cons_append, List.mem_cons,
    List.mem_singleton, or_true, true_or, or_false, false_or, List.not_mem_nil, Option.map_some',
    Option.map_none', Bool.false_eq_true, Bool.true_eq_false, Nat.not_le, Nat.le_refl,
    Nat.lt_iff_add_one_le]
  simp only [detach, data_of, sub64, NULL, SBRK_FAIL, HEAP_SIZE, SIZEOF_BLOCK, W64, wr_next,
    wr_prev, wr_isfree, wr_size, rd_next, rd_prev, rd_isfree, rd_size, wr_apply, hbo32, hbo80,
    hcc, hcc2, hc1, hcle, Nat.le_add_right, e33, e49, e81, e113, e1025, Nat.add_assoc,
    Nat.reduceAdd, Nat.reduceMul, Nat.reduceDiv, Nat.reduceMod, Nat.reducePow, Nat.reduceSub,
    Nat.reduceEqDiff, Nat.reduceLeDiff, Nat.reduceLTLE, ite_true, ite_false, and_self, and_true,
    true_and, if_true, if_false, ne_eq, not_true_eq_false, not_false_eq_true, ↓reduceIte,
    not_false_iff, and_false, false_and, Nat.zero_add, Nat.add_zero, Nat.zero_mul, Nat.zero_div,
    Nat.zero_mod, gt_iff_lt, ge_iff_le, hw2, List.nil_append, List.cons_append, List.mem_cons,
    List.mem_singleton, or_true, true_or, or_false, false_or, List.not_mem_nil, Option.map_some',
    Option.map_none', Bool.false_eq_true, Bool.true_eq_false, Nat.not_le, Nat.le_refl,
    Nat.lt_iff_add_one_le]
  simp only [exec_nil, Option.mem_def, Option.some.injEq, exists_eq_left', List.cons.injEq, sub64,
    NULL, SBRK_FAIL, HEAP_SIZE, SIZEOF_BLOCK, W64, wr_next, wr_prev, wr_isfree, wr_size, rd_next,
    rd_prev, rd_isfree, rd_size, wr_apply, hbo32, hbo80, hcc, hcc2, hc1, hcle, Nat.le_add_right,
    e33, e49, e81, e113, e1025, Nat.add_assoc, Nat.reduceAdd, Nat.reduceMul, Nat.reduceDiv,
    Nat.reduceMod, Nat.reducePow, Nat.reduceSub, Nat.reduceEqDiff, Nat.reduceLeDiff,
    Nat.reduceLTLE, ite_true, ite_false, and_self, and_true, true_and, if_true, if_false, ne_eq,
    not_true_eq_false, not_false_eq_true, ↓reduceIte, not_false_iff, and_false, false_and,
    Nat.zero_add, Nat.add_zero, Nat.zero_mul, Nat.zero_div, Nat.zero_mod, gt_iff_lt, ge_iff_le,
    hw2, List.nil_append, List.cons_append, List.mem_cons, List.mem_singleton, or_true, true_or,
    or_false, false_or, List.not_mem_nil, Option.map_some', Option.map_none', Bool.false_eq_true,
    Bool.true_eq_false, Nat.not_le, Nat.le_refl, Nat.lt_iff_add_one_le]
  -- myfree(A)
  rw [exec_cons, step_free_eq _ _ _ _ _ (by simp)]
  simp only [myfree, free_block, sub64, NULL, SBRK_FAIL, HEAP_SIZE, SIZEOF_BLOCK, W64, wr_next,
    wr_prev, wr_isfree, wr_size, rd_next, rd_prev, rd_isfree, rd_size, wr_apply, hbo32, hbo80,
    hcc, hcc2, hc1, hcle, Nat.le_add_right, e33, e49, e81, e113, e1025, Nat.add_assoc,
    Nat.reduceAdd, Nat.reduceMul, Nat.reduceDiv, Nat.reduceMod, Nat.reducePow, Nat.reduceSub,
    Nat.reduceEqDiff, Nat.reduceLeDiff, Nat.reduceLTLE, ite_true, ite_false, and_self, and_true,
    true_and, if_true, if_false, ne_eq, not_true_eq_false, not_false_eq_true, ↓reduceIte,
    not_false_iff, and_false, false_and, Nat.zero_add, Nat.add_zero, Nat.zero_mul, Nat.zero_div,
    Nat.zero_mod, gt_iff_lt, ge_iff_le, hw2, List.nil_append, List.cons_append, List.mem_cons,
    List.mem_singleton, or_true, true_or, or_false, false_or, List.not_mem_nil, Option.map_some',
    Option.map_none', Bool.false_eq_true, Bool.true_eq_false, Nat.not_le, Nat.le_refl,
    Nat.lt_iff_add_one_le]
  simp only [left_coalesce, prev_block_in_addr, prev_scan, next_block_in_addr, sub64, NULL,
    SBRK_FAIL, HEAP_SIZE, SIZEOF_BLOCK, W64, wr_next, wr_prev, wr_isfree, wr_size, rd_next,
    rd_prev, rd_isfree, rd_size, wr_apply, hbo32, hbo80, hcc, hcc2, hc1, hcle, Nat.le_add_right,
    e33, e49, e81, e113, e1025, Nat.add_assoc, Nat.reduceAdd, Nat.reduceMul, Nat.reduceDiv,
    Nat.reduceMod, Nat.reducePow, Nat.reduceSub, Nat.reduceEqDiff, Nat.reduceLeDiff,
    Nat.reduceLTLE, ite_true, ite_false, and_self, and_true, true_and, if_true, if_false, ne_eq,
    not_true_eq_false, not_false_eq_true, ↓reduceIte, not_false_iff, and_false, false_and,
    Nat.zero_add, Nat.add_zero, Nat.zero_mul, Nat.zero_div, Nat.zero_mod, gt_iff_lt, ge_iff_le,
    hw2, List.nil_append, List.cons_append, List.mem_cons, List.mem_singleton, or_true, true_or,
    or_false, false_or, List.not_mem_nil, Option.map_some', Option.map_none', Bool.false_eq_true,
    Bool.true_eq_false, Nat.not_le, Nat.le_refl, Nat.lt_iff_add_one_le]
  simp only [left_coalesce_with, sub64, NULL, SBRK_FAIL, HEAP_SIZE, SIZEOF_BLOCK, W64, wr_next,
    wr_prev, wr_isfree, wr_size, rd_next, rd_prev, rd_isfree, rd_size, wr_apply, hbo32, hbo80,
    hcc, hcc2, hc1, hcle, Nat.le_add_right, e33, e49, e81, e113, e1025, Nat.add_assoc,
    Nat.reduceAdd, Nat.reduceMul, Nat.reduceDiv, Nat.reduceMod, Nat.reducePow, Nat.reduceSub,
    Nat.reduceEqDiff, Nat.reduceLeDiff, Nat.reduceLTLE, ite_true, ite_false, and_self, and_true,
    true_and, if_true, if_false, ne_eq, not_true_eq_false, not_false_eq_true, ↓reduceIte,
    not_false_iff, and_false, false_and, Nat.zero_add, Nat.add_zero, Nat.zero_mul, Nat.zero_div,
    Nat.zero_mod, gt_iff_lt, ge_iff_le, hw2, List.nil_append, List.cons_append, List.mem_cons,
    List.mem_singleton, or_true, true_or, or_false, false_or, List.not_mem_nil, Option.map_some',
    Option.map_none', Bool.false_eq_true, Bool.true_eq_false, Nat.not_le, Nat.le_refl,
    Nat.lt_iff_add_one_le]
  simp only [right_coalesce, next_block_in_addr, sub64, NULL, SBRK_FAIL, HEAP_SIZE, SIZEOF_BLOCK,
    W64, wr_next, wr_prev, wr_isfree, wr_size, rd_next, rd_prev, rd_isfree, rd_size, wr_apply,
    hbo32, hbo80, hcc, hcc2, hc1, hcle, Nat.le_add_right, e33, e49, e81, e113, e1025,
    Nat.add_assoc, Nat.reduceAdd, Nat.reduceMul, Nat.reduceDiv, Nat.reduceMod, Nat.reducePow,
    Nat.reduceSub, Nat.reduceEqDiff, Nat.reduceLeDiff, Nat.reduceLTLE, ite_true, ite_false,
    and_self, and_true, true_and, if_true, if_false, ne_eq, not_true_eq_false, not_false_eq_true,
    ↓reduceIte, not_false_iff, and_false, false_and, Nat.zero_add, Nat.add_zero, Nat.zero_mul,
    Nat.zero_div, Nat.zero_mod, gt_iff_lt, ge_iff_le, hw2, List.nil_append, List.cons_append,
    List.mem_cons, List.mem_singleton, or_true, true_or, or_false, false_or, List.not_mem_nil,
    Option.map_some', Option.map_none', Bool.false_eq_true, Bool.true_eq_false, Nat.not_le,
    Nat.le_refl, Nat.lt_iff_add_one_le]
  simp only [push_free, List.erase_cons_head, List.erase_cons_tail, beq_iff_eq, List.erase_nil,
    sub64, NULL, SBRK_FAIL, HEAP_SIZE, SIZEOF_BLOCK, W64, wr_next, wr_prev, wr_isfree, wr_size,
    rd_next, rd_prev, rd_isfree, rd_size, wr_apply, hbo32, hbo80, hcc, hcc2, hc1, hcle,
    Nat.le_add_right, e33, e49, e81, e113, e1025, Nat.add_assoc, Nat.reduceAdd, Nat.reduceMul,
    Nat.reduceDiv, Nat.reduceMod, Nat.reducePow, Nat.reduceSub, Nat.reduceEqDiff,
    Nat.reduceLeDiff, Nat.reduceLTLE, ite_true, ite_false, and_self, and_true, true_and, if_true,
    if_false, ne_eq, not_true_eq_false, not_false_eq_true, ↓reduceIte, not_false_iff, and_false,
    false_and, Nat.zero_add, Nat.add_zero, Nat.zero_mul, Nat.zero_div, Nat.zero_mod, gt_iff_lt,
    ge_iff_le, hw2, List.nil_append, List.cons_append, List.mem_cons, List.mem_singleton, or_true,
    true_or, or_false, false_or, List.not_mem_nil, Option.map_some', Option.map_none',
    Bool.false_eq_true, Bool.true_eq_false, Nat.not_le, Nat.le_refl, Nat.lt_iff_add_one_le]
  -- mymalloc(8)
  rw [exec_cons, step_malloc_eq]
  simp only [mymalloc, units_needed, numberof16blocks, init_heap, sbrk, hl', hw', sub64, NULL,
    SBRK_FAIL, HEAP_SIZE, SIZEOF_BLOCK, W64, wr_next, wr_prev, wr_isfree, wr_size, rd_next,
    rd_prev, rd_isfree, rd_size, wr_apply, hbo32, hbo80, hcc, hcc2, hc1, hcle, Nat.le_add_right,
    e33, e49, e81, e113, e1025, Nat.add_assoc, Nat.reduceAdd, Nat.reduceMul, Nat.reduceDiv,
    Nat.reduceMod, Nat.reducePow, Nat.reduceSub, Nat.reduceEqDiff, Nat.reduceLeDiff,
    Nat.reduceLTLE, ite_true, ite_false, and_self, and_true, true_and, if_true, if_false, ne_eq,
    not_true_eq_false, not_false_eq_true, ↓reduceIte, not_false_iff, and_false, false_and,
    Nat.zero_add, Nat.add_zero, Nat.zero_mul, Nat.zero_div, Nat.zero_mod, gt_iff_lt, ge_iff_le,
    hw2, List.nil_append, List.cons_append, List.mem_cons, List.mem_singleton, or_true, true_or,
    or_false, false_or, List.not_mem_nil, Option.map_some', Option.map_none', Bool.false_eq_true,
    Bool.true_eq_false, Nat.not_le, Nat.le_refl, Nat.lt_iff_add_one_le]
  simp only [find_fit, sub64, NULL, SBRK_FAIL, HEAP_SIZE, SIZEOF_BLOCK, W64, wr_next, wr_prev,
    wr_isfree, wr_size, rd_next, rd_prev, rd_isfree, rd_size, wr_apply, hbo32, hbo80, hcc, hcc2,
    hc1, hcle, Nat.le_add_right, e33, e49, e81, e113, e1025, Nat.add_assoc, Nat.reduceAdd,
    Nat.reduceMul, Nat.reduceDiv, Nat.reduceMod, Nat.reducePow, Nat.reduceSub, Nat.reduceEqDiff,
    Nat.reduceLeDiff, Nat.reduceLTLE, ite_true, ite_false, and_self, and_true, true_and, if_true,
    if_false, ne_eq, not_true_eq_false, not_false_eq_true, ↓reduceIte, not_false_iff, and_false,
    false_and, Nat.zero_add, Nat.add_zero, Nat.zero_mul, Nat.zero_div, Nat.zero_mod, gt_iff_lt,
    ge_iff_le, hw2, List.nil_append, List.cons_append, List.mem_cons, List.mem_singleton, or_true,
    true_or, or_false, false_or, List.not_mem_nil, Option.map_some', Option.map_none',
    Bool.false_eq_true, Bool.true_eq_false, Nat.not_le, Nat.le_refl, Nat.lt_iff_add_one_le]
  simp only [take_block, split_block, sub64, NULL, SBRK_FAIL, HEAP_SIZE, SIZEOF_BLOCK, W64,
    wr_next, wr_prev, wr_isfree, wr_size, rd_next, rd_prev, rd_isfree, rd_size, wr_apply, hbo32,
    hbo80, hcc, hcc2, hc1, hcle, Nat.le_add_right, e33, e49, e81, e113, e1025, Nat.add_assoc,
    Nat.reduceAdd, Nat.reduceMul, Nat.reduceDiv, Nat.reduceMod, Nat.reducePow, Nat.reduceSub,
    Nat.reduceEqDiff, Nat.reduceLeDiff, Nat.reduceLTLE, ite_true, ite_false, and_self, and_true,
    true_and, if_true, if_false, ne_eq, not_true_eq_false, not_false_eq_true, ↓reduceIte,
    not_false_iff, and_false, false_and, Nat.zero_add, Nat.add_zero, Nat.zero_mul, Nat.zero_div,
    Nat.zero_mod, gt_iff_lt, ge_iff_le, hw2, List.nil_append, List.cons_append, List.mem_cons,
    List.mem_singleton, or_true, true_or, or_false, false_or, List.not_mem_nil, Option.map_some',
    Option.map_none', Bool.false_eq_true, Bool.true_eq_false, Nat.not_le, Nat.le_refl,
    Nat.lt_iff_add_one_le]
  simp only [detach, data_of, sub64, NULL, SBRK_FAIL, HEAP_SIZE, SIZEOF_BLOCK, W64, wr_next,
    wr_prev, wr_isfree, wr_size, rd_next, rd_prev, rd_isfree, rd_size, wr_apply, hbo32, hbo80,
    hcc, hcc2, hc1, hcle, Nat.le_add_right, e33, e49, e81, e113, e1025, Nat.add_assoc,
    Nat.reduceAdd, Nat.reduceMul, Nat.reduceDiv, Nat.reduceMod, Nat.reducePow, Nat.reduceSub,
    Nat.reduceEqDiff, Nat.reduceLeDiff, Nat.reduceLTLE, ite_true, ite_false, and_self, and_true,
    true_and, if_true, if_false, ne_eq, not_true_eq_false, not_false_eq_true, ↓reduceIte,
    not_false_iff, and_false, false_and, Nat.zero_add, Nat.add_zero, Nat.zero_mul, Nat.zero_div,
    Nat.zero_mod, gt_iff_lt, ge_iff_le, hw2, List.nil_append, List.cons_append, List.mem_cons,
    List.mem_singleton, or_true, true_or, or_false, false_or, List.not_mem_nil, Option.map_some',
    Option.map_none', Bool.false_eq_true, Bool.true_eq_false, Nat.not_le, Nat.le_refl,
    Nat.lt_iff_add_one_le]
  simp only [exec_nil, Option.mem_def, Option.some.injEq, exists_eq_left', List.cons.injEq, sub64,
    NULL, SBRK_FAIL, HEAP_SIZE, SIZEOF_BLOCK, W64, wr_next, wr_prev, wr_isfree, wr_size, rd_next,
    rd_prev, rd_isfree, rd_size, wr_apply, hbo32, hbo80, hcc, hcc2, hc1, hcle, Nat.le_add_right,
    e33, e49, e81, e113, e1025, Nat.add_assoc, Nat.reduceAdd, Nat.reduceMul, Nat.reduceDiv,
    Nat.reduceMod, Nat.reducePow, Nat.reduceSub, Nat.reduceEqDiff, Nat.reduceLeDiff,
    Nat.reduceLTLE, ite_true, ite_false, and_self, and_true, true_and, if_true, if_false, ne_eq,
    not_true_eq_false, not_false_eq_true, ↓reduceIte, not_false_iff, and_false, false_and,
    Nat.zero_add, Nat.add_zero, Nat.zero_mul, Nat.zero_div, Nat.zero_mod, gt_iff_lt, ge_iff_le,
    hw2, List.nil_append, List.cons_append, List.mem_cons, List.mem_singleton, or_true, true_or,
    or_false, false_or, List.not_mem_nil, Option.map_some', Option.map_none', Bool.false_eq_true,
    Bool.true_eq_false, Nat.not_le, Nat.le_refl, Nat.lt_iff_add_one_le]
  -- myfree(B)
  rw [exec_cons, step_free_eq _ _ _ _ _ (by simp)]
  simp only [myfree, free_block, sub64, NULL, SBRK_FAIL, HEAP_SIZE, SIZEOF_BLOCK, W64, wr_next,
    wr_prev, wr_isfree, wr_size, rd_next, rd_prev, rd_isfree, rd_size, wr_apply, hbo32, hbo80,
    hcc, hcc2, hc1, hcle, Nat.le_add_right, e33, e49, e81, e113, e1025, Nat.add_assoc,
    Nat.reduceAdd, Nat.reduceMul, Nat.reduceDiv, Nat.reduceMod, Nat.reducePow, Nat.reduceSub,
    Nat.reduceEqDiff, Nat.reduceLeDiff, Nat.reduceLTLE, ite_true, ite_false, and_self, and_true,
    true_and, if_true, if_false, ne_eq, not_true_eq_false, not_false_eq_true, ↓reduceIte,
    not_false_iff, and_false, false_and, Nat.zero_add, Nat.add_zero, Nat.zero_mul, Nat.zero_div,
    Nat.zero_mod, gt_iff_lt, ge_iff_le, hw2, List.nil_append, List.cons_append, List.mem_cons,
    List.mem_singleton, or_true, true_or, or_false, false_or, List.not_mem_nil, Option.map_some',
    Option.map_none', Bool.false_eq_true, Bool.true_eq_false, Nat.not_le, Nat.le_refl,
    Nat.lt_iff_add_one_le]
  simp only [left_coalesce, prev_block_in_addr, prev_scan, next_block_in_addr, sub64, NULL,
    SBRK_FAIL, HEAP_SIZE, SIZEOF_BLOCK, W64, wr_next, wr_prev, wr_isfree, wr_size, rd_next,
    rd_prev, rd_isfree, rd_size, wr_apply, hbo32, hbo80, hcc, hcc2, hc1, hcle, Nat.le_add_right,
    e33, e49, e81, e113, e1025, Nat.add_assoc, Nat.reduceAdd, Nat.reduceMul, Nat.reduceDiv,
    Nat.reduceMod, Nat.reducePow, Nat.reduceSub, Nat.reduceEqDiff, Nat.reduceLeDiff,
    Nat.reduceLTLE, ite_true, ite_false, and_self, and_true, true_and, if_true, if_false, ne_eq,
    not_true_eq_false, not_false_eq_true, ↓reduceIte, not_false_iff, and_false, false_and,
    Nat.zero_add, Nat.add_zero, Nat.zero_mul, Nat.zero_div, Nat.zero_mod, gt_iff_lt, ge_iff_le,
    hw2, List.nil_append, List.cons_append, List.mem_cons, List.mem_singleton, or_true, true_or,
    or_false, false_or, List.not_mem_nil, Option.map_some', Option.map_none', Bool.false_eq_true,
    Bool.true_eq_false, Nat.not_le, Nat.le_refl, Nat.lt_iff_add_one_le]
  simp only [left_coalesce_with, sub64, NULL, SBRK_FAIL, HEAP_SIZE, SIZEOF_BLOCK, W64, wr_next,
    wr_prev, wr_isfree, wr_size, rd_next, rd_prev, rd_isfree, rd_size, wr_apply, hbo32, hbo80,
    hcc, hcc2, hc1, hcle, Nat.le_add_right, e33, e49, e81, e113, e1025, Nat.add_assoc,
    Nat.reduceAdd, Nat.reduceMul, Nat.reduceDiv, Nat.reduceMod, Nat.reducePow, Nat.reduceSub,
    Nat.reduceEqDiff, Nat.reduceLeDiff, Nat.reduceLTLE, ite_true, ite_false, and_self, and_true,
    true_and, if_true, if_false, ne_eq, not_true_eq_false, not_false_eq_true, ↓reduceIte,
    not_false_iff, and_false, false_and, Nat.zero_add, Nat.add_zero, Nat.zero_mul, Nat.zero_div,
    Nat.zero_mod, gt_iff_lt, ge_iff_le, hw2, List.nil_append, List.cons_append, List.mem_cons,
    List.mem_singleton, or_true, true_or, or_false, false_or, List.not_mem_nil, Option.map_some',
    Option.map_none', Bool.false_eq_true, Bool.true_eq_false, Nat.not_le, Nat.le_refl,
    Nat.lt_iff_add_one_le]
  simp only [right_coalesce, next_block_in_addr, sub64, NULL, SBRK_FAIL, HEAP_SIZE, SIZEOF_BLOCK,
    W64, wr_next, wr_prev, wr_isfree, wr_size, rd_next, rd_prev, rd_isfree, rd_size, wr_apply,
    hbo32, hbo80, hcc, hcc2, hc1, hcle, Nat.le_add_right, e33, e49, e81, e113, e1025,
    Nat.add_assoc, Nat.reduceAdd, Nat.reduceMul, Nat.reduceDiv, Nat.reduceMod, Nat.reducePow,
    Nat.reduceSub, Nat.reduceEqDiff, Nat.reduceLeDiff, Nat.reduceLTLE, ite_true, ite_false,
    and_self, and_true, true_and, if_true, if_false, ne_eq, not_true_eq_false, not_false_eq_true,
    ↓reduceIte, not_false_iff, and_false, false_and, Nat.zero_add, Nat.add_zero, Nat.zero_mul,
    Nat.zero_div, Nat.zero_mod, gt_iff_lt, ge_iff_le, hw2, List.nil_append, List.cons_append,
    List.mem_cons, List.mem_singleton, or_true, true_or, or_false, false_or, List.not_mem_nil,
    Option.map_some', Option.map_none', Bool.false_eq_true, Bool.true_eq_false, Nat.not_le,
    Nat.le_refl, Nat.lt_iff_add_one_le]
  simp only [push_free, List.erase_cons_head, List.erase_cons_tail, beq_iff_eq, List.erase_nil,
    sub64, NULL, SBRK_FAIL, HEAP_SIZE, SIZEOF_BLOCK, W64, wr_next, wr_prev, wr_isfree, wr_size,
    rd_next, rd_prev, rd_isfree, rd_size, wr_apply, hbo32, hbo80, hcc, hcc2, hc1, hcle,
    Nat.le_add_right, e33, e49, e81, e113, e1025, Nat.add_assoc, Nat.reduceAdd, Nat.reduceMul,
    Nat.reduceDiv, Nat.reduceMod, Nat.reducePow, Nat.reduceSub, Nat.reduceEqDiff,
    Nat.reduceLeDiff, Nat.reduceLTLE, ite_true, ite_false, and_self, and_true, true_and, if_true,
    if_false, ne_eq, not_true_eq_false, not_false_eq_true, ↓reduceIte, not_false_iff, and_false,
    false_and, Nat.zero_add, Nat.add_zero, Nat.zero_mul, Nat.zero_div, Nat.zero_mod, gt_iff_lt,
    ge_iff_le, hw2, List.nil_append, List.cons_append, List.mem_cons, List.mem_singleton, or_true,
    true_or, or_false, false_or, List.not_mem_nil, Option.map_some', Option.map_none',
    Bool.false_eq_true, Bool.true_eq_false, Nat.not_le, Nat.le_refl, Nat.lt_iff_add_one_le]
  simp only [exec_nil, Option.mem_def, Option.some.injEq, exists_eq_left', List.cons.injEq, sub64,
    NULL, SBRK_FAIL, HEAP_SIZE, SIZEOF_BLOCK, W64, wr_next, wr_prev, wr_isfree, wr_size, rd_next,
    rd_prev, rd_isfree, rd_size, wr_apply, hbo32, hbo80, hcc, hcc2, hc1, hcle, Nat.le_add_right,
    e33, e49, e81, e113, e1025, Nat.add_assoc, Nat.reduceAdd, Nat.reduceMul, Nat.reduceDiv,
    Nat.reduceMod, Nat.reducePow, Nat.reduceSub, Nat.reduceEqDiff, Nat.reduceLeDiff,
    Nat.reduceLTLE, ite_true, ite_false, and_self, and_true, true_and, if_true, if_false, ne_eq,
    not_true_eq_false, not_false_eq_true, ↓reduceIte, not_false_iff, and_false, false_and,
    Nat.zero_add, Nat.add_zero, Nat.zero_mul, Nat.zero_div, Nat.zero_mod, gt_iff_lt, ge_iff_le,
    hw2, List.nil_append, List.cons_append, List.mem_cons, List.mem_singleton, or_true, true_or,
    or_false, false_or, List.not_mem_nil, Option.map_some', Option.map_none', Bool.false_eq_true,
    Bool.true_eq_false, Nat.not_le, Nat.le_refl, Nat.lt_iff_add_one_le]
  -- myfree(A)
  rw [exec_cons, step_free_eq _ _ _ _ _ (by simp)]
  simp only [myfree, free_block, sub64, NULL, SBRK_FAIL, HEAP_SIZE, SIZEOF_BLOCK, W64, wr_next,
    wr_prev, wr_isfree, wr_size, rd_next, rd_prev, rd_isfree, rd_size, wr_apply, hbo32, hbo80,
    hcc, hcc2, hc1, hcle, Nat.le_add_right, e33, e49, e81, e113, e1025, Nat.add_assoc,
    Nat.reduceAdd, Nat.reduceMul, Nat.reduceDiv, Nat.reduceMod, Nat.reducePow, Nat.reduceSub,
    Nat.reduceEqDiff, Nat.reduceLeDiff, Nat.reduceLTLE, ite_true, ite_false, and_self, and_true,
    true_and, if_true, if_false, ne_eq, not_true_eq_false, not_false_eq_true, ↓reduceIte,
    not_false_iff, and_false, false_and, Nat.zero_add, Nat.add_zero, Nat.zero_mul, Nat.zero_div,
    Nat.zero_mod, gt_iff_lt, ge_iff_le, hw2, List.nil_append, List.cons_append, List.mem_cons,
    List.mem_singleton, or_true, true_or, or_false, false_or, List.not_mem_nil, Option.map_some',
    Option.map_none', Bool.false_eq_true, Bool.true_eq_false, Nat.not_le, Nat.le_refl,
    Nat.lt_iff_add_one_le]
  simp only [left_coalesce, prev_block_in_addr, prev_scan, next_block_in_addr, sub64, NULL,
    SBRK_FAIL, HEAP_SIZE, SIZEOF_BLOCK, W64, wr_next, wr_prev, wr_isfree, wr_size, rd_next,
    rd_prev, rd_isfree, rd_size, wr_apply, hbo32, hbo80, hcc, hcc2, hc1, hcle, Nat.le_add_right,
    e33, e49, e81, e113, e1025, Nat.add_assoc, Nat.reduceAdd, Nat.reduceMul, Nat.reduceDiv,
    Nat.reduceMod, Nat.reducePow, Nat.reduceSub, Nat.reduceEqDiff, Nat.reduceLeDiff,
    Nat.reduceLTLE, ite_true, ite_false, and_self, and_true, true_and, if_true, if_false, ne_eq,
    not_true_eq_false, not_false_eq_true, ↓reduceIte, not_false_iff, and_false, false_and,
    Nat.zero_add, Nat.add_zero, Nat.zero_mul, Nat.zero_div, Nat.zero_mod, gt_iff_lt, ge_iff_le,
    hw2, List.nil_append, List.cons_append, List.mem_cons, List.mem_singleton, or_true, true_or,
    or_false, false_or, List.not_mem_nil, Option.map_some', Option.map_none', Bool.false_eq_true,
    Bool.true_eq_false, Nat.not_le, Nat.le_refl, Nat.lt_iff_add_one_le]
  simp only [left_coalesce_with, sub64, NULL, SBRK_FAIL, HEAP_SIZE, SIZEOF_BLOCK, W64, wr_next,
    wr_prev, wr_isfree, wr_size, rd_next, rd_prev, rd_isfree, rd_size, wr_apply, hbo32, hbo80,
    hcc, hcc2, hc1, hcle, Nat.le_add_right, e33, e49, e81, e113, e1025, Nat.add_assoc,
    Nat.reduceAdd, Nat.reduceMul, Nat.reduceDiv, Nat.reduceMod, Nat.reducePow, Nat.reduceSub,
    Nat.reduceEqDiff, Nat.reduceLeDiff, Nat.reduceLTLE, ite_true, ite_false, and_self, and_true,
    true_and, if_true, if_false, ne_eq, not_true_eq_false, not_false_eq_true, ↓reduceIte,
    not_false_iff, and_false, false_and, Nat.zero_add, Nat.add_zero, Nat.zero_mul, Nat.zero_div,
    Nat.zero_mod, gt_iff_lt, ge_iff_le, hw2, List.nil_append, List.cons_append, List.mem_cons,
    List.mem_singleton, or_true, true_or, or_false, false_or, List.not_mem_nil, Option.map_some',
    Option.map_none', Bool.false_eq_true, Bool.true_eq_false, Nat.not_le, Nat.le_refl,
    Nat.lt_iff_add_one_le]
  simp only [right_coalesce, next_block_in_addr, sub64, NULL, SBRK_FAIL, HEAP_SIZE, SIZEOF_BLOCK,
    W64, wr_next, wr_prev, wr_isfree, wr_size, rd_next, rd_prev, rd_isfree, rd_size, wr_apply,
    hbo32, hbo80, hcc, hcc2, hc1, hcle, Nat.le_add_right, e33, e49, e81, e113, e1025,
    Nat.add_assoc, Nat.reduceAdd, Nat.reduceMul, Nat.reduceDiv, Nat.reduceMod, Nat.reducePow,
    Nat.reduceSub, Nat.reduceEqDiff, Nat.reduceLeDiff, Nat.reduceLTLE, ite_true, ite_false,
    and_self, and_true, true_and, if_true, if_false, ne_eq, not_true_eq_false, not_false_eq_true,
    ↓reduceIte, not_false_iff, and_false, false_and, Nat.zero_add, Nat.add_zero, Nat.zero_mul,
    Nat.zero_div, Nat.zero_mod, gt_iff_lt, ge_iff_le, hw2, List.nil_append, List.cons_append,
    List.mem_cons, List.mem_singleton, or_true, true_or, or_false, false_or, List.not_mem_nil,
    Option.map_some', Option.map_none', Bool.false_eq_true, Bool.true_eq_false, Nat.not_le,
    Nat.le_refl, Nat.lt_iff_add_one_le]
  simp only [push_free, List.erase_cons_head, List.erase_cons_tail, beq_iff_eq, List.erase_nil,
    sub64, NULL, SBRK_FAIL, HEAP_SIZE, SIZEOF_BLOCK, W64, wr_next, wr_prev, wr_isfree, wr_size,
    rd_next, rd_prev, rd_isfree, rd_size, wr_apply, hbo32, hbo80, hcc, hcc2, hc1, hcle,
    Nat.le_add_right, e33, e49, e81, e113, e1025, Nat.add_assoc, Nat.reduceAdd, Nat.reduceMul,
    Nat.reduceDiv, Nat.reduceMod, Nat.reducePow, Nat.reduceSub, Nat.reduceEqDiff,
    Nat.reduceLeDiff, Nat.reduceLTLE, ite_true, ite_false, and_self, and_true, true_and, if_true,
    if_false, ne_eq, not_true_eq_false, not_false_eq_true, ↓reduceIte, not_false_iff, and_false,
    false_and, Nat.zero_add, Nat.add_zero, Nat.zero_mul, Nat.zero_div, Nat.zero_mod, gt_iff_lt,
    ge_iff_le, hw2, List.nil_append, List.cons_append, List.mem_cons, List.mem_singleton, or_true,
    true_or, or_false, false_or, List.not_mem_nil, Option.map_some', Option.map_none',
    Bool.false_eq_true, Bool.true_eq_false, Nat.not_le, Nat.le_refl, Nat.lt_iff_add_one_le]
  simp only [exec_nil, Option.mem_def, Option.some.injEq, exists_eq_left', List.cons.injEq, sub64,
    NULL, SBRK_FAIL, HEAP_SIZE, SIZEOF_BLOCK, W64, wr_next, wr_prev, wr_isfree, wr_size, rd_next,
    rd_prev, rd_isfree, rd_size, wr_apply, hbo32, hbo80, hcc, hcc2, hc1, hcle, Nat.le_add_right,
    e33, e49, e81, e113, e1025, Nat.add_assoc, Nat.reduceAdd, Nat.reduceMul, Nat.reduceDiv,
    Nat.reduceMod, Nat.reducePow, Nat.reduceSub, Nat.reduceEqDiff, Nat.reduceLeDiff,
    Nat.reduceLTLE, ite_true, ite_false, and_self, and_true, true_and, if_true, if_false, ne_eq,
    not_true_eq_false, not_false_eq_true, ↓reduceIte, not_false_iff, and_false, false_and,
    Nat.zero_add, Nat.add_zero, Nat.zero_mul, Nat.zero_div, Nat.zero_mod, gt_iff_lt, ge_iff_le,
    hw2, List.nil_append, List.cons_append, List.mem_cons, List.mem_singleton, or_true, true_or,
    or_false, false_or, List.not_mem_nil, Option.map_some', Option.map_none', Bool.false_eq_true,
    Bool.true_eq_false, Nat.not_le, Nat.le_refl, Nat.lt_iff_add_one_le]

/-- Witness for C10 at the initial break `4096`. -/
theorem end_to_end_scenario_witness :
    ∃ r1 ∈ Run.exec 8 (Run.start 4096 65536) [.malloc 10, .malloc 20],
      r1.rets = [4096 + 32, 4096 + 80] ∧ 4096 + 32 ≠ NULL ∧ 4096 + 32 + 10 ≤ 4096 + 80 ∧
      ∃ r2 ∈ Run.exec 8 r1 [.free (4096 + 32), .malloc 8],
        r2.rets = [4096 + 32, 4096 + 80, 4096 + 32] ∧
        ∃ r3 ∈ Run.exec 8 r2 [.free (4096 + 80)],
          rd_isfree r3.heap.mem (block_of (4096 + 80)) ≠ 0 ∧
          next_block_in_addr r3.heap (block_of (4096 + 32)) = block_of (4096 + 80) ∧
          ∃ r4 ∈ Run.exec 8 r3 [.free (4096 + 32)],
            rd_isfree r4.heap.mem (block_of (4096 + 32)) ≠ 0 ∧
            rd_size r4.heap.mem (block_of (4096 + 32)) =
              rd_size r3.heap.mem (block_of (4096 + 32)) +
                rd_size r3.heap.mem (block_of (4096 + 80)) + 1 ∧
            next_block_in_addr r4.heap (block_of (4096 + 32)) = NULL ∧
            r4.live = [] ∧ r4.heap.calls = 1 :=
  end_to_end_scenario 4096 65536 8 (by decide) (by decide) (by decide) (by decide)

/-! ## Growth, and searches that never end -/

theorem find_fit_self_loop (m : Nat → Nat) (needed b : Nat) (hb : b ≠ NULL)
    (hloop : rd_next m b = b) (hfit : ¬ fits m needed b) :
    ∀ fuel, find_fit m needed fuel b = none := by
  intro fuel
  induction fuel with
  | zero => rfl
  | succ f ih =>
    have hfit' : ¬ (rd_isfree m b ≠ 0 ∧ rd_size m b ≥ needed) := hfit
    rw [find_fit, if_neg hb, if_neg hfit', hloop, ih]

theorem mymalloc_of_find_none (fuel : Nat) (s : Heap) (n : Nat) (hn : 0 < n)
    (hfl : s.free_list ≠ NULL)
    (hfind : find_fit s.mem (units_needed n) fuel s.free_list = none) :
    mymalloc fuel s n = none := by
  have hn0 : n ≠ 0 := by omega
  unfold mymalloc
  rw [if_neg hn0]
  simp only [init_heap_of_ne s hfl, hfind]
  rfl

theorem sbrk_ok (s : Heap) (incr : Nat)
    (h : s.brk + incr ≤ s.limit ∧ s.brk + incr < W64) :
    sbrk s incr =
      (s.brk, { s with brk := s.brk + incr, calls := s.calls + 1, grown := s.grown + 1 }) := by
  unfold sbrk
  rw [if_pos h]

/-- The growth path of `mymalloc` when the search ends: with a non-empty free list
on which the search finds no block, and `sbrk` able to move the break, the call
makes one `sbrk(HEAP_SIZE)` call and returns the data address of the block placed at
the old break. -/
theorem mymalloc_grows_once (fuel : Nat) (s : Heap) (n : Nat) (hn : 0 < n)
    (hfl : s.free_list ≠ NULL)
    (hfind : find_fit s.mem (units_needed n) fuel s.free_list = some NULL)
    (hok : s.brk + HEAP_SIZE ≤ s.limit ∧ s.brk + HEAP_SIZE < W64) :
    ∃ r ∈ mymalloc fuel s n,
      r.1 = s.brk + SIZEOF_BLOCK ∧ r.1 ≠ NULL ∧ r.1 < s.brk + HEAP_SIZE ∧
      r.2.calls = s.calls + 1 ∧ r.2.grown = s.grown + 1 ∧ r.2.brk = s.brk + HEAP_SIZE := by
  have hn0 : n ≠ 0 := by omega
  have hlt : s.brk + SIZEOF_BLOCK < W64 := by
    unfold HEAP_SIZE at hok
    unfold SIZEOF_BLOCK
    omega
  have hne : s.brk ≠ SBRK_FAIL := by
    unfold HEAP_SIZE W64 at hok
    unfold SBRK_FAIL
    omega
  have hg1 : (grow_heap s).1 = s.brk := by
    unfold grow_heap
    simp only [sbrk_ok s HEAP_SIZE hok, if_neg hne]
  have hg2 : (grow_heap s).2.calls = s.calls + 1 ∧ (grow_heap s).2.grown = s.grown + 1 ∧
      (grow_heap s).2.brk = s.brk + HEAP_SIZE := by
    unfold grow_heap
    simp only [sbrk_ok s HEAP_SIZE hok, if_neg hne, and_self]
  have hm : mymalloc fuel s n =
      some (take_block (grow_heap s).2 (grow_heap s).1 (units_needed n)) := by
    have hne1 : (grow_heap s).1 ≠ SBRK_FAIL := by rw [hg1]; exact hne
    unfold mymalloc
    rw [if_neg hn0]
    simp only [init_heap_of_ne s hfl, hfind, if_neg hne1]
    rfl
  refine ⟨_, hm, ?_, ?_, ?_, ?_⟩
  · rw [take_block_fst, hg1, data_of_eq _ hlt]
  · rw [take_block_fst, hg1, data_of_eq _ hlt]
    unfold SIZEOF_BLOCK NULL
    omega
  · rw [take_block_fst, hg1, data_of_eq _ hlt]
    unfold SIZEOF_BLOCK HEAP_SIZE
    omega
  · obtain ⟨c1, c2, c3⟩ := take_block_calls (grow_heap s).2 (grow_heap s).1 (units_needed n)
    rw [c1, c2, c3]
    exact hg2

/-- C11 fails once the free list is a cycle.  After `mymalloc(10)`, `mymalloc(10)`,
`myfree(4176)` the heap is initialised, `sbrk` can still move the break, and the
free list is the single block `4144` of 60 units whose `next` is itself.
`mymalloc(992)` needs 62 units, so no block of the free list is large enough; the
search loop then follows `next` from `4144` to `4144` and the call never reaches
`sbrk`: it returns nothing, whatever the fuel. -/
theorem growth_on_miss_never_returns :
    ∃ r ∈ Run.exec 8 (Run.start 4096 65536) [.malloc 10, .malloc 10, .free 4176],
      r.heap.heap_start = 4096 ∧ r.heap.free_list = 4144 ∧
      rd_next r.heap.mem 4144 = 4144 ∧ rd_size r.heap.mem 4144 = 60 ∧
      numberof16blocks 992 = 62 ∧
      (r.heap.brk + HEAP_SIZE ≤ r.heap.limit ∧ r.heap.brk + HEAP_SIZE < W64) ∧
      ∀ fuel, mymalloc fuel r.heap 992 = none := by
  refine ⟨(Run.exec 8 (Run.start 4096 65536) [.malloc 10, .malloc 10, .free 4176]).getD
    (Run.start 4096 65536), by rfl, by decide, by decide, by decide, by decide, by decide,
    by decide, ?_⟩
  intro fuel
  exact mymalloc_of_find_none fuel _ 992 (by decide) (by decide)
    (find_fit_self_loop _ _ 4144 (by decide) (by decide) (by decide) fuel)

/-! ## The unit count -/

theorem ceil_div_16 (n : Nat) : ⌈(n : ℚ) / 16⌉₊ = (n + 15) / 16 := by
  apply le_antisymm
  · rw [Nat.ceil_le, div_le_iff₀ (by norm_num)]
    have h : n ≤ (n + 15) / 16 * 16 := by omega
    exact_mod_cast h
  · have h1 : (n : ℚ) / 16 ≤ (⌈(n : ℚ) / 16⌉₊ : ℚ) := Nat.le_ceil _
    rw [div_le_iff₀ (by norm_num)] at h1
    have h2 : n ≤ ⌈(n : ℚ) / 16⌉₊ * 16 := by exact_mod_cast h1
    omega

/-- C12 fails at both ends of the range: `numberof16blocks(0)` is `0` where the
claim gives `max(1, 0) = 1`, and `numberof16blocks(2^64 - 1)` is `0` because
`size_inbytes + 15` wraps around, where the claim gives `2^60`. -/
theorem numberof16blocks_no_minimum :
    numberof16blocks 0 = 0 ∧ spec_blocks_needed 0 = 1 ∧
    numberof16blocks (2 ^ 64 - 1) = 0 ∧ spec_blocks_needed (2 ^ 64 - 1) = 2 ^ 60 := by
  refine ⟨by decide, ?_, by decide, ?_⟩
  · unfold spec_blocks_needed
    rw [ceil_div_16]
    norm_num
  · unfold spec_blocks_needed
    rw [ceil_div_16]
    norm_num

/-- C12 as amended.  For every `size_inbytes` with `size_inbytes + 15 < 2^64`,
`numberof16blocks` returns `ceil(size_inbytes / 16)` over the rationals, with no
minimum (it is `0` at `0`); the minimum of 1 is applied by `mymalloc` (lines
17-18), whose unit count is `max(1, ceil(size_inbytes / 16))`. -/
theorem numberof16blocks_rounds_up (n : Nat) (h : n + 15 < W64) :
    numberof16blocks n = ⌈(n : ℚ) / 16⌉₊ ∧ units_needed n = spec_blocks_needed n := by
  have e : numberof16blocks n = ⌈(n : ℚ) / 16⌉₊ := by
    unfold numberof16blocks
    rw [Nat.mod_eq_of_lt h, ceil_div_16]
  refine ⟨e, ?_⟩
  unfold units_needed spec_blocks_needed
  rw [e]
  split <;> omega

/-- Witness for the amended C12 at 10 bytes (1 unit) and at 0 bytes (0 units). -/
theorem numberof16blocks_rounds_up_witness :
    10 + 15 < W64 ∧ 0 + 15 < W64 ∧
    (numberof16blocks 10 = ⌈((10 : Nat) : ℚ) / 16⌉₊ ∧ units_needed 10 = spec_blocks_needed 10) ∧
    (numberof16blocks 0 = ⌈((0 : Nat) : ℚ) / 16⌉₊ ∧ units_needed 0 = spec_blocks_needed 0) ∧
    numberof16blocks 0 = 0 ∧ units_needed 0 = 1 :=
  ⟨by decide, by decide,
   numberof16blocks_rounds_up 10 (by decide), numberof16blocks_rounds_up 0 (by decide),
   by decide, by decide⟩

/-! ## The footprint of a split -/

theorem wr_ne (m : Nat → Nat) (a v x : Nat) (h : x ≠ a) : wr m a v x = m x := by
  unfold wr
  rw [if_neg h]

theorem wr_eq (m : Nat → Nat) (a v : Nat) : wr m a v a = v := by
  unfold wr
  rw [if_pos rfl]

theorem ite_wr_ne (c : Prop) [Decidable c] (m : Nat → Nat) (a v x : Nat) (h : x ≠ a) :
    (if c then wr m a v else m) x = m x := by
  split
  · exact wr_ne m a v x h
  · rfl

/-- C13 fails for every split.  When `split_block` splits (`b->info.size > size + 1`)
and the stores through `b->prev` and `b->next` do not hit the size field of the new
block, the new block at `b + 32 + size * 16` records `b->info.size - size - 1`
units, so it ends 16 bytes past the end of the block it was carved from, and the
two footprints add up to 16 bytes more than the original footprint. -/
theorem split_block_overshoots (s : Heap) (b k : Nat)
    (hsplit : k + 1 < rd_size s.mem b)
    (hnw : b + SIZEOF_BLOCK + k * 16 < W64)
    (hprev : rd_prev s.mem b ≠ b + SIZEOF_BLOCK + k * 16 + 16)
    (hnext : rd_next s.mem b + 8 ≠ b + SIZEOF_BLOCK + k * 16 + 16) :
    rd_size (split_block s b k).2.mem b = k ∧
    rd_size (split_block s b k).2.mem (b + SIZEOF_BLOCK + k * 16) = rd_size s.mem b - k - 1 ∧
    block_end (split_block s b k).2.mem (b + SIZEOF_BLOCK + k * 16) = block_end s.mem b + 16 ∧
    (block_end (split_block s b k).2.mem b - b) +
      (block_end (split_block s b k).2.mem (b + SIZEOF_BLOCK + k * 16) -
        (b + SIZEOF_BLOCK + k * 16)) = (block_end s.mem b - b) + 16 := by
  have hk1 : (k + 1) % W64 ≤ k + 1 := Nat.mod_le _ _
  have hno : ¬ rd_size s.mem b ≤ (k + 1) % W64 := by omega
  have hnb : (b + SIZEOF_BLOCK + k * 16) % W64 = b + SIZEOF_BLOCK + k * 16 := Nat.mod_eq_of_lt hnw
  have hsub : sub64 (sub64 (rd_size s.mem b) k) 1 = rd_size s.mem b - k - 1 := by
    have h1 : sub64 (rd_size s.mem b) k = rd_size s.mem b - k := by
      unfold sub64
      exact if_pos (by omega)
    rw [h1]
    unfold sub64
    exact if_pos (by omega)
  generalize hv : rd_size s.mem b - k - 1 = v at hsub
  unfold rd_prev at hprev
  unfold rd_next at hnext
  generalize hnbdef : b + SIZEOF_BLOCK + k * 16 = nb at hnb hprev hnext
  have hgt : b + 32 ≤ nb := by rw [← hnbdef]; unfold SIZEOF_BLOCK; omega
  let m1 := wr s.mem (nb + 16) v
  let m2 := wr m1 (nb + 24) (m1 (nb + 24) / 2 ^ 32 * 2 ^ 32 + 1)
  let m3 := wr m2 nb (m2 b)
  let m4 := wr m3 (nb + 8) (m3 (b + 8))
  let m5 := if m4 (b + 8) ≠ NULL then wr m4 (m4 (b + 8)) nb else m4
  let m6 := if m5 b ≠ NULL then wr m5 (m5 b + 8) nb else m5
  have hmem : (split_block s b k).2.mem = wr (wr (wr m6 (b + 16) k) b NULL) (b + 8) NULL := by
    unfold split_block
    rw [if_neg hno, hnbdef, hnb, hsub]
    rfl
  have f4 : ∀ x, x < nb → m4 x = s.mem x := by
    intro x hx
    show wr (wr (wr (wr s.mem (nb + 16) v) (nb + 24) _) nb _) (nb + 8) _ x = s.mem x
    rw [wr_ne _ _ _ _ (by omega), wr_ne _ _ _ _ (by omega), wr_ne _ _ _ _ (by omega),
      wr_ne _ _ _ _ (by omega)]
  have g4 : m4 (nb + 16) = v := by
    show wr (wr (wr (wr s.mem (nb + 16) v) (nb + 24) _) nb _) (nb + 8) _ (nb + 16) = v
    rw [wr_ne _ _ _ _ (by omega), wr_ne _ _ _ _ (by omega), wr_ne _ _ _ _ (by omega), wr_eq]
  have g5 : m5 (nb + 16) = v := by
    show (if m4 (b + 8) ≠ NULL then wr m4 (m4 (b + 8)) nb else m4) (nb + 16) = v
    rw [ite_wr_ne _ _ _ _ _ (by rw [f4 _ (by omega)]; exact fun h => hprev h.symm), g4]
  have h5 : m5 b = nb ∨ m5 b = s.mem b := by
    show (if m4 (b + 8) ≠ NULL then wr m4 (m4 (b + 8)) nb else m4) b = nb ∨
      (if m4 (b + 8) ≠ NULL then wr m4 (m4 (b + 8)) nb else m4) b = s.mem b
    split
    · by_cases hb : b = m4 (b + 8)
      · left
        rw [← hb, wr_eq]
      · right
        rw [wr_ne _ _ _ _ hb, f4 _ (by omega)]
    · right
      exact f4 _ (by omega)
  have g6 : m6 (nb + 16) = v := by
    show (if m5 b ≠ NULL then wr m5 (m5 b + 8) nb else m5) (nb + 16) = v
    rw [ite_wr_ne _ _ _ _ _ (by rcases h5 with h | h <;> rw [h] <;> omega), g5]
  have e1 : rd_size (split_block s b k).2.mem b = k := by
    unfold rd_size
    rw [hmem, wr_ne _ _ _ _ (by omega), wr_ne _ _ _ _ (by omega), wr_eq]
  have e2 : rd_size (split_block s b k).2.mem nb = v := by
    unfold rd_size
    rw [hmem, wr_ne _ _ _ _ (by omega), wr_ne _ _ _ _ (by omega), wr_ne _ _ _ _ (by omega), g6]
  have hv1 : k + 1 + v = rd_size s.mem b := by omega
  refine ⟨e1, e2, ?_, ?_⟩
  · unfold block_end
    rw [e2, ← hnbdef]
    unfold SIZEOF_BLOCK
    omega
  · unfold block_end
    rw [e1, e2]
    unfold SIZEOF_BLOCK
    omega

/-- Witness for C13, at the split `mymalloc(960)` makes on the empty heap: the
62-unit initial block `4096` ends at the break `5120`; asked for 60 units,
`split_block` splits (`62 > 61`) although only 32 bytes remain, and the trailing
block at `5088` records 1 unit and ends at `5136`. -/
theorem split_block_overshoots_witness :
    rd_size (init_heap (Heap.empty 4096 65536)).1.mem 4096 = 62 ∧
    block_end (init_heap (Heap.empty 4096 65536)).1.mem 4096 = 5120 ∧
    (init_heap (Heap.empty 4096 65536)).1.brk = 5120 ∧
    4096 + SIZEOF_BLOCK + 60 * 16 = 5088 ∧
    (rd_size (split_block (init_heap (Heap.empty 4096 65536)).1 4096 60).2.mem 4096 = 60 ∧
     rd_size (split_block (init_heap (Heap.empty 4096 65536)).1 4096 60).2.mem
        (4096 + SIZEOF_BLOCK + 60 * 16) =
      rd_size (init_heap (Heap.empty 4096 65536)).1.mem 4096 - 60 - 1 ∧
     block_end (split_block (init_heap (Heap.empty 4096 65536)).1 4096 60).2.mem
        (4096 + SIZEOF_BLOCK + 60 * 16) =
      block_end (init_heap (Heap.empty 4096 65536)).1.mem 4096 + 16 ∧
     (block_end (split_block (init_heap (Heap.empty 4096 65536)).1 4096 60).2.mem 4096 - 4096) +
      (block_end (split_block (init_heap (Heap.empty 4096 65536)).1 4096 60).2.mem
          (4096 + SIZEOF_BLOCK + 60 * 16) - (4096 + SIZEOF_BLOCK + 60 * 16)) =
      (block_end (init_heap (Heap.empty 4096 65536)).1.mem 4096 - 4096) + 16) ∧
    ∃ r ∈ Run.exec 8 (Run.start 4096 65536) [.malloc 960],
      r.heap.free_list = 5088 ∧ block_end r.heap.mem 5088 = 5136 ∧ r.heap.brk = 5120 :=
  ⟨by decide, by decide, by decide, by decide,
   split_block_overshoots (init_heap (Heap.empty 4096 65536)).1 4096 60
     (by decide) (by decide) (by decide) (by decide),
   by decide⟩

/-! ## The free list after `myfree` -/

theorem free_members_self_loop (m : Nat → Nat) (b : Nat) (hb : b ≠ NULL)
    (hloop : rd_next m b = b) : ∀ fuel, free_members m fuel b = none := by
  intro fuel
  induction fuel with
  | zero => rfl
  | succ f ih => rw [free_members, if_neg hb, hloop, ih]; rfl

/-- C14 fails when the absorbed block is not the head.  After `mymalloc(32)` and
`mymalloc(960)` the free list is `6112 -> 4160`, well formed; the live pointer
`4128` has the block `4096`, whose address-order successor `4160` is free and is
not the head.  `myfree(4128)` gives the merged block `4096` the size
`2 + 59 + 1`, but `right_coalesce` never stores to `right->prev->next`: the free
list is then `4096 -> 6112 -> 4160`, the `next` of `6112` is still the absorbed
block `4160`, and `4160` is still marked free. -/
theorem right_coalesce_keeps_absorbed_block :
    ∃ r ∈ Run.exec 8 (Run.start 4096 65536) [.malloc 32, .malloc 960],
      well_formed 8 r.heap ∧
      free_members r.heap.mem 8 r.heap.free_list = some [6112, 4160] ∧
      4128 ∈ r.live ∧ next_block_in_addr r.heap (block_of 4128) = 4160 ∧
      rd_isfree r.heap.mem 4160 = 1 ∧ r.heap.free_list ≠ 4160 ∧
      ∃ r2 ∈ Run.exec 8 r [.free 4128],
        rd_size r2.heap.mem (block_of 4128) =
          rd_size r.heap.mem (block_of 4128) + rd_size r.heap.mem 4160 + 1 ∧
        free_members r2.heap.mem 8 r2.heap.free_list = some [4096, 6112, 4160] ∧
        rd_next r2.heap.mem 6112 = 4160 ∧ rd_isfree r2.heap.mem 4160 = 1 := by
  decide

/-- C15 fails as soon as every block is allocated.  `mymalloc(992)` initialises the
heap with `heap_start = 4096` and hands out the whole first block, so `free_list`
is `NULL` again; the next `mymalloc(16)` runs the initialisation branch a second
time (`init_heap` calls `sbrk`) and overwrites `heap_start` with `5120`. -/
theorem heap_start_moves_on_second_init :
    ∃ r ∈ Run.exec 8 (Run.start 4096 65536) [.malloc 992],
      r.rets = [4128] ∧ r.heap.heap_start = 4096 ∧ r.heap.calls = 1 ∧
      r.heap.free_list = NULL ∧
      (init_heap r.heap).1.calls = 2 ∧ (init_heap r.heap).1.heap_start = 5120 ∧
      ∃ r2 ∈ Run.exec 8 r [.malloc 16],
        r2.rets = [4128, 5152] ∧ r2.heap.heap_start = 5120 ∧ r2.heap.calls = 2 := by
  decide

/-- C18 fails after the first release.  `mymalloc(10)` then `myfree(4128)` leaves
no live pointer and the free list `4096` whose `next` and `prev` are both `4096`:
the head is met again after one step, `NULL` is never reached, and the `prev` of
the head is not `NULL`. -/
theorem free_list_becomes_cycle :
    ∃ r ∈ Run.exec 8 (Run.start 4096 65536) [.malloc 10, .free 4128],
      r.live = [] ∧ r.heap.free_list = 4096 ∧
      nth_free r.heap.mem r.heap.free_list 1 = r.heap.free_list ∧
      rd_prev r.heap.mem r.heap.free_list ≠ NULL ∧
      ∀ fuel, free_members r.heap.mem fuel r.heap.free_list = none ∧
        ¬ well_formed fuel r.heap := by
  refine ⟨(Run.exec 8 (Run.start 4096 65536) [.malloc 10, .free 4128]).getD
    (Run.start 4096 65536), by rfl, by decide, by decide, by decide, by decide, ?_⟩
  intro fuel
  have h := free_members_self_loop _ 4096 (by decide)
    (by decide : rd_next ((Run.exec 8 (Run.start 4096 65536) [.malloc 10, .free 4128]).getD
      (Run.start 4096 65536)).heap.mem 4096 = 4096) fuel
  refine ⟨h, ?_⟩
  rintro ⟨l, hl, -⟩
  rw [Option.mem_def] at hl
  have h2 : free_members ((Run.exec 8 (Run.start 4096 65536) [.malloc 10, .free 4128]).getD
      (Run.start 4096 65536)).heap.mem fuel 4096 = some l := hl
  rw [h] at h2
  exact absurd h2 (by simp)

/-- C19 fails after one split.  On the empty heap `mymalloc(10)` leaves the free
block `4144` with 60 units recorded, 16 bytes more than lie before the break;
`mymalloc(960)` hands it out whole: the result `4176` is past the first block's
data address, but its data region of `60 * 16` bytes ends at `5136`, beyond the
break `5120`. -/
theorem returned_region_passes_break :
    ∃ r ∈ Run.exec 8 (Run.start 4096 65536) [.malloc 10, .malloc 960],
      r.rets = [4128, 4176] ∧ 4176 ≠ NULL ∧ r.heap.heap_start = 4096 ∧
      r.heap.heap_start + 32 ≤ 4176 ∧ r.heap.brk = 5120 ∧ r.heap.grown = 1 ∧
      rd_size r.heap.mem (block_of 4176) = 60 ∧
      4176 + rd_size r.heap.mem (block_of 4176) * 16 = 5136 ∧
      ¬ (4176 + rd_size r.heap.mem (block_of 4176) * 16 ≤ r.heap.brk) := by
  decide

/-- C20 fails on the cycle that `myfree` builds.  After `mymalloc(10)` and
`myfree(4128)` the free list is the 62-unit block `4096` whose `next` is itself;
`mymalloc(1000)` needs 63 units, so the search loop goes from `4096` to `4096`
without end: neither the search nor the call returns, whatever the fuel. -/
theorem mymalloc_search_never_ends :
    ∃ r ∈ Run.exec 8 (Run.start 4096 65536) [.malloc 10, .free 4128],
      r.live = [] ∧ r.heap.free_list = 4096 ∧ rd_next r.heap.mem 4096 = 4096 ∧
      rd_size r.heap.mem 4096 = 62 ∧ units_needed 1000 = 63 ∧
      ∀ fuel, find_fit r.heap.mem (units_needed 1000) fuel r.heap.free_list = none ∧
        mymalloc fuel r.heap 1000 = none := by
  refine ⟨(Run.exec 8 (Run.start 4096 65536) [.malloc 10, .free 4128]).getD
    (Run.start 4096 65536), by rfl, by decide, by decide, by decide, by decide, by decide, ?_⟩
  intro fuel
  have h := find_fit_self_loop ((Run.exec 8 (Run.start 4096 65536)
    [.malloc 10, .free 4128]).getD (Run.start 4096 65536)).heap.mem (units_needed 1000) 4096
    (by decide) (by decide) (by decide) fuel
  exact ⟨h, mymalloc_of_find_none fuel _ 1000 (by decide) (by decide) h⟩

/-! ## Navigation in address order -/

theorem next_block_in_addr_lt_brk (s : Heap) (c : Nat) (hn : next_block_in_addr s c ≠ NULL) :
    next_block_in_addr s c < s.brk := by
  unfold next_block_in_addr at *
  simp only at *
  split at hn
  · rw [if_pos (by assumption)]
    assumption
  · exact absurd rfl hn

theorem next_block_in_addr_gt (s : Heap) (c : Nat)
    (hc : c + SIZEOF_BLOCK + rd_size s.mem c * 16 < W64) (hn : next_block_in_addr s c ≠ NULL) :
    c < next_block_in_addr s c := by
  unfold next_block_in_addr at *
  simp only [Nat.mod_eq_of_lt hc] at *
  split at hn
  · rw [if_pos (by assumption)]
    unfold SIZEOF_BLOCK
    omega
  · exact absurd rfl hn

theorem prev_scan_next (s : Heap) (b : Nat) :
    ∀ fuel c a, prev_scan s b fuel c = some a → a ≠ NULL → next_block_in_addr s a = b := by
  intro fuel
  induction fuel with
  | zero =>
    intro c a h
    simp [prev_scan] at h
  | succ f ih =>
    intro c a h ha
    rw [prev_scan] at h
    split at h
    · exact ih _ _ h ha
    · rename_i hcond
      have hca : c = a := Option.some.inj h
      subst hca
      by_contra hne
      exact hcond ⟨ha, hne⟩

theorem prev_scan_null (s : Heap) (b fuel : Nat) : prev_scan s b (fuel + 1) NULL = some NULL := by
  rw [prev_scan, if_neg (fun h => h.1 rfl)]

theorem prev_scan_terminates (s : Heap) (b : Nat)
    (hch : ∀ k, (∀ i ≤ k, nth_in_addr s i ≠ NULL) →
      nth_in_addr s k + SIZEOF_BLOCK + rd_size s.mem (nth_in_addr s k) * 16 < W64) :
    ∀ fuel j, (∀ i ≤ j, nth_in_addr s i ≠ NULL) → s.brk - nth_in_addr s j + 2 ≤ fuel →
      ∃ a, prev_scan s b fuel (nth_in_addr s j) = some a := by
  intro fuel
  induction fuel with
  | zero =>
    intro j _ h
    omega
  | succ f ih =>
    intro j hj hf
    rw [prev_scan]
    split
    · by_cases hn : next_block_in_addr s (nth_in_addr s j) = NULL
      · obtain ⟨g, rfl⟩ : ∃ g, f = g + 1 := ⟨f - 1, by omega⟩
        rw [hn]
        exact ⟨NULL, prev_scan_null s b g⟩
      · have h1 := next_block_in_addr_gt s _ (hch j hj) hn
        have h2 := next_block_in_addr_lt_brk s _ hn
        have hj1 : ∀ i ≤ j + 1, nth_in_addr s i ≠ NULL := by
          intro i hi
          by_cases e : i = j + 1
          · rw [e]
            exact hn
          · exact hj i (by omega)
        have h3 : s.brk - nth_in_addr s (j + 1) + 2 ≤ f := by
          have e : nth_in_addr s (j + 1) = next_block_in_addr s (nth_in_addr s j) := rfl
          rw [e]
          omega
        exact ih (j + 1) hj1 h3
    · exact ⟨_, rfl⟩

theorem nth_in_addr_lt (s : Heap)
    (hch : ∀ k, (∀ i ≤ k, nth_in_addr s i ≠ NULL) →
      nth_in_addr s k + SIZEOF_BLOCK + rd_size s.mem (nth_in_addr s k) * 16 < W64) :
    ∀ d i, (∀ t ≤ i + d + 1, nth_in_addr s t ≠ NULL) →
      nth_in_addr s i < nth_in_addr s (i + d + 1) := by
  intro d
  induction d with
  | zero =>
    intro i h
    exact next_block_in_addr_gt s _ (hch i (fun t ht => h t (by omega))) (h (i + 1) (by omega))
  | succ d ih =>
    intro i h
    have h1 := ih i (fun t ht => h t (by omega))
    have h2 : nth_in_addr s (i + d + 1) < nth_in_addr s (i + d + 1 + 1) :=
      next_block_in_addr_gt s _ (hch (i + d + 1) (fun t ht => h t (by omega)))
        (h (i + d + 1 + 1) (by omega))
    exact Nat.lt_trans h1 h2

theorem nth_in_addr_pred_unique (s : Heap) (b : Nat)
    (hch : ∀ k, (∀ i ≤ k, nth_in_addr s i ≠ NULL) →
      nth_in_addr s k + SIZEOF_BLOCK + rd_size s.mem (nth_in_addr s k) * 16 < W64)
    (j k : Nat) (hjk : j < k) (hk : ∀ i ≤ k, nth_in_addr s i ≠ NULL)
    (hkb : nth_in_addr s (k + 1) = b) (hjb : nth_in_addr s (j + 1) = b) : False := by
  by_cases hb : b = NULL
  · exact hk (j + 1) (by omega) (hjb.trans hb)
  · have hall : ∀ t ≤ (j + 1) + (k - j - 1) + 1, nth_in_addr s t ≠ NULL := by
      intro t ht
      by_cases htk : t ≤ k
      · exact hk t htk
      · have : t = k + 1 := by omega
        rw [this, hkb]
        exact hb
    have hlt := nth_in_addr_lt s hch (k - j - 1) (j + 1) hall
    have e : j + 1 + (k - j - 1) + 1 = k + 1 := by omega
    rw [e, hkb, hjb] at hlt
    exact Nat.lt_irrefl _ hlt

theorem prev_scan_on_chain (s : Heap) (b : Nat)
    (hch : ∀ k, (∀ i ≤ k, nth_in_addr s i ≠ NULL) →
      nth_in_addr s k + SIZEOF_BLOCK + rd_size s.mem (nth_in_addr s k) * 16 < W64)
    (k : Nat) (hk : ∀ i ≤ k, nth_in_addr s i ≠ NULL) (hkb : nth_in_addr s (k + 1) = b) :
    ∀ fuel j a, j ≤ k → prev_scan s b fuel (nth_in_addr s j) = some a →
      a = nth_in_addr s k := by
  intro fuel
  induction fuel with
  | zero =>
    intro j a _ h
    simp [prev_scan] at h
  | succ f ih =>
    intro j a hj h
    rw [prev_scan] at h
    split at h
    · rename_i hcond
      have hjk : j ≠ k := by
        intro e
        rw [e] at hcond
        exact hcond.2 hkb
      exact ih (j + 1) a (by omega) h
    · rename_i hcond
      have hja : nth_in_addr s j = a := Option.some.inj h
      have hjb : nth_in_addr s (j + 1) = b := by
        by_contra hne
        exact hcond ⟨hk j hj, hne⟩
      by_cases e : j = k
      · rw [← hja, e]
      · exact absurd (nth_in_addr_pred_unique s b hch j k (by omega) hk hkb hjb) id

theorem prev_scan_fixed_point (s : Heap) (b c : Nat) (hc : c ≠ NULL)
    (hn : next_block_in_addr s c = c) (hb : c ≠ b) : ∀ fuel, prev_scan s b fuel c = none := by
  intro fuel
  induction fuel with
  | zero => rfl
  | succ f ih => rw [prev_scan, if_pos ⟨hc, by rw [hn]; exact hb⟩, hn, ih]

theorem prev_scan_none_of_next (s : Heap) (b c d : Nat) (hc : c ≠ NULL)
    (hn : next_block_in_addr s c = d) (hd : d ≠ b) (h : ∀ fuel, prev_scan s b fuel d = none) :
    ∀ fuel, prev_scan s b fuel c = none := by
  intro fuel
  cases fuel with
  | zero => rfl
  | succ f => rw [prev_scan, if_pos ⟨hc, by rw [hn]; exact hd⟩, hn, h]

theorem free_block_none (fuel : Nat) (s : Heap) (b : Nat)
    (h : prev_block_in_addr fuel { s with mem := wr_isfree s.mem b 1 } b = none) :
    free_block fuel s b = none := by
  unfold free_block
  dsimp only
  unfold left_coalesce
  rw [h]

/-- C17 fails in a state a client reaches with two allocations and one store into
its own region.  After `mymalloc(1)` and `mymalloc(976)` the free block `4144`
records 60 units, 16 bytes more than the first increment holds (the remainder
computed by `split_block`), so the address-order chain from `heap_start` is `4096`,
`4144`, `5136`, and the `info.size` field of the third lies at `5152`, the first
data word of the live 976-byte region `5152`.  Once the client stores `2^60 - 2`
there, `5136 + 32 + size * 16` wraps around to `5136`: `next_block_in_addr` maps
`5136` to itself, the address does not increase, and neither the scan of
`prev_block_in_addr` for the block `5120` nor `myfree(5152)` ends, whatever the
fuel. -/
theorem prev_scan_never_ends_after_client_store :
    ∃ r ∈ Run.exec 8 (Run.start 4096 65536) [.malloc 1, .malloc 976],
      r.rets = [4128, 5152] ∧ 5152 ∈ r.live ∧ block_of 5152 = 5120 ∧
      (client_store r.heap 5152 (2 ^ 60 - 2)).heap_start = 4096 ∧
      (client_store r.heap 5152 (2 ^ 60 - 2)).brk = 6144 ∧
      rd_size (client_store r.heap 5152 (2 ^ 60 - 2)).mem 4144 = 60 ∧
      nth_in_addr (client_store r.heap 5152 (2 ^ 60 - 2)) 1 = 4144 ∧
      nth_in_addr (client_store r.heap 5152 (2 ^ 60 - 2)) 2 = 5136 ∧
      next_block_in_addr (client_store r.heap 5152 (2 ^ 60 - 2)) 5136 = 5136 ∧
      ∀ fuel,
        prev_block_in_addr fuel (client_store r.heap 5152 (2 ^ 60 - 2)) 5120 = none ∧
        myfree fuel (client_store r.heap 5152 (2 ^ 60 - 2)) 5152 = none := by
  refine ⟨(Run.exec 8 (Run.start 4096 65536) [.malloc 1, .malloc 976]).getD
    (Run.start 4096 65536), by rfl, by decide, by decide, by decide, by decide, by decide,
    by decide, by decide, by decide, by decide, ?_⟩
  intro fuel
  constructor
  · unfold prev_block_in_addr
    rw [if_neg (by decide)]
    exact prev_scan_none_of_next _ 5120 4096 4144 (by decide) (by decide) (by decide)
      (prev_scan_none_of_next _ 5120 4144 5136 (by decide) (by decide) (by decide)
        (prev_scan_fixed_point _ 5120 5136 (by decide) (by decide) (by decide))) fuel
  · unfold myfree
    rw [if_neg (by decide)]
    have hb : block_of 5152 = 5120 := by decide
    rw [hb]
    apply free_block_none
    unfold prev_block_in_addr
    rw [if_neg (by decide)]
    exact prev_scan_none_of_next _ 5120 4096 4144 (by decide) (by decide) (by decide)
      (prev_scan_none_of_next _ 5120 4144 5136 (by decide) (by decide) (by decide)
        (prev_scan_fixed_point _ 5120 5136 (by decide) (by decide) (by decide))) fuel

/-- C17 as amended: in every state in which the extent of no block on the
address-order chain from `heap_start` wraps around `2^64` (for every block `c`
reached from `heap_start` by steps of `next_block_in_addr` before it returns
`NULL`, `c + 32 + c->info.size * 16 < 2^64`) and for every `b`:
`prev_block_in_addr(heap_start)` is `NULL`; a non-null result `a` of
`prev_block_in_addr(b)` has `next_block_in_addr(a) = b`; every step of
`next_block_in_addr` along the chain that does not return `NULL` strictly
increases the address and stays below the break; the scan ends within `brk + 2`
steps; and when `b != heap_start` is reached from `heap_start` by `k + 1` steps of
`next_block_in_addr`, the scan returns the block reached after `k` steps, which is
the only block on that path with `b` as its successor. -/
theorem prev_block_in_addr_consistent (s : Heap) (b : Nat)
    (hch : ∀ k, (∀ i ≤ k, nth_in_addr s i ≠ NULL) →
      nth_in_addr s k + SIZEOF_BLOCK + rd_size s.mem (nth_in_addr s k) * 16 < W64) :
    (∀ fuel, prev_block_in_addr fuel s s.heap_start = some NULL) ∧
    (∀ fuel a, prev_block_in_addr fuel s b = some a → a ≠ NULL →
      next_block_in_addr s a = b) ∧
    (∀ k, (∀ i ≤ k + 1, nth_in_addr s i ≠ NULL) →
      nth_in_addr s k < nth_in_addr s (k + 1) ∧ nth_in_addr s (k + 1) < s.brk) ∧
    (∀ fuel, s.brk + 2 ≤ fuel → ∃ a, prev_block_in_addr fuel s b = some a) ∧
    (∀ fuel k, s.brk + 2 ≤ fuel → b ≠ s.heap_start →
      (∀ i ≤ k, nth_in_addr s i ≠ NULL) → nth_in_addr s (k + 1) = b →
      prev_block_in_addr fuel s b = some (nth_in_addr s k) ∧
      ∀ j, (∀ i ≤ j, nth_in_addr s i ≠ NULL) → nth_in_addr s (j + 1) = b → j = k) := by
  have hterm : ∀ fuel, s.brk + 2 ≤ fuel → ∃ a, prev_block_in_addr fuel s b = some a := by
    intro fuel hf
    unfold prev_block_in_addr
    split
    · exact ⟨NULL, rfl⟩
    · by_cases h0 : s.heap_start = NULL
      · obtain ⟨g, rfl⟩ : ∃ g, fuel = g + 1 := ⟨fuel - 1, by omega⟩
        rw [h0]
        exact ⟨NULL, prev_scan_null s b g⟩
      · have hj : ∀ i ≤ 0, nth_in_addr s i ≠ NULL := by
          intro i hi
          rw [Nat.le_zero.mp hi]
          exact h0
        have hf0 : s.brk - nth_in_addr s 0 + 2 ≤ fuel := by omega
        exact prev_scan_terminates s b hch fuel 0 hj hf0
  refine ⟨?_, ?_, ?_, hterm, ?_⟩
  · intro fuel
    unfold prev_block_in_addr
    rw [if_pos rfl]
  · intro fuel a h ha
    unfold prev_block_in_addr at h
    split at h
    · exact absurd (Option.some.inj h).symm ha
    · exact prev_scan_next s b fuel _ a h ha
  · intro k hk
    exact ⟨next_block_in_addr_gt s _ (hch k (fun i hi => hk i (by omega))) (hk (k + 1) (le_refl _)),
      next_block_in_addr_lt_brk s _ (hk (k + 1) (le_refl _))⟩
  · intro fuel k hf hb hk hkb
    constructor
    · obtain ⟨a, ha⟩ := hterm fuel hf
      rw [ha]
      unfold prev_block_in_addr at ha
      rw [if_neg hb] at ha
      rw [prev_scan_on_chain s b hch k hk hkb fuel 0 a (Nat.zero_le k) ha]
    · intro j hj hjb
      rcases Nat.lt_trichotomy j k with h | h | h
      · exact absurd (nth_in_addr_pred_unique s b hch j k h hk hkb hjb) id
      · exact h
      · exact absurd (nth_in_addr_pred_unique s b hch k j h hj hjb hkb) id

/-- Witness for the amended C17 on the heap left by `mymalloc(10)`, `mymalloc(20)` at
the initial break `16`: the chain from `heap_start` is `16`, `64`, `128` and ends
there, none of the three extents wraps, the break is `1040`, and the scan for
`128` returns `64`. -/
theorem prev_block_in_addr_consistent_witness :
    (∀ k ≤ 2, nth_in_addr (heap_after 8 16 4096 [.malloc 10, .malloc 20]) k + SIZEOF_BLOCK +
        rd_size (heap_after 8 16 4096 [.malloc 10, .malloc 20]).mem
          (nth_in_addr (heap_after 8 16 4096 [.malloc 10, .malloc 20]) k) * 16 < W64) ∧
    nth_in_addr (heap_after 8 16 4096 [.malloc 10, .malloc 20]) 3 = NULL ∧
    (heap_after 8 16 4096 [.malloc 10, .malloc 20]).heap_start = 16 ∧
    (heap_after 8 16 4096 [.malloc 10, .malloc 20]).brk = 1040 ∧
    nth_in_addr (heap_after 8 16 4096 [.malloc 10, .malloc 20]) 1 = 64 ∧
    nth_in_addr (heap_after 8 16 4096 [.malloc 10, .malloc 20]) 2 = 128 ∧
    prev_block_in_addr 1042 (heap_after 8 16 4096 [.malloc 10, .malloc 20]) 16 = some NULL ∧
    prev_block_in_addr 1042 (heap_after 8 16 4096 [.malloc 10, .malloc 20]) 128 =
      some (nth_in_addr (heap_after 8 16 4096 [.malloc 10, .malloc 20]) 1) ∧
    next_block_in_addr (heap_after 8 16 4096 [.malloc 10, .malloc 20]) 64 = 128 ∧
    (64 : Nat) < 128 ∧ 128 < 1040 :=
  have hnw : ∀ k ≤ 2, nth_in_addr (heap_after 8 16 4096 [.malloc 10, .malloc 20]) k +
      SIZEOF_BLOCK + rd_size (heap_after 8 16 4096 [.malloc 10, .malloc 20]).mem
        (nth_in_addr (heap_after 8 16 4096 [.malloc 10, .malloc 20]) k) * 16 < W64 := by decide
  have hend : nth_in_addr (heap_after 8 16 4096 [.malloc 10, .malloc 20]) 3 = NULL := by decide
  have hall := prev_block_in_addr_consistent (heap_after 8 16 4096 [.malloc 10, .malloc 20]) 128
    (fun k hk => (Nat.lt_or_ge k 3).elim (fun h => hnw k (Nat.lt_succ_iff.mp h))
      (fun h => absurd hend (hk 3 h)))
  ⟨hnw, hend, by decide, by decide, by decide, by decide, hall.1 1042,
   (hall.2.2.2.2 1042 1 (by decide) (by decide) (by decide) (by decide)).1, by decide,
   hall.2.2.1 1 (by decide)⟩

/-! ## The free list after `mymalloc` -/

theorem linked_of_free_members (m : Nat → Nat) :
    ∀ (fuel p start : Nat) (l : List Nat), free_members m fuel start = some l →
      prev_linked m p l → linked m p start l := by
  intro fuel
  induction fuel with
  | zero =>
    intro p start l h
    simp [free_members] at h
  | succ f ih =>
    intro p start l h hp
    rw [free_members] at h
    split at h
    · rename_i h0
      have hl : l = [] := (Option.some.inj h).symm
      subst hl
      exact h0
    · rename_i h0
      rcases Option.map_eq_some'.mp h with ⟨t, ht, rfl⟩
      exact ⟨rfl, h0, hp.1, ih _ _ t ht hp.2⟩

theorem free_members_of_linked (m : Nat → Nat) :
    ∀ (l : List Nat) (fuel p start : Nat), linked m p start l → l.length < fuel →
      free_members m fuel start = some l ∧ prev_linked m p l := by
  intro l
  induction l with
  | nil =>
    intro fuel p start h hf
    obtain ⟨f, rfl⟩ : ∃ f, fuel = f + 1 := ⟨fuel - 1, by omega⟩
    have h0 : start = NULL := h
    rw [free_members, if_pos h0]
    exact ⟨rfl, trivial⟩
  | cons b bs ih =>
    intro fuel p start h hf
    obtain ⟨f, rfl⟩ : ∃ f, fuel = f + 1 := ⟨fuel - 1, by omega⟩
    obtain ⟨h1, h2, h3, h4⟩ := h
    subst h1
    have hlen : bs.length < f := by
      simp only [List.length_cons] at hf
      omega
    obtain ⟨e1, e2⟩ := ih f start (rd_next m start) h4 hlen
    rw [free_members, if_neg h2, e1]
    exact ⟨rfl, h3, e2⟩

theorem free_members_length (m : Nat → Nat) :
    ∀ (fuel start : Nat) (l : List Nat), free_members m fuel start = some l →
      l.length < fuel := by
  intro fuel
  induction fuel with
  | zero =>
    intro start l h
    simp [free_members] at h
  | succ f ih =>
    intro start l h
    rw [free_members] at h
    split at h
    · have hl : l = [] := (Option.some.inj h).symm
      subst hl
      simp
    · rcases Option.map_eq_some'.mp h with ⟨t, ht, rfl⟩
      have := ih _ t ht
      simp only [List.length_cons]
      omega

theorem linked_not_null (m : Nat → Nat) :
    ∀ (l : List Nat) (p start : Nat), linked m p start l → NULL ∉ l := by
  intro l
  induction l with
  | nil => intro p start _; simp
  | cons b bs ih =>
    intro p start h
    obtain ⟨_, h2, _, h4⟩ := h
    intro hmem
    rcases List.mem_cons.mp hmem with e | e
    · exact h2 e.symm
    · exact ih _ _ h4 e

/-- A list only depends on the `next` and `prev` fields of its members. -/
theorem linked_frame (m m2 : Nat → Nat) :
    ∀ (l : List Nat) (p start : Nat), linked m p start l →
      (∀ b ∈ l, m2 b = m b ∧ m2 (b + 8) = m (b + 8)) → linked m2 p start l := by
  intro l
  induction l with
  | nil => intro p start h _; exact h
  | cons b bs ih =>
    intro p start h hm
    obtain ⟨h1, h2, h3, h4⟩ := h
    have hb := hm b (List.mem_cons_self b bs)
    refine ⟨h1, h2, ?_, ?_⟩
    · unfold rd_prev at *
      rw [hb.2, h3]
    · unfold rd_next at *
      rw [hb.1]
      exact ih b (m b) h4 (fun c hc => hm c (List.mem_cons_of_mem b hc))

theorem linked_prev_of_mid (m : Nat → Nat) (X : Nat) (post : List Nat) :
    ∀ (pre : List Nat) (p start : Nat), linked m p start (pre ++ X :: post) →
      (pre = [] ∧ rd_prev m X = p) ∨ (pre ≠ [] ∧ rd_prev m X ∈ pre) := by
  intro pre
  induction pre with
  | nil =>
    intro p start h
    exact Or.inl ⟨rfl, h.2.2.1⟩
  | cons q pre ih =>
    intro p start h
    right
    refine ⟨List.cons_ne_nil q pre, ?_⟩
    obtain ⟨h1, _, _, h4⟩ := h
    rcases ih q (rd_next m q) h4 with ⟨_, e⟩ | ⟨_, e⟩
    · rw [e]
      exact List.mem_cons_self q pre
    · exact List.mem_cons_of_mem q e

theorem linked_next_of_mid (m : Nat → Nat) (X : Nat) (post : List Nat) :
    ∀ (pre : List Nat) (p start : Nat), linked m p start (pre ++ X :: post) →
      linked m X (rd_next m X) post := by
  intro pre
  induction pre with
  | nil =>
    intro p start h
    exact h.2.2.2
  | cons q pre ih =>
    intro p start h
    exact ih q (rd_next m q) h.2.2.2

theorem linked_next_cases (m : Nat → Nat) (p start : Nat) (l : List Nat)
    (h : linked m p start l) : (l = [] ∧ start = NULL) ∨ (start ≠ NULL ∧ start ∈ l) := by
  cases l with
  | nil => exact Or.inl ⟨rfl, h⟩
  | cons b bs =>
    right
    obtain ⟨h1, h2, _, _⟩ := h
    rw [h1]
    exact ⟨h2, List.mem_cons_self b bs⟩

/-- Unlinking: when the `next` of the block before `X` and the `prev` of the block
after `X` are redirected around `X` and no other link of another member changes,
the list is the old one without `X`. -/
theorem linked_unlink (m m2 : Nat → Nat) (X : Nat) (post : List Nat) :
    ∀ (pre : List Nat) (p start : Nat),
      linked m p start (pre ++ X :: post) → (pre ++ X :: post).Nodup →
      p ∉ pre ++ X :: post →
      (∀ b ∈ pre ++ post,
        m2 b = (if rd_prev m X ≠ NULL ∧ b = rd_prev m X then rd_next m X else m b) ∧
        m2 (b + 8) =
          (if rd_next m X ≠ NULL ∧ b = rd_next m X then rd_prev m X else m (b + 8))) →
      linked m2 p (if pre = [] then rd_next m X else start) (pre ++ post) := by
  intro pre
  induction pre with
  | nil =>
    intro p start h hnd hp hm
    obtain ⟨_, _, hpX, hpost⟩ := h
    simp only [List.nil_append, if_true] at *
    have hXpost : X ∉ post := (List.nodup_cons.mp hnd).1
    have hppost : p ∉ post := fun hc => hp (List.mem_cons_of_mem X hc)
    cases post with
    | nil => exact hpost
    | cons c cs =>
      obtain ⟨e1, e2, e3, e4⟩ := hpost
      have hcp : c ≠ p := fun e => hppost (e ▸ List.mem_cons_self c cs)
      have hc := hm c (List.mem_cons_self c cs)
      have hccs : c ∉ cs := (List.nodup_cons.mp (List.nodup_cons.mp hnd).2).1
      refine ⟨e1, e2, ?_, ?_⟩
      · unfold rd_prev
        rw [hc.2, if_pos ⟨by rw [e1]; exact e2, e1.symm⟩]
        exact hpX
      · have hmc : m2 c = m c := by
          rw [hc.1, if_neg]
          rintro ⟨_, e⟩
          exact hcp (e.trans hpX)
        unfold rd_next
        rw [hmc]
        apply linked_frame m m2 cs c (m c) e4
        intro b hb
        have hb2 := hm b (List.mem_cons_of_mem c hb)
        constructor
        · rw [hb2.1, if_neg]
          rintro ⟨_, e⟩
          exact hppost (List.mem_cons_of_mem c (by rw [← hpX, ← e]; exact hb))
        · rw [hb2.2, if_neg]
          rintro ⟨_, e⟩
          exact hccs (by rw [← e1, ← e]; exact hb)
  | cons q pre ih =>
    intro p start h hnd hp hm
    obtain ⟨h1, h2, h3, h4⟩ := h
    have hnd2 : (pre ++ X :: post).Nodup := (List.nodup_cons.mp hnd).2
    have hq : q ∉ pre ++ X :: post := (List.nodup_cons.mp hnd).1
    have hqpre : q ∉ pre := fun hc => hq (List.mem_append_left _ hc)
    have hqpost : q ∉ post :=
      fun hc => hq (List.mem_append_right _ (List.mem_cons_of_mem X hc))
    have hmq := hm q (List.mem_cons_self q (pre ++ post))
    have ih2 := ih q (rd_next m q) h4 hnd2 hq
      (fun b hb => hm b (List.mem_cons_of_mem q hb))
    have hNq : ¬ (rd_next m X ≠ NULL ∧ q = rd_next m X) := by
      rintro ⟨hN, e⟩
      rcases linked_next_cases m X (rd_next m X) post
          (linked_next_of_mid m X post pre q (rd_next m q) h4) with ⟨_, e0⟩ | ⟨_, hmem⟩
      · exact hN e0
      · exact hqpost (e ▸ hmem)
    simp only [List.cons_append, if_neg (List.cons_ne_nil q pre)]
    refine ⟨h1, h2, ?_, ?_⟩
    · unfold rd_prev
      rw [hmq.2, if_neg hNq]
      exact h3
    · rcases linked_prev_of_mid m X post pre q (rd_next m q) h4 with ⟨e0, eP⟩ | ⟨e0, eP⟩
      · have hmq1 : m2 q = rd_next m X := by
          rw [hmq.1, if_pos ⟨by rw [eP]; exact h2, eP.symm⟩]
        unfold rd_next at hmq1 ⊢
        rw [hmq1]
        rw [if_pos e0] at ih2
        exact ih2
      · have hmq1 : m2 q = m q := by
          rw [hmq.1, if_neg]
          rintro ⟨_, e⟩
          exact hqpre (e ▸ eP)
        unfold rd_next at ih2 ⊢
        rw [hmq1]
        rw [if_neg e0] at ih2
        exact ih2

/-- Replacing: when a new block `rem` takes over the links of `X`, the `next` of
the block before `X` and the `prev` of the block after `X` are redirected to `rem`,
and no other link of another member changes, the list is the old one with `rem` in
the place of `X`. -/
theorem linked_replace (m m2 : Nat → Nat) (X rem : Nat) (post : List Nat)
    (hrem : rem ≠ NULL) (hr1 : m2 rem = rd_next m X) (hr2 : m2 (rem + 8) = rd_prev m X) :
    ∀ (pre : List Nat) (p start : Nat),
      linked m p start (pre ++ X :: post) → (pre ++ X :: post).Nodup →
      p ∉ pre ++ X :: post →
      (∀ b ∈ pre ++ post,
        m2 b = (if rd_prev m X ≠ NULL ∧ b = rd_prev m X then rem else m b) ∧
        m2 (b + 8) = (if rd_next m X ≠ NULL ∧ b = rd_next m X then rem else m (b + 8))) →
      linked m2 p (if pre = [] then rem else start) (pre ++ rem :: post) := by
  intro pre
  induction pre with
  | nil =>
    intro p start h hnd hp hm
    obtain ⟨_, _, hpX, hpost⟩ := h
    simp only [List.nil_append, if_true] at *
    have hppost : p ∉ post := fun hc => hp (List.mem_cons_of_mem X hc)
    refine ⟨rfl, hrem, ?_, ?_⟩
    · have e : rd_prev m2 rem = rd_prev m X := hr2
      rw [e, hpX]
    · have e : rd_next m2 rem = rd_next m X := hr1
      rw [e]
      cases post with
      | nil => exact hpost
      | cons c cs =>
        obtain ⟨e1, e2, e3, e4⟩ := hpost
        have hcp : c ≠ p := fun e => hppost (e ▸ List.mem_cons_self c cs)
        have hc := hm c (List.mem_cons_self c cs)
        have hccs : c ∉ cs := (List.nodup_cons.mp (List.nodup_cons.mp hnd).2).1
        refine ⟨e1, e2, ?_, ?_⟩
        · unfold rd_prev
          rw [hc.2, if_pos ⟨by rw [e1]; exact e2, e1.symm⟩]
        · have hmc : m2 c = m c := by
            rw [hc.1, if_neg]
            rintro ⟨_, e⟩
            exact hcp (e.trans hpX)
          unfold rd_next
          rw [hmc]
          apply linked_frame m m2 cs c (m c) e4
          intro b hb
          have hb2 := hm b (List.mem_cons_of_mem c hb)
          constructor
          · rw [hb2.1, if_neg]
            rintro ⟨_, e⟩
            exact hppost (List.mem_cons_of_mem c (by rw [← hpX, ← e]; exact hb))
          · rw [hb2.2, if_neg]
            rintro ⟨_, e⟩
            exact hccs (by rw [← e1, ← e]; exact hb)
  | cons q pre ih =>
    intro p start h hnd hp hm
    obtain ⟨h1, h2, h3, h4⟩ := h
    have hnd2 : (pre ++ X :: post).Nodup := (List.nodup_cons.mp hnd).2
    have hq : q ∉ pre ++ X :: post := (List.nodup_cons.mp hnd).1
    have hqpre : q ∉ pre := fun hc => hq (List.mem_append_left _ hc)
    have hqpost : q ∉ post :=
      fun hc => hq (List.mem_append_right _ (List.mem_cons_of_mem X hc))
    have hmq := hm q (List.mem_cons_self q (pre ++ post))
    have ih2 := ih q (rd_next m q) h4 hnd2 hq
      (fun b hb => hm b (List.mem_cons_of_mem q hb))
    have hNq : ¬ (rd_next m X ≠ NULL ∧ q = rd_next m X) := by
      rintro ⟨hN, e⟩
      rcases linked_next_cases m X (rd_next m X) post
          (linked_next_of_mid m X post pre q (rd_next m q) h4) with ⟨_, e0⟩ | ⟨_, hmem⟩
      · exact hN e0
      · exact hqpost (e ▸ hmem)
    simp only [List.cons_append, if_neg (List.cons_ne_nil q pre)]
    refine ⟨h1, h2, ?_, ?_⟩
    · unfold rd_prev
      rw [hmq.2, if_neg hNq]
      exact h3
    · rcases linked_prev_of_mid m X post pre q (rd_next m q) h4 with ⟨e0, eP⟩ | ⟨e0, eP⟩
      · have hmq1 : m2 q = rem := by
          rw [hmq.1, if_pos ⟨by rw [eP]; exact h2, eP.symm⟩]
        have e : rd_next m2 q = rem := hmq1
        rw [e]
        rw [if_pos e0] at ih2
        exact ih2
      · have hmq1 : m2 q = m q := by
          rw [hmq.1, if_neg]
          rintro ⟨_, e⟩
          exact hqpre (e ▸ eP)
        unfold rd_next at ih2 ⊢
        rw [hmq1]
        rw [if_neg e0] at ih2
        exact ih2

theorem ite_wr_apply (c : Prop) [Decidable c] (m : Nat → Nat) (a v x : Nat) :
    (if c then wr m a v else m) x = if c ∧ x = a then v else m x := by
  by_cases hc : c
  · rw [if_pos hc, wr_apply]
    by_cases hx : x = a
    · rw [if_pos hx, if_pos ⟨hc, hx⟩]
    · rw [if_neg hx, if_neg (fun h => hx h.2)]
  · rw [if_neg hc, if_neg (fun h => hc h.1)]

theorem apart_cond (P X x y : Nat) (hP : P ≠ NULL → apart P X)
    (hx : X ≤ x ∧ x < X + 32) (hy : P ≤ y ∧ y < P + 32) : ¬ (P ≠ NULL ∧ x = y) := by
  rintro ⟨h0, e⟩
  have h := hP h0
  unfold apart SIZEOF_BLOCK at h
  omega

/-- What the detach step of `mymalloc` stores, when the headers of the free-list
neighbours of `X` do not intersect the header of `X`. -/
theorem detach_spec (s : Heap) (X : Nat)
    (hP : rd_prev s.mem X ≠ NULL → apart (rd_prev s.mem X) X)
    (hN : rd_next s.mem X ≠ NULL → apart (rd_next s.mem X) X) :
    (detach s X).2.free_list = (if X = s.free_list then rd_next s.mem X else s.free_list) ∧
    rd_isfree (detach s X).2.mem X = 0 ∧ rd_next (detach s X).2.mem X = NULL ∧
    rd_prev (detach s X).2.mem X = NULL ∧
    ∀ a, a ≠ X → a ≠ X + 8 → a ≠ X + 24 →
      (detach s X).2.mem a =
        if rd_next s.mem X ≠ NULL ∧ a = rd_next s.mem X + 8 then rd_prev s.mem X
        else if rd_prev s.mem X ≠ NULL ∧ a = rd_prev s.mem X then rd_next s.mem X
        else s.mem a := by
  obtain ⟨P, hPd⟩ : ∃ P, s.mem (X + 8) = P := ⟨_, rfl⟩
  obtain ⟨N, hNd⟩ : ∃ N, s.mem X = N := ⟨_, rfl⟩
  have hPd2 : rd_prev s.mem X = P := hPd
  have hNd2 : rd_next s.mem X = N := hNd
  rw [hPd2] at hP ⊢
  rw [hNd2] at hN ⊢
  have hP1 : ∀ x y, X ≤ x ∧ x < X + 32 → P ≤ y ∧ y < P + 32 → ¬ (P ≠ NULL ∧ x = y) :=
    fun x y hx hy => apart_cond P X x y hP hx hy
  have hN1 : ∀ x y, X ≤ x ∧ x < X + 32 → N ≤ y ∧ y < N + 32 → ¬ (N ≠ NULL ∧ x = y) :=
    fun x y hx hy => apart_cond N X x y hN hx hy
  let m1 := wr s.mem (X + 24) (s.mem (X + 24) / 2 ^ 32 * 2 ^ 32 + 0)
  let m2 := if P ≠ NULL then wr m1 P N else m1
  let m3 := if N ≠ NULL then wr m2 (N + 8) P else m2
  have a1 : m1 (X + 8) = P := by
    show wr s.mem (X + 24) _ (X + 8) = P
    rw [wr_ne _ _ _ _ (by omega), hPd]
  have a2 : m1 X = N := by
    show wr s.mem (X + 24) _ X = N
    rw [wr_ne _ _ _ _ (by omega), hNd]
  have b1 : m2 X = N := by
    show (if P ≠ NULL then wr m1 P N else m1) X = N
    rw [ite_wr_apply, if_neg (hP1 X P (by omega) (by omega)), a2]
  have b2 : m2 (X + 8) = P := by
    show (if P ≠ NULL then wr m1 P N else m1) (X + 8) = P
    rw [ite_wr_apply, if_neg (hP1 (X + 8) P (by omega) (by omega)), a1]
  have c1 : m3 X = N := by
    show (if N ≠ NULL then wr m2 (N + 8) P else m2) X = N
    rw [ite_wr_apply, if_neg (hN1 X (N + 8) (by omega) (by omega)), b1]
  have hmem : (detach s X).2.mem = wr (wr m3 X NULL) (X + 8) NULL := by
    show wr (wr (if (if m1 (X + 8) ≠ NULL then wr m1 (m1 (X + 8)) (m1 X) else m1) X ≠ NULL then
        wr (if m1 (X + 8) ≠ NULL then wr m1 (m1 (X + 8)) (m1 X) else m1)
          ((if m1 (X + 8) ≠ NULL then wr m1 (m1 (X + 8)) (m1 X) else m1) X + 8)
          ((if m1 (X + 8) ≠ NULL then wr m1 (m1 (X + 8)) (m1 X) else m1) (X + 8))
        else (if m1 (X + 8) ≠ NULL then wr m1 (m1 (X + 8)) (m1 X) else m1)) X NULL) (X + 8) NULL =
      wr (wr m3 X NULL) (X + 8) NULL
    rw [a1, a2]
    show wr (wr (if m2 X ≠ NULL then wr m2 (m2 X + 8) (m2 (X + 8)) else m2) X NULL) (X + 8) NULL =
      wr (wr m3 X NULL) (X + 8) NULL
    rw [b1, b2]
  have hfl : (detach s X).2.free_list = if X = s.free_list then m3 X else s.free_list := by
    show (if X = s.free_list then
        (if (if m1 (X + 8) ≠ NULL then wr m1 (m1 (X + 8)) (m1 X) else m1) X ≠ NULL then
        wr (if m1 (X + 8) ≠ NULL then wr m1 (m1 (X + 8)) (m1 X) else m1)
          ((if m1 (X + 8) ≠ NULL then wr m1 (m1 (X + 8)) (m1 X) else m1) X + 8)
          ((if m1 (X + 8) ≠ NULL then wr m1 (m1 (X + 8)) (m1 X) else m1) (X + 8))
        else (if m1 (X + 8) ≠ NULL then wr m1 (m1 (X + 8)) (m1 X) else m1)) X
        else s.free_list) = _
    rw [a1, a2]
    show (if X = s.free_list then
      (if m2 X ≠ NULL then wr m2 (m2 X + 8) (m2 (X + 8)) else m2) X else s.free_list) = _
    rw [b1, b2]
  refine ⟨?_, ?_, ?_, ?_, ?_⟩
  · rw [hfl, c1]
  · unfold rd_isfree
    rw [hmem, wr_ne _ _ _ _ (by omega), wr_ne _ _ _ _ (by omega)]
    show (if N ≠ NULL then wr m2 (N + 8) P else m2) (X + 24) % 2 ^ 32 = 0
    rw [ite_wr_apply, if_neg (hN1 (X + 24) (N + 8) (by omega) (by omega))]
    show (if P ≠ NULL then wr m1 P N else m1) (X + 24) % 2 ^ 32 = 0
    rw [ite_wr_apply, if_neg (hP1 (X + 24) P (by omega) (by omega))]
    show wr s.mem (X + 24) _ (X + 24) % 2 ^ 32 = 0
    rw [wr_eq]
    omega
  · unfold rd_next
    rw [hmem, wr_ne _ _ _ _ (by omega), wr_eq]
  · unfold rd_prev
    rw [hmem, wr_eq]
  · intro a h1 h2 h3
    rw [hmem, wr_ne _ _ _ _ h2, wr_ne _ _ _ _ h1]
    show (if N ≠ NULL then wr m2 (N + 8) P else m2) a = _
    rw [ite_wr_apply]
    show (if N ≠ NULL ∧ a = N + 8 then P else (if P ≠ NULL then wr m1 P N else m1) a) = _
    rw [ite_wr_apply]
    show (if N ≠ NULL ∧ a = N + 8 then P else if P ≠ NULL ∧ a = P then N
      else wr s.mem (X + 24) _ a) = _
    rw [wr_ne _ _ _ _ h3]
/-- What `split_block` stores when it splits, when the headers of the free-list
neighbours of `X` intersect neither the header of `X` nor the new header. -/
theorem split_block_spec (s : Heap) (X k : Nat)
    (hsplit : k + 1 < rd_size s.mem X)
    (hnw : X + SIZEOF_BLOCK + k * 16 < W64)
    (hP : rd_prev s.mem X ≠ NULL → apart (rd_prev s.mem X) X) :
    (split_block s X k).2.free_list =
      (if X = s.free_list then X + SIZEOF_BLOCK + k * 16 else s.free_list) ∧
    rd_next (split_block s X k).2.mem X = NULL ∧
    rd_prev (split_block s X k).2.mem X = NULL ∧
    rd_size (split_block s X k).2.mem X = k ∧
    ∀ a, a ≠ X → a ≠ X + 8 → a ≠ X + 16 →
      (split_block s X k).2.mem a =
        if rd_next s.mem X ≠ NULL ∧ a = rd_next s.mem X + 8 then X + SIZEOF_BLOCK + k * 16
        else if rd_prev s.mem X ≠ NULL ∧ a = rd_prev s.mem X then X + SIZEOF_BLOCK + k * 16
        else if a = X + SIZEOF_BLOCK + k * 16 + 8 then rd_prev s.mem X
        else if a = X + SIZEOF_BLOCK + k * 16 then rd_next s.mem X
        else if a = X + SIZEOF_BLOCK + k * 16 + 24 then
          s.mem (X + SIZEOF_BLOCK + k * 16 + 24) / 2 ^ 32 * 2 ^ 32 + 1
        else if a = X + SIZEOF_BLOCK + k * 16 + 16 then rd_size s.mem X - k - 1
        else s.mem a := by
  have hk1 : (k + 1) % W64 ≤ k + 1 := Nat.mod_le _ _
  have hno : ¬ rd_size s.mem X ≤ (k + 1) % W64 := by omega
  have hnb : (X + SIZEOF_BLOCK + k * 16) % W64 = X + SIZEOF_BLOCK + k * 16 :=
    Nat.mod_eq_of_lt hnw
  have hsub : sub64 (sub64 (rd_size s.mem X) k) 1 = rd_size s.mem X - k - 1 := by
    have h1 : sub64 (rd_size s.mem X) k = rd_size s.mem X - k := by
      unfold sub64
      exact if_pos (by omega)
    rw [h1]
    unfold sub64
    exact if_pos (by omega)
  generalize rd_size s.mem X - k - 1 = v at hsub ⊢
  obtain ⟨P, hPd⟩ : ∃ P, s.mem (X + 8) = P := ⟨_, rfl⟩
  obtain ⟨N, hNd⟩ : ∃ N, s.mem X = N := ⟨_, rfl⟩
  have hPd2 : rd_prev s.mem X = P := hPd
  have hNd2 : rd_next s.mem X = N := hNd
  rw [hPd2] at hP ⊢
  rw [hNd2]
  generalize hnbdef : X + SIZEOF_BLOCK + k * 16 = nb at hnb ⊢
  have hgt : X + 32 ≤ nb := by rw [← hnbdef]; unfold SIZEOF_BLOCK; omega
  have hP1 : ∀ x y, X ≤ x ∧ x < X + 32 → P ≤ y ∧ y < P + 32 → ¬ (P ≠ NULL ∧ x = y) :=
    fun x y hx hy => apart_cond P X x y hP hx hy
  let m1 := wr s.mem (nb + 16) v
  let m2 := wr m1 (nb + 24) (m1 (nb + 24) / 2 ^ 32 * 2 ^ 32 + 1)
  let m3 := wr m2 nb (m2 X)
  let m4 := wr m3 (nb + 8) (m3 (X + 8))
  let m5 := if P ≠ NULL then wr m4 P nb else m4
  let m6 := if N ≠ NULL then wr m5 (N + 8) nb else m5
  have f4 : ∀ x, x < nb → m4 x = s.mem x := by
    intro x hx
    show wr (wr (wr (wr s.mem (nb + 16) v) (nb + 24) _) nb _) (nb + 8) _ x = s.mem x
    rw [wr_ne _ _ _ _ (by omega), wr_ne _ _ _ _ (by omega), wr_ne _ _ _ _ (by omega),
      wr_ne _ _ _ _ (by omega)]
  have f3 : m3 (X + 8) = P := by
    show wr (wr (wr s.mem (nb + 16) v) (nb + 24) _) nb _ (X + 8) = P
    rw [wr_ne _ _ _ _ (by omega), wr_ne _ _ _ _ (by omega), wr_ne _ _ _ _ (by omega), hPd]
  have f2 : m2 X = N := by
    show wr (wr s.mem (nb + 16) v) (nb + 24) _ X = N
    rw [wr_ne _ _ _ _ (by omega), wr_ne _ _ _ _ (by omega), hNd]
  have f1 : m1 (nb + 24) = s.mem (nb + 24) := by
    show wr s.mem (nb + 16) v (nb + 24) = s.mem (nb + 24)
    rw [wr_ne _ _ _ _ (by omega)]
  have g5 : m5 X = N := by
    show (if P ≠ NULL then wr m4 P nb else m4) X = N
    rw [ite_wr_apply, if_neg (hP1 X P (by omega) (by omega)), f4 _ (by omega), hNd]
  have hmem : (split_block s X k).2.mem = wr (wr (wr m6 (X + 16) k) X NULL) (X + 8) NULL := by
    unfold split_block
    rw [if_neg hno, hnbdef, hnb, hsub]
    show wr (wr (wr (if (if m4 (X + 8) ≠ NULL then wr m4 (m4 (X + 8)) nb else m4) X ≠ NULL then
        wr (if m4 (X + 8) ≠ NULL then wr m4 (m4 (X + 8)) nb else m4)
          ((if m4 (X + 8) ≠ NULL then wr m4 (m4 (X + 8)) nb else m4) X + 8) nb
        else (if m4 (X + 8) ≠ NULL then wr m4 (m4 (X + 8)) nb else m4)) (X + 16) k) X NULL)
        (X + 8) NULL = _
    rw [f4 (X + 8) (by omega), hPd]
    show wr (wr (wr (if m5 X ≠ NULL then wr m5 (m5 X + 8) nb else m5) (X + 16) k) X NULL)
        (X + 8) NULL = _
    rw [g5]
  have hfl : (split_block s X k).2.free_list = if X = s.free_list then nb else s.free_list := by
    unfold split_block
    rw [if_neg hno, hnbdef, hnb]
  refine ⟨hfl, ?_, ?_, ?_, ?_⟩
  · unfold rd_next
    rw [hmem, wr_ne _ _ _ _ (by omega), wr_eq]
  · unfold rd_prev
    rw [hmem, wr_eq]
  · unfold rd_size
    rw [hmem, wr_ne _ _ _ _ (by omega), wr_ne _ _ _ _ (by omega), wr_eq]
  · intro a h1 h2 h3
    rw [hmem, wr_ne _ _ _ _ h2, wr_ne _ _ _ _ h1, wr_ne _ _ _ _ h3]
    show (if N ≠ NULL then wr m5 (N + 8) nb else m5) a = _
    rw [ite_wr_apply]
    show (if N ≠ NULL ∧ a = N + 8 then nb else (if P ≠ NULL then wr m4 P nb else m4) a) = _
    rw [ite_wr_apply]
    show (if N ≠ NULL ∧ a = N + 8 then nb else if P ≠ NULL ∧ a = P then nb
      else wr m3 (nb + 8) (m3 (X + 8)) a) = _
    rw [wr_apply, f3]
    show (if N ≠ NULL ∧ a = N + 8 then nb else if P ≠ NULL ∧ a = P then nb
      else if a = nb + 8 then P else wr m2 nb (m2 X) a) = _
    rw [wr_apply, f2]
    show (if N ≠ NULL ∧ a = N + 8 then nb else if P ≠ NULL ∧ a = P then nb
      else if a = nb + 8 then P else if a = nb then N
      else wr m1 (nb + 24) (m1 (nb + 24) / 2 ^ 32 * 2 ^ 32 + 1) a) = _
    rw [wr_apply, f1]
    show (if N ≠ NULL ∧ a = N + 8 then nb else if P ≠ NULL ∧ a = P then nb
      else if a = nb + 8 then P else if a = nb then N
      else if a = nb + 24 then s.mem (nb + 24) / 2 ^ 32 * 2 ^ 32 + 1
      else wr s.mem (nb + 16) v a) = _
    rw [wr_apply]

theorem apart_symm (a b : Nat) (h : apart a b) : apart b a := Or.symm h

theorem apart_irrefl (a : Nat) : ¬ apart a a := by
  unfold apart SIZEOF_BLOCK
  omega

theorem pairwise_apart (l : List Nat) (h : l.Pairwise apart) :
    l.Nodup ∧ ∀ a ∈ l, ∀ b ∈ l, a ≠ b → apart a b := by
  constructor
  · exact List.Pairwise.imp
      (fun {a b} (hab : apart a b) (e : a = b) => apart_irrefl b (e ▸ hab)) h
  · intro a ha b hb hne
    exact h.forall apart_symm ha hb hne

theorem find_fit_mem (m : Nat → Nat) (k : Nat) :
    ∀ (fuel start : Nat) (l : List Nat) (X : Nat), free_members m fuel start = some l →
      find_fit m k fuel start = some X → X ≠ NULL → X ∈ l := by
  intro fuel
  induction fuel with
  | zero =>
    intro start l X h
    simp [free_members] at h
  | succ f ih =>
    intro start l X h hf hX
    rw [free_members] at h
    rw [find_fit] at hf
    split at h
    · rename_i h0
      rw [if_pos h0] at hf
      exact absurd (Option.some.inj hf).symm hX
    · rename_i h0
      rw [if_neg h0] at hf
      rcases Option.map_eq_some'.mp h with ⟨t, ht, rfl⟩
      split at hf
      · rw [← Option.some.inj hf]
        exact List.mem_cons_self _ _
      · exact List.mem_cons_of_mem _ (ih _ t X ht hf hX)

/-- The facts about the free-list neighbours of a member `X` that the stores of
`mymalloc` rely on. -/
theorem linked_neighbours (m : Nat → Nat) (start X : Nat) (pre post : List Nat)
    (h : linked m NULL start (pre ++ X :: post)) :
    (rd_prev m X = NULL ∨ rd_prev m X ∈ pre) ∧ (rd_next m X = NULL ∨ rd_next m X ∈ post) ∧
    (pre = [] → start = X) ∧ (pre ≠ [] → start ∈ pre) := by
  refine ⟨?_, ?_, ?_, ?_⟩
  · rcases linked_prev_of_mid m X post pre NULL start h with ⟨_, e⟩ | ⟨_, e⟩
    · exact Or.inl e
    · exact Or.inr e
  · rcases linked_next_cases m X (rd_next m X) post
        (linked_next_of_mid m X post pre NULL start h) with ⟨_, e⟩ | ⟨_, e⟩
    · exact Or.inl e
    · exact Or.inr e
  · intro e
    subst e
    exact h.1
  · intro e
    cases pre with
    | nil => exact absurd rfl e
    | cons q pre =>
      rw [h.1]
      exact List.mem_cons_self q pre

/-- The frame of the detach step: when `X` is a member of a well-formed free
list whose headers are pairwise apart, detaching `X` leaves the list without `X`,
and the size and free mark of every other member as they were. -/
theorem detach_frame (s : Heap) (X : Nat) (pre post : List Nat)
    (hl : linked s.mem NULL s.free_list (pre ++ X :: post))
    (hap : (pre ++ X :: post).Pairwise apart) :
    linked (detach s X).2.mem NULL (detach s X).2.free_list (pre ++ post) ∧
    rd_isfree (detach s X).2.mem X = 0 ∧ rd_next (detach s X).2.mem X = NULL ∧
    rd_prev (detach s X).2.mem X = NULL ∧
    ∀ b ∈ pre ++ post, rd_size (detach s X).2.mem b = rd_size s.mem b ∧
      rd_isfree (detach s X).2.mem b = rd_isfree s.mem b := by
  obtain ⟨hnd, hap2⟩ := pairwise_apart _ hap
  obtain ⟨hPm, hNm, hst1, hst2⟩ := linked_neighbours s.mem s.free_list X pre post hl
  have hnull : NULL ∉ pre ++ X :: post := linked_not_null _ _ _ _ hl
  have hXmem : X ∈ pre ++ X :: post := List.mem_append_right _ (List.mem_cons_self X post)
  have hXpre : X ∉ pre := fun hc =>
    (List.nodup_append.mp hnd).2.2 hc (List.mem_cons_self X post)
  have hXpost : X ∉ post := (List.nodup_cons.mp (List.nodup_append.mp hnd).2.1).1
  have hsub : ∀ b ∈ pre ++ post, b ∈ pre ++ X :: post ∧ b ≠ X := by
    intro b hb
    rcases List.mem_append.mp hb with h | h
    · exact ⟨List.mem_append_left _ h, fun e => hXpre (e ▸ h)⟩
    · exact ⟨List.mem_append_right _ (List.mem_cons_of_mem X h), fun e => hXpost (e ▸ h)⟩
  have hPX : rd_prev s.mem X ≠ NULL → apart (rd_prev s.mem X) X := by
    intro h0
    rcases hPm with e | e
    · exact absurd e h0
    · exact hap2 _ (List.mem_append_left _ e) X hXmem (fun e2 => hXpre (e2 ▸ e))
  have hNX : rd_next s.mem X ≠ NULL → apart (rd_next s.mem X) X := by
    intro h0
    rcases hNm with e | e
    · exact absurd e h0
    · exact hap2 _ (List.mem_append_right _ (List.mem_cons_of_mem X e)) X hXmem
        (fun e2 => hXpost (e2 ▸ e))
  obtain ⟨hfl, hXi, hXn, hXp, hpt⟩ := detach_spec s X hPX hNX
  -- any field of another member is outside the header of `X`
  have hother : ∀ b ∈ pre ++ post, ∀ i, i < 32 →
      (detach s X).2.mem (b + i) =
        if rd_next s.mem X ≠ NULL ∧ b + i = rd_next s.mem X + 8 then rd_prev s.mem X
        else if rd_prev s.mem X ≠ NULL ∧ b + i = rd_prev s.mem X then rd_next s.mem X
        else s.mem (b + i) := by
    intro b hb i hi
    have hbX := hap2 b (hsub b hb).1 X hXmem (hsub b hb).2
    unfold apart SIZEOF_BLOCK at hbX
    exact hpt (b + i) (by omega) (by omega) (by omega)
  have hNb : ∀ b ∈ pre ++ post, ∀ i, i < 32 → i ≠ 8 →
      ¬ (rd_next s.mem X ≠ NULL ∧ b + i = rd_next s.mem X + 8) := by
    rintro b hb i hi hi8 ⟨h0, e⟩
    rcases hNm with e0 | e0
    · exact h0 e0
    · by_cases hbn : b = rd_next s.mem X
      · omega
      · have := hap2 b (hsub b hb).1 _ (List.mem_append_right _ (List.mem_cons_of_mem X e0)) hbn
        unfold apart SIZEOF_BLOCK at this
        omega
  have hPb : ∀ b ∈ pre ++ post, ∀ i, i < 32 → i ≠ 0 →
      ¬ (rd_prev s.mem X ≠ NULL ∧ b + i = rd_prev s.mem X) := by
    rintro b hb i hi hi0 ⟨h0, e⟩
    rcases hPm with e0 | e0
    · exact h0 e0
    · by_cases hbn : b = rd_prev s.mem X
      · omega
      · have := hap2 b (hsub b hb).1 _ (List.mem_append_left _ e0) hbn
        unfold apart SIZEOF_BLOCK at this
        omega
  refine ⟨?_, hXi, hXn, hXp, ?_⟩
  · have hstart : (detach s X).2.free_list =
        if pre = [] then rd_next s.mem X else s.free_list := by
      rw [hfl]
      by_cases hpre : pre = []
      · rw [if_pos hpre, if_pos (hst1 hpre).symm]
      · rw [if_neg hpre, if_neg]
        intro e
        exact hXpre (e ▸ hst2 hpre)
    rw [hstart]
    apply linked_unlink s.mem _ X post pre NULL s.free_list hl hnd hnull
    intro b hb
    constructor
    · have h := hother b hb 0 (by omega)
      simp only [Nat.add_zero] at h
      rw [h, if_neg]
      intro hc
      exact hNb b hb 0 (by omega) (by omega) (by simpa using hc)
    · rw [hother b hb 8 (by omega)]
      by_cases hc : rd_next s.mem X ≠ NULL ∧ b = rd_next s.mem X
      · rw [if_pos hc, if_pos ⟨hc.1, by rw [← hc.2]⟩]
      · rw [if_neg hc, if_neg (fun h => hc ⟨h.1, by omega⟩),
          if_neg (hPb b hb 8 (by omega) (by omega))]
  · intro b hb
    constructor
    · unfold rd_size
      rw [hother b hb 16 (by omega), if_neg (hNb b hb 16 (by omega) (by omega)),
        if_neg (hPb b hb 16 (by omega) (by omega))]
    · unfold rd_isfree
      rw [hother b hb 24 (by omega), if_neg (hNb b hb 24 (by omega) (by omega)),
        if_neg (hPb b hb 24 (by omega) (by omega))]

/-- The frame of split and detach: when `X` is a member of a well-formed free
list whose headers are pairwise apart and apart from the new header, splitting `X`
and detaching it leaves the list with the remainder in the place of `X`, and the
size and free mark of every other member as they were. -/
theorem split_detach_frame (s : Heap) (X k : Nat) (pre post : List Nat)
    (hl : linked s.mem NULL s.free_list (pre ++ X :: post))
    (hap : (pre ++ X :: post).Pairwise apart)
    (hrem : ∀ b ∈ pre ++ post, apart (X + SIZEOF_BLOCK + k * 16) b)
    (hsplit : k + 1 < rd_size s.mem X)
    (hnw : X + SIZEOF_BLOCK + k * 16 < W64) :
    linked (detach (split_block s X k).2 X).2.mem NULL
      (detach (split_block s X k).2 X).2.free_list
      (pre ++ (X + SIZEOF_BLOCK + k * 16) :: post) ∧
    rd_isfree (detach (split_block s X k).2 X).2.mem X = 0 ∧
    rd_next (detach (split_block s X k).2 X).2.mem X = NULL ∧
    rd_prev (detach (split_block s X k).2 X).2.mem X = NULL ∧
    rd_size (detach (split_block s X k).2 X).2.mem X = k ∧
    rd_size (detach (split_block s X k).2 X).2.mem (X + SIZEOF_BLOCK + k * 16) =
      rd_size s.mem X - k - 1 ∧
    rd_isfree (detach (split_block s X k).2 X).2.mem (X + SIZEOF_BLOCK + k * 16) = 1 ∧
    ∀ b ∈ pre ++ post,
      rd_size (detach (split_block s X k).2 X).2.mem b = rd_size s.mem b ∧
      rd_isfree (detach (split_block s X k).2 X).2.mem b = rd_isfree s.mem b := by
  obtain ⟨hnd, hap2⟩ := pairwise_apart _ hap
  obtain ⟨hPm, hNm, hst1, hst2⟩ := linked_neighbours s.mem s.free_list X pre post hl
  have hnull : NULL ∉ pre ++ X :: post := linked_not_null _ _ _ _ hl
  have hXmem : X ∈ pre ++ X :: post := List.mem_append_right _ (List.mem_cons_self X post)
  have hXpre : X ∉ pre := fun hc =>
    (List.nodup_append.mp hnd).2.2 hc (List.mem_cons_self X post)
  have hXpost : X ∉ post := (List.nodup_cons.mp (List.nodup_append.mp hnd).2.1).1
  have hsub : ∀ b ∈ pre ++ post, b ∈ pre ++ X :: post ∧ b ≠ X := by
    intro b hb
    rcases List.mem_append.mp hb with h | h
    · exact ⟨List.mem_append_left _ h, fun e => hXpre (e ▸ h)⟩
    · exact ⟨List.mem_append_right _ (List.mem_cons_of_mem X h), fun e => hXpost (e ▸ h)⟩
  have hPmem : rd_prev s.mem X ≠ NULL → rd_prev s.mem X ∈ pre ++ post := by
    intro h0
    rcases hPm with e | e
    · exact absurd e h0
    · exact List.mem_append_left _ e
  have hNmem : rd_next s.mem X ≠ NULL → rd_next s.mem X ∈ pre ++ post := by
    intro h0
    rcases hNm with e | e
    · exact absurd e h0
    · exact List.mem_append_right _ e
  have hPX : rd_prev s.mem X ≠ NULL → apart (rd_prev s.mem X) X := fun h0 =>
    hap2 _ (hsub _ (hPmem h0)).1 X hXmem (hsub _ (hPmem h0)).2
  obtain ⟨hfl1, hn1, hp1, hs1, hpt1⟩ := split_block_spec s X k hsplit hnw hPX
  have hP0 : rd_prev (split_block s X k).2.mem X ≠ NULL →
      apart (rd_prev (split_block s X k).2.mem X) X := fun h => absurd hp1 h
  have hN0 : rd_next (split_block s X k).2.mem X ≠ NULL →
      apart (rd_next (split_block s X k).2.mem X) X := fun h => absurd hn1 h
  obtain ⟨hfl2, hXi, hXn, hXp, hpt2⟩ := detach_spec (split_block s X k).2 X hP0 hN0
  rw [hn1, hp1] at hpt2
  generalize hremdef : X + SIZEOF_BLOCK + k * 16 = rem at *
  have hgt : X + 32 ≤ rem := by rw [← hremdef]; unfold SIZEOF_BLOCK; omega
  -- the memory outside the header of `X`
  have hpt : ∀ a, (a < X ∨ X + 32 ≤ a) →
      (detach (split_block s X k).2 X).2.mem a =
        if rd_next s.mem X ≠ NULL ∧ a = rd_next s.mem X + 8 then rem
        else if rd_prev s.mem X ≠ NULL ∧ a = rd_prev s.mem X then rem
        else if a = rem + 8 then rd_prev s.mem X
        else if a = rem then rd_next s.mem X
        else if a = rem + 24 then s.mem (rem + 24) / 2 ^ 32 * 2 ^ 32 + 1
        else if a = rem + 16 then rd_size s.mem X - k - 1
        else s.mem a := by
    intro a ha
    rw [hpt2 a (by omega) (by omega) (by omega), if_neg (fun h => h.1 rfl),
      if_neg (fun h => h.1 rfl)]
    exact hpt1 a (by omega) (by omega) (by omega)
  have hNb : ∀ b, (b ∈ pre ++ post ∨ b = rem) → ∀ i, i < 32 → (b = rem ∨ i ≠ 8) →
      ¬ (rd_next s.mem X ≠ NULL ∧ b + i = rd_next s.mem X + 8) := by
    rintro b hb i hi hi8 ⟨h0, e⟩
    have hN := hNmem h0
    rcases hb with hb | hb
    · by_cases hbn : b = rd_next s.mem X
      · have := hrem b hb
        unfold apart SIZEOF_BLOCK at this
        omega
      · have := hap2 b (hsub b hb).1 _ (hsub _ hN).1 hbn
        unfold apart SIZEOF_BLOCK at this
        omega
    · have := hrem _ hN
      unfold apart SIZEOF_BLOCK at this
      omega
  have hPb : ∀ b, (b ∈ pre ++ post ∨ b = rem) → ∀ i, i < 32 → (b = rem ∨ i ≠ 0) →
      ¬ (rd_prev s.mem X ≠ NULL ∧ b + i = rd_prev s.mem X) := by
    rintro b hb i hi hi0 ⟨h0, e⟩
    have hP := hPmem h0
    rcases hb with hb | hb
    · by_cases hbn : b = rd_prev s.mem X
      · have := hrem b hb
        unfold apart SIZEOF_BLOCK at this
        omega
      · have := hap2 b (hsub b hb).1 _ (hsub _ hP).1 hbn
        unfold apart SIZEOF_BLOCK at this
        omega
    · have := hrem _ hP
      unfold apart SIZEOF_BLOCK at this
      omega
  have hother : ∀ b ∈ pre ++ post, ∀ i, i < 32 →
      (detach (split_block s X k).2 X).2.mem (b + i) =
        if rd_next s.mem X ≠ NULL ∧ b + i = rd_next s.mem X + 8 then rem
        else if rd_prev s.mem X ≠ NULL ∧ b + i = rd_prev s.mem X then rem
        else s.mem (b + i) := by
    intro b hb i hi
    have hbX := hap2 b (hsub b hb).1 X hXmem (hsub b hb).2
    have hbr := hrem b hb
    unfold apart SIZEOF_BLOCK at hbX hbr
    rw [hpt (b + i) (by omega), if_neg (by omega : ¬ b + i = rem + 8),
      if_neg (by omega : ¬ b + i = rem), if_neg (by omega : ¬ b + i = rem + 24),
      if_neg (by omega : ¬ b + i = rem + 16)]
  have hremv : ∀ i, i < 32 →
      (detach (split_block s X k).2 X).2.mem (rem + i) =
        if rem + i = rem + 8 then rd_prev s.mem X
        else if rem + i = rem then rd_next s.mem X
        else if rem + i = rem + 24 then s.mem (rem + 24) / 2 ^ 32 * 2 ^ 32 + 1
        else if rem + i = rem + 16 then rd_size s.mem X - k - 1
        else s.mem (rem + i) := by
    intro i hi
    rw [hpt (rem + i) (by omega), if_neg (hNb rem (Or.inr rfl) i hi (Or.inl rfl)),
      if_neg (hPb rem (Or.inr rfl) i hi (Or.inl rfl))]
  refine ⟨?_, hXi, hXn, hXp, ?_, ?_, ?_, ?_⟩
  · have hstart : (detach (split_block s X k).2 X).2.free_list =
        if pre = [] then rem else s.free_list := by
      rw [hfl2, hfl1]
      by_cases hpre : pre = []
      · rw [if_pos hpre, if_pos (hst1 hpre).symm, if_neg (by omega : ¬ X = rem)]
      · have hne : ¬ X = s.free_list := fun e => hXpre (e ▸ hst2 hpre)
        rw [if_neg hpre, if_neg hne, if_neg hne]
    rw [hstart]
    apply linked_replace s.mem _ X rem post (by unfold NULL; omega) ?_ ?_ pre NULL
      s.free_list hl hnd hnull
    · intro b hb
      constructor
      · have h := hother b hb 0 (by omega)
        simp only [Nat.add_zero] at h
        rw [h, if_neg]
        intro hc
        exact hNb b (Or.inl hb) 0 (by omega) (Or.inr (by omega)) (by simpa using hc)
      · rw [hother b hb 8 (by omega)]
        by_cases hc : rd_next s.mem X ≠ NULL ∧ b = rd_next s.mem X
        · rw [if_pos hc, if_pos ⟨hc.1, by rw [← hc.2]⟩]
        · rw [if_neg hc, if_neg (fun h => hc ⟨h.1, by omega⟩),
            if_neg (hPb b (Or.inl hb) 8 (by omega) (Or.inr (by omega)))]
    · have h := hremv 0 (by omega)
      rw [if_neg (by omega), if_pos (by omega)] at h
      exact h
    · have h := hremv 8 (by omega)
      rw [if_pos rfl] at h
      exact h
  · unfold rd_size
    rw [hpt2 (X + 16) (by omega) (by omega) (by omega), if_neg (fun h => h.1 rfl),
      if_neg (fun h => h.1 rfl)]
    exact hs1
  · unfold rd_size
    rw [hremv 16 (by omega), if_neg (by omega), if_neg (by omega), if_neg (by omega),
      if_pos rfl]
    rfl
  · unfold rd_isfree
    rw [hremv 24 (by omega), if_neg (by omega), if_neg (by omega), if_pos rfl]
    omega
  · intro b hb
    constructor
    · unfold rd_size
      rw [hother b hb 16 (by omega), if_neg (hNb b (Or.inl hb) 16 (by omega) (Or.inr (by omega))),
        if_neg (hPb b (Or.inl hb) 16 (by omega) (Or.inr (by omega)))]
    · unfold rd_isfree
      rw [hother b hb 24 (by omega), if_neg (hNb b (Or.inl hb) 24 (by omega) (Or.inr (by omega))),
        if_neg (hPb b (Or.inl hb) 24 (by omega) (Or.inr (by omega)))]

theorem units_needed_lt (n : Nat) : units_needed n + 1 < W64 := by
  have h : (n + 15) % W64 < W64 := Nat.mod_lt _ (by unfold W64; omega)
  unfold units_needed numberof16blocks
  unfold W64 at *
  split <;> omega

theorem map_replace_of_not_mem (X r : Nat) :
    ∀ l : List Nat, X ∉ l → l.map (fun b => if b = X then r else b) = l := by
  intro l
  induction l with
  | nil => intro _; rfl
  | cons c cs ih =>
    intro h
    have hc : c ≠ X := fun e => h (e ▸ List.mem_cons_self c cs)
    have hcs : X ∉ cs := fun e => h (List.mem_cons_of_mem c e)
    rw [List.map_cons, ih hcs, if_neg hc]

theorem map_replace_mid (X r : Nat) (pre post : List Nat) (h1 : X ∉ pre) (h2 : X ∉ post) :
    (pre ++ X :: post).map (fun b => if b = X then r else b) = pre ++ r :: post := by
  rw [List.map_append, List.map_cons, map_replace_of_not_mem X r pre h1,
    map_replace_of_not_mem X r post h2, if_pos rfl]

theorem erase_mid (X : Nat) (pre post : List Nat) (h1 : X ∉ pre) :
    (pre ++ X :: post).erase X = pre ++ post := by
  rw [List.erase_append_right _ h1, List.erase_cons_head]

theorem units_needed_le_62 (n : Nat) (h : n ≤ 992) : units_needed n ≤ 62 := by
  unfold units_needed numberof16blocks W64
  split <;> omega

theorem split_block_heap_start (s : Heap) (b size : Nat) :
    (split_block s b size).2.heap_start = s.heap_start := by
  unfold split_block
  split <;> rfl

theorem take_block_heap_start (s : Heap) (b k : Nat) :
    (take_block s b k).2.heap_start = s.heap_start := by
  unfold take_block
  split
  · simp [detach, split_block_heap_start]
  · simp [detach]

/-- The initialisation path of `mymalloc`: whenever `free_list` is `NULL` (on first
use, and again whenever every block is allocated) and `sbrk` can move the break, a
request of at most 992 bytes makes one `sbrk(HEAP_SIZE)` call, stores the old break
in `heap_start`, and returns the data address of the block placed there. -/
theorem mymalloc_init_grows_once (fuel : Nat) (s : Heap) (n : Nat) (hn : 0 < n)
    (hn2 : n ≤ 992) (hfl : s.free_list = NULL) (hbrk : s.brk ≠ NULL)
    (hok : s.brk + HEAP_SIZE ≤ s.limit ∧ s.brk + HEAP_SIZE < W64) :
    ∃ r ∈ mymalloc (fuel + 1) s n,
      r.1 = s.brk + SIZEOF_BLOCK ∧ r.1 ≠ NULL ∧ r.1 < s.brk + HEAP_SIZE ∧
      r.2.heap_start = s.brk ∧
      r.2.calls = s.calls + 1 ∧ r.2.grown = s.grown + 1 ∧ r.2.brk = s.brk + HEAP_SIZE := by
  have hn0 : n ≠ 0 := by omega
  have hlt : s.brk + SIZEOF_BLOCK < W64 := by
    unfold HEAP_SIZE at hok
    unfold SIZEOF_BLOCK
    omega
  have hne : s.brk ≠ SBRK_FAIL := by
    unfold HEAP_SIZE W64 at hok
    unfold SBRK_FAIL
    omega
  have h62 : numberof16blocks (HEAP_SIZE - SIZEOF_BLOCK) = 62 := by decide
  have hi : init_heap s =
      ({ s with
          brk := s.brk + HEAP_SIZE, calls := s.calls + 1, grown := s.grown + 1,
          heap_start := s.brk, heap_end := s.brk,
          mem := wr (wr (wr (wr s.mem (s.brk + 16) 62) (s.brk + 24)
            (wr s.mem (s.brk + 16) 62 (s.brk + 24) / 2 ^ 32 * 2 ^ 32 + 1)) s.brk NULL)
            (s.brk + 8) NULL,
          free_list := s.brk, last_freed := s.brk }, true) := by
    unfold init_heap
    rw [if_pos hfl]
    simp only [sbrk_ok s HEAP_SIZE hok, if_neg hne, h62]
    rfl
  have hfit : fits (init_heap s).1.mem (units_needed n) s.brk := by
    rw [hi]
    constructor
    · show wr (wr (wr (wr s.mem (s.brk + 16) 62) (s.brk + 24) _) s.brk NULL) (s.brk + 8) NULL
        (s.brk + 24) % 2 ^ 32 ≠ 0
      rw [wr_ne _ _ _ _ (by omega), wr_ne _ _ _ _ (by omega), wr_eq]
      omega
    · show units_needed n ≤ wr (wr (wr (wr s.mem (s.brk + 16) 62) (s.brk + 24) _) s.brk NULL)
        (s.brk + 8) NULL (s.brk + 16)
      rw [wr_ne _ _ _ _ (by omega), wr_ne _ _ _ _ (by omega), wr_ne _ _ _ _ (by omega), wr_eq]
      exact units_needed_le_62 n hn2
  have hfind : find_fit (init_heap s).1.mem (units_needed n) (fuel + 1)
      (init_heap s).1.free_list = some s.brk := by
    have e : (init_heap s).1.free_list = s.brk := by rw [hi]
    rw [e]
    exact find_fit_head _ _ fuel s.brk hbrk hfit
  have hm : mymalloc (fuel + 1) s n =
      some (take_block (init_heap s).1 s.brk (units_needed n)) := by
    have e2 : (init_heap s).2 = true := by rw [hi]
    unfold mymalloc
    rw [if_neg hn0]
    simp only [e2, hfind, if_neg hbrk]
    rfl
  refine ⟨_, hm, ?_, ?_, ?_, ?_, ?_⟩
  · rw [take_block_fst, data_of_eq _ hlt]
  · rw [take_block_fst, data_of_eq _ hlt]
    unfold SIZEOF_BLOCK NULL
    omega
  · rw [take_block_fst, data_of_eq _ hlt]
    unfold SIZEOF_BLOCK HEAP_SIZE
    omega
  · rw [take_block_heap_start, hi]
  · obtain ⟨c1, c2, c3⟩ := take_block_calls (init_heap s).1 s.brk (units_needed n)
    rw [c1, c2, c3, hi]
    exact ⟨rfl, rfl, rfl⟩

/-! ## The round trip `mymalloc`, `myfree`, `mymalloc` -/

/-- A block the search of `mymalloc` stops at passes the test of the loop. -/
theorem find_fit_fits (m : Nat → Nat) (k : Nat) :
    ∀ (fuel start X : Nat), find_fit m k fuel start = some X → X ≠ NULL → fits m k X := by
  intro fuel
  induction fuel with
  | zero =>
    intro start X h
    simp [find_fit] at h
  | succ f ih =>
    intro start X h hX
    rw [find_fit] at h
    split at h
    · exact absurd (Option.some.inj h).symm hX
    · split at h
      · rename_i hfit
        rw [← Option.some.inj h]
        exact ⟨hfit.1, hfit.2⟩
      · exact ih _ X h hX

/-- The two ways `mymalloc` returns a non-null pointer: the block the search
stopped at, or the block the growth path placed at the old break; either one goes
through `take_block`. -/
theorem mymalloc_some_cases (fuel : Nat) (s s1 : Heap) (n p : Nat)
    (h : mymalloc fuel s n = some (p, s1)) (hp : p ≠ NULL) :
    (∃ B, B ≠ NULL ∧
      find_fit (init_heap s).1.mem (units_needed n) fuel (init_heap s).1.free_list = some B ∧
      take_block (init_heap s).1 B (units_needed n) = (p, s1)) ∨
    (find_fit (init_heap s).1.mem (units_needed n) fuel (init_heap s).1.free_list = some NULL ∧
      (grow_heap (init_heap s).1).1 ≠ SBRK_FAIL ∧
      take_block (grow_heap (init_heap s).1).2 (grow_heap (init_heap s).1).1 (units_needed n) =
        (p, s1)) := by
  unfold mymalloc at h
  split at h
  · exact absurd (congrArg Prod.fst (Option.some.inj h)).symm hp
  · simp only at h
    split at h
    · exact absurd (congrArg Prod.fst (Option.some.inj h)).symm hp
    · split at h
      · exact absurd h (by simp)
      · rename_i B hB
        split at h
        · rename_i hnull
          split at h
          · exact absurd (congrArg Prod.fst (Option.some.inj h)).symm hp
          · rename_i hok
            right
            rw [hnull] at hB
            exact ⟨hB, hok, Option.some.inj h⟩
        · rename_i hnn
          left
          exact ⟨B, hnn, hB, Option.some.inj h⟩

/-- The detach step keeps `block->info.size` when its two stores through `prev` and
`next` do not land on that word. -/
theorem detach_size (s : Heap) (X : Nat)
    (hP : rd_prev s.mem X ≠ X + 16) (hN : rd_next s.mem X + 8 ≠ X + 16) :
    rd_size (detach s X).2.mem X = rd_size s.mem X := by
  obtain ⟨P, hPd⟩ : ∃ P, s.mem (X + 8) = P := ⟨_, rfl⟩
  obtain ⟨N, hNd⟩ : ∃ N, s.mem X = N := ⟨_, rfl⟩
  have hP2 : P ≠ X + 16 := by rw [← hPd]; exact hP
  have hN2 : N + 8 ≠ X + 16 := by rw [← hNd]; exact hN
  let m1 := wr s.mem (X + 24) (s.mem (X + 24) / 2 ^ 32 * 2 ^ 32 + 0)
  let m2 := if P ≠ NULL then wr m1 P N else m1
  have a1 : m1 (X + 8) = P := by
    show wr s.mem (X + 24) _ (X + 8) = P
    rw [wr_ne _ _ _ _ (by omega), hPd]
  have a2 : m1 X = N := by
    show wr s.mem (X + 24) _ X = N
    rw [wr_ne _ _ _ _ (by omega), hNd]
  have b1 : m2 X = N := by
    show (if P ≠ NULL then wr m1 P N else m1) X = N
    rw [ite_wr_apply]
    split
    · rfl
    · exact a2
  have hmem : (detach s X).2.mem =
      wr (wr (if N ≠ NULL then wr m2 (N + 8) (m2 (X + 8)) else m2) X NULL) (X + 8) NULL := by
    show wr (wr (if (if m1 (X + 8) ≠ NULL then wr m1 (m1 (X + 8)) (m1 X) else m1) X ≠ NULL then
        wr (if m1 (X + 8) ≠ NULL then wr m1 (m1 (X + 8)) (m1 X) else m1)
          ((if m1 (X + 8) ≠ NULL then wr m1 (m1 (X + 8)) (m1 X) else m1) X + 8)
          ((if m1 (X + 8) ≠ NULL then wr m1 (m1 (X + 8)) (m1 X) else m1) (X + 8))
        else (if m1 (X + 8) ≠ NULL then wr m1 (m1 (X + 8)) (m1 X) else m1)) X NULL) (X + 8) NULL =
      _
    rw [a1, a2]
    show wr (wr (if m2 X ≠ NULL then wr m2 (m2 X + 8) (m2 (X + 8)) else m2) X NULL) (X + 8) NULL =
      _
    rw [b1]
  unfold rd_size
  rw [hmem, wr_ne _ _ _ _ (by omega), wr_ne _ _ _ _ (by omega),
    ite_wr_ne _ _ _ _ _ (fun e => hN2 e.symm)]
  show (if P ≠ NULL then wr m1 P N else m1) (X + 16) = _
  rw [ite_wr_ne _ _ _ _ _ (fun e => hP2 e.symm)]
  show wr s.mem (X + 24) _ (X + 16) = _
  rw [wr_ne _ _ _ _ (by omega)]

/-- The last three stores of `split_block`, when it splits. -/
theorem split_block_size (s : Heap) (X k : Nat) (hsplit : ¬ rd_size s.mem X ≤ (k + 1) % W64) :
    rd_size (split_block s X k).2.mem X = k ∧ rd_prev (split_block s X k).2.mem X = NULL ∧
    rd_next (split_block s X k).2.mem X = NULL := by
  unfold split_block
  rw [if_neg hsplit]
  dsimp only
  unfold rd_size rd_prev rd_next wr_prev wr_next wr_size
  refine ⟨?_, ?_, ?_⟩
  · rw [wr_ne _ _ _ _ (by omega), wr_ne _ _ _ _ (by omega), wr_eq]
  · rw [wr_eq]
  · rw [wr_ne _ _ _ _ (by omega), wr_eq]

/-- A block with at least `k` units records between `k` units and its old size after
the tail of `mymalloc`: exactly `k` when it is split, its old size when it is used
whole. -/
theorem take_block_size (t : Heap) (X k : Nat) (hfit : k ≤ rd_size t.mem X)
    (hwhole : ¬ rd_size t.mem X > (k + 1) % W64 →
      rd_prev t.mem X ≠ X + 16 ∧ rd_next t.mem X + 8 ≠ X + 16) :
    k ≤ rd_size (take_block t X k).2.mem X ∧
    rd_size (take_block t X k).2.mem X ≤ rd_size t.mem X := by
  unfold take_block
  split
  · rename_i hs
    have h := split_block_size t X k (by omega)
    rw [split_block_fst, detach_size _ X, h.1]
    · exact ⟨le_refl k, hfit⟩
    · rw [h.2.1]
      unfold NULL
      omega
    · rw [h.2.2]
      unfold NULL at *
      omega
  · rename_i hs
    rw [detach_size t X (hwhole hs).1 (hwhole hs).2]
    exact ⟨hfit, le_refl _⟩

/-- The block the growth path places at the old break records 62 units, unless the
store to `free_list->prev` lands on its size word. -/
theorem grow_heap_block (t : Heap) (hok : (grow_heap t).1 ≠ SBRK_FAIL)
    (hfl : t.free_list + 8 ≠ t.brk + 16) :
    (grow_heap t).1 = t.brk ∧ rd_size (grow_heap t).2.mem t.brk = 62 ∧
    rd_prev (grow_heap t).2.mem t.brk ≠ t.brk + 16 ∧
    rd_next (grow_heap t).2.mem t.brk + 8 ≠ t.brk + 16 ∧ t.brk + HEAP_SIZE < W64 := by
  by_cases hs : t.brk + HEAP_SIZE ≤ t.limit ∧ t.brk + HEAP_SIZE < W64
  · have hne : t.brk ≠ SBRK_FAIL := by
      unfold HEAP_SIZE W64 at hs
      unfold SBRK_FAIL
      omega
    obtain ⟨F, hF⟩ : ∃ F, t.free_list = F := ⟨_, rfl⟩
    rw [hF] at hfl
    have hmem : (grow_heap t).2.mem =
        if F ≠ NULL then
          wr (wr (wr (wr_isfree (wr t.mem (t.brk + 16) 62) t.brk 1) t.brk F) (t.brk + 8) NULL) (F + 8) t.brk
        else wr (wr (wr_isfree (wr t.mem (t.brk + 16) 62) t.brk 1) t.brk F) (t.brk + 8) NULL := by
      unfold grow_heap
      simp only [sbrk_ok t HEAP_SIZE hs, if_neg hne]
      rw [hF]
      rfl
    have h1 : (grow_heap t).1 = t.brk := by
      unfold grow_heap
      simp only [sbrk_ok t HEAP_SIZE hs, if_neg hne]
    refine ⟨h1, ?_, ?_, ?_, hs.2⟩
    · unfold rd_size
      rw [hmem, ite_wr_ne _ _ _ _ _ (fun e => hfl e.symm), wr_ne _ _ _ _ (by omega),
        wr_ne _ _ _ _ (by omega)]
      unfold wr_isfree
      rw [wr_ne _ _ _ _ (by omega), wr_eq]
    · unfold rd_prev
      rw [hmem, ite_wr_apply]
      split
      · omega
      · rw [wr_eq]
        unfold NULL
        omega
    · unfold rd_next
      rw [hmem, ite_wr_apply]
      split
      · omega
      · rw [wr_ne _ _ _ _ (by omega), wr_eq]
        exact hfl
  · exfalso
    apply hok
    unfold grow_heap
    simp only [sbrk_fail t HEAP_SIZE hs, if_true]

/-- The end of `myfree` keeps the size word of the block it pushes and leaves it
marked free, when the store to `free_list->prev` does not land on the size word
and, where it lands on the `isfree` word, stores a pointer with a non-zero low
half. -/
theorem push_free_tag (t : Heap) (X : Nat)
    (hfl : t.free_list + 8 ≠ X + 16 ∧ (t.free_list + 8 = X + 24 → X % 2 ^ 32 ≠ 0)) :
    (push_free t X).mem (X + 16) = t.mem (X + 16) ∧
    (t.mem (X + 24) % 2 ^ 32 ≠ 0 → (push_free t X).mem (X + 24) % 2 ^ 32 ≠ 0) := by
  unfold push_free
  dsimp only
  unfold wr_prev wr_next
  constructor
  · rw [ite_wr_ne _ _ _ _ _ (fun e => hfl.1 e.symm), wr_ne _ _ _ _ (by omega),
      wr_ne _ _ _ _ (by omega)]
  · intro h
    rw [ite_wr_apply]
    split
    · rename_i hc
      exact hfl.2 hc.2.symm
    · rw [wr_ne _ _ _ _ (by omega), wr_ne _ _ _ _ (by omega)]
      exact h

/-- The function `right_coalesce` never lowers the size of `X` and leaves it marked
free, when the extent of `X` does not wrap, the merged size does not overflow, and
the store to `right->next->prev` does not land on the size word and, where it
lands on the `isfree` word, stores a pointer with a non-zero low half. -/
theorem right_coalesce_tag (t : Heap) (X k : Nat)
    (hsize : k ≤ rd_size t.mem X)
    (hnw : X + SIZEOF_BLOCK + rd_size t.mem X * 16 < W64)
    (hR : next_block_in_addr t X ≠ NULL → rd_isfree t.mem (next_block_in_addr t X) ≠ 0 →
      rd_size t.mem X + rd_size t.mem (next_block_in_addr t X) + 1 < W64 ∧
      rd_next t.mem (next_block_in_addr t X) + 8 ≠ X + 16 ∧
      (rd_next t.mem (next_block_in_addr t X) + 8 = X + 24 → X % 2 ^ 32 ≠ 0)) :
    ((right_coalesce t X).2.free_list = t.free_list ∨ (right_coalesce t X).2.free_list = X) ∧
    k ≤ (right_coalesce t X).2.mem (X + 16) ∧
    (t.mem (X + 24) % 2 ^ 32 ≠ 0 → (right_coalesce t X).2.mem (X + 24) % 2 ^ 32 ≠ 0) ∧
    (right_coalesce t X).2.calls = t.calls ∧ (right_coalesce t X).2.grown = t.grown := by
  by_cases hm : next_block_in_addr t X ≠ NULL ∧ rd_isfree t.mem (next_block_in_addr t X) ≠ 0
  · obtain ⟨h1, h2, h3⟩ := hR hm.1 hm.2
    have hRX : X + SIZEOF_BLOCK ≤ next_block_in_addr t X := by
      have hm1 := hm.1
      unfold next_block_in_addr at hm1 ⊢
      simp only [Nat.mod_eq_of_lt hnw] at hm1 ⊢
      split
      · omega
      · rename_i hc
        rw [if_neg hc] at hm1
        exact absurd rfl hm1
    obtain ⟨R, hRd⟩ : ∃ R, next_block_in_addr t X = R := ⟨_, rfl⟩
    rw [hRd] at hm h1 h2 h3 hRX
    unfold SIZEOF_BLOCK at hRX
    obtain ⟨S, hSd⟩ : ∃ S, t.mem (X + 16) = S := ⟨_, rfl⟩
    obtain ⟨T, hTd⟩ : ∃ T, t.mem (R + 16) = T := ⟨_, rfl⟩
    obtain ⟨N, hNd⟩ : ∃ N, t.mem R = N := ⟨_, rfl⟩
    have hS2 : rd_size t.mem X = S := hSd
    have hT2 : rd_size t.mem R = T := hTd
    have hN2 : rd_next t.mem R = N := hNd
    rw [hS2] at hsize h1
    rw [hT2] at h1
    rw [hN2] at h2 h3
    let m1 := wr t.mem (X + 16) ((S + (T + 1)) % W64)
    let m2 := wr m1 X N
    have a1 : m1 R = N := by
      show wr t.mem (X + 16) _ R = N
      rw [wr_ne _ _ _ _ (by omega), hNd]
    have a2 : m2 R = N := by
      show wr m1 X N R = N
      rw [wr_ne _ _ _ _ (by omega), a1]
    have hmem : (right_coalesce t X).2.mem = if N ≠ NULL then wr m2 (N + 8) X else m2 := by
      unfold right_coalesce
      simp only [hRd, if_pos hm]
      show (if wr (wr t.mem (X + 16) ((t.mem (X + 16) + (t.mem (R + 16) + 1)) % W64)) X
            (wr t.mem (X + 16) ((t.mem (X + 16) + (t.mem (R + 16) + 1)) % W64) R) R ≠ NULL then
          wr (wr (wr t.mem (X + 16) ((t.mem (X + 16) + (t.mem (R + 16) + 1)) % W64)) X
            (wr t.mem (X + 16) ((t.mem (X + 16) + (t.mem (R + 16) + 1)) % W64) R))
            (wr (wr t.mem (X + 16) ((t.mem (X + 16) + (t.mem (R + 16) + 1)) % W64)) X
            (wr t.mem (X + 16) ((t.mem (X + 16) + (t.mem (R + 16) + 1)) % W64) R) R + 8) X
          else wr (wr t.mem (X + 16) ((t.mem (X + 16) + (t.mem (R + 16) + 1)) % W64)) X
            (wr t.mem (X + 16) ((t.mem (X + 16) + (t.mem (R + 16) + 1)) % W64) R)) = _
      rw [hSd, hTd]
      show (if wr m1 X (m1 R) R ≠ NULL then wr (wr m1 X (m1 R)) (wr m1 X (m1 R) R + 8) X
        else wr m1 X (m1 R)) = _
      rw [a1]
      show (if m2 R ≠ NULL then wr m2 (m2 R + 8) X else m2) = _
      rw [a2]
    have hfl : (right_coalesce t X).2.free_list = if R = t.free_list then X else t.free_list := by
      unfold right_coalesce
      simp only [hRd, if_pos hm]
    have hc : (right_coalesce t X).2.calls = t.calls ∧ (right_coalesce t X).2.grown = t.grown := by
      unfold right_coalesce
      simp only [hRd, if_pos hm, and_self]
    refine ⟨?_, ?_, ?_, hc⟩
    · rw [hfl]
      split
      · exact Or.inr rfl
      · exact Or.inl rfl
    · rw [hmem, ite_wr_ne _ _ _ _ _ (fun e => h2 e.symm)]
      show wr m1 X N (X + 16) ≥ k
      rw [wr_ne _ _ _ _ (by omega)]
      show wr t.mem (X + 16) _ (X + 16) ≥ k
      rw [wr_eq, Nat.mod_eq_of_lt (by omega)]
      omega
    · intro h24
      rw [hmem, ite_wr_apply]
      split
      · rename_i hc
        exact h3 hc.2.symm
      · show wr m1 X N (X + 24) % 2 ^ 32 ≠ 0
        rw [wr_ne _ _ _ _ (by omega)]
        show wr t.mem (X + 16) _ (X + 24) % 2 ^ 32 ≠ 0
        rw [wr_ne _ _ _ _ (by omega)]
        exact h24
  · have he : right_coalesce t X = (X, t) := by
      unfold right_coalesce
      simp only [if_neg hm]
    rw [he]
    exact ⟨Or.inl rfl, hsize, id, rfl, rfl⟩

/-- When `myfree` does not left-coalesce, it leaves the released block at the
head of the free list, marked free and recording at least the units it had. -/
theorem free_block_refit (f2 : Nat) (s1 : Heap) (X k : Nat)
    (hend : prev_block_in_addr f2 { s1 with mem := wr_isfree s1.mem X 1 } X ≠ none)
    (hleft : ¬ merges_left f2 s1 X)
    (hsize : k ≤ rd_size s1.mem X)
    (hnw : X + SIZEOF_BLOCK + rd_size s1.mem X * 16 < W64)
    (hfl : s1.free_list + 8 ≠ X + 16 ∧ (s1.free_list + 8 = X + 24 → X % 2 ^ 32 ≠ 0))
    (hR : next_block_in_addr s1 X ≠ NULL → rd_isfree s1.mem (next_block_in_addr s1 X) ≠ 0 →
      rd_size s1.mem X + rd_size s1.mem (next_block_in_addr s1 X) + 1 < W64 ∧
      rd_next s1.mem (next_block_in_addr s1 X) + 8 ≠ X + 16 ∧
      (rd_next s1.mem (next_block_in_addr s1 X) + 8 = X + 24 → X % 2 ^ 32 ≠ 0)) :
    ∃ s2, free_block f2 s1 X = some s2 ∧ s2.free_list = X ∧ fits s2.mem k X ∧
      s2.calls = s1.calls ∧ s2.grown = s1.grown := by
  obtain ⟨left, hscan⟩ := Option.ne_none_iff_exists'.mp hend
  have hno : ¬ (left ≠ NULL ∧ rd_isfree (wr_isfree s1.mem X 1) left ≠ 0) := by
    intro hc
    exact hleft ⟨left, hscan, hc⟩
  obtain ⟨t, ht⟩ : ∃ t : Heap, t = { s1 with mem := wr_isfree s1.mem X 1 } := ⟨_, rfl⟩
  have hfb : free_block f2 s1 X = some (push_free (right_coalesce t X).2 X) := by
    unfold free_block
    dsimp only
    unfold left_coalesce
    rw [hscan]
    dsimp only
    unfold left_coalesce_with
    rw [if_neg hno]
    dsimp only
    rw [right_coalesce_fst, ht]
  have t16 : t.mem (X + 16) = s1.mem (X + 16) := by
    rw [ht]
    show wr s1.mem (X + 24) _ (X + 16) = _
    rw [wr_ne _ _ _ _ (by omega)]
  have t24 : t.mem (X + 24) % 2 ^ 32 ≠ 0 := by
    rw [ht]
    show wr s1.mem (X + 24) _ (X + 24) % 2 ^ 32 ≠ 0
    rw [wr_eq]
    omega
  have tsz : rd_size t.mem X = rd_size s1.mem X := t16
  have tnx : next_block_in_addr t X = next_block_in_addr s1 X := by
    unfold next_block_in_addr
    rw [tsz, ht]
  have tfl : t.free_list = s1.free_list := by rw [ht]
  have tc : t.calls = s1.calls ∧ t.grown = s1.grown := by rw [ht]; exact ⟨rfl, rfl⟩
  have hge : next_block_in_addr s1 X ≠ NULL → X + 32 ≤ next_block_in_addr s1 X := by
    intro hm1
    unfold next_block_in_addr at hm1 ⊢
    simp only [Nat.mod_eq_of_lt hnw] at hm1 ⊢
    split
    · unfold SIZEOF_BLOCK
      omega
    · rename_i hc
      rw [if_neg hc] at hm1
      exact absurd rfl hm1
  have tR : ∀ a, X + 32 ≤ a → t.mem a = s1.mem a := by
    intro a ha
    rw [ht]
    show wr s1.mem (X + 24) _ a = _
    rw [wr_ne _ _ _ _ (by omega)]
  have hRt : next_block_in_addr t X ≠ NULL → rd_isfree t.mem (next_block_in_addr t X) ≠ 0 →
      rd_size t.mem X + rd_size t.mem (next_block_in_addr t X) + 1 < W64 ∧
      rd_next t.mem (next_block_in_addr t X) + 8 ≠ X + 16 ∧
      (rd_next t.mem (next_block_in_addr t X) + 8 = X + 24 → X % 2 ^ 32 ≠ 0) := by
    rw [tnx, tsz]
    intro hm1 hm2
    have hg := hge hm1
    have e1 : rd_isfree t.mem (next_block_in_addr s1 X) =
        rd_isfree s1.mem (next_block_in_addr s1 X) := by
      unfold rd_isfree
      rw [tR _ (by omega)]
    have e2 : rd_size t.mem (next_block_in_addr s1 X) =
        rd_size s1.mem (next_block_in_addr s1 X) := by
      unfold rd_size
      rw [tR _ (by omega)]
    have e3 : rd_next t.mem (next_block_in_addr s1 X) =
        rd_next s1.mem (next_block_in_addr s1 X) := by
      unfold rd_next
      rw [tR _ hg]
    rw [e1] at hm2
    rw [e2, e3]
    exact hR hm1 hm2
  obtain ⟨r1, r2, r3, r4, r5⟩ := right_coalesce_tag t X k (by rw [tsz]; exact hsize)
    (by rw [tsz]; exact hnw) hRt
  have hfl2 : (right_coalesce t X).2.free_list + 8 ≠ X + 16 ∧
      ((right_coalesce t X).2.free_list + 8 = X + 24 → X % 2 ^ 32 ≠ 0) := by
    rcases r1 with e | e
    · rw [e, tfl]
      exact hfl
    · rw [e]
      constructor
      · omega
      · intro h
        omega
  obtain ⟨p1, p2⟩ := push_free_tag (right_coalesce t X).2 X hfl2
  refine ⟨_, hfb, rfl, ⟨?_, ?_⟩, ?_, ?_⟩
  · exact p2 (r3 t24)
  · unfold rd_size
    rw [p1]
    exact r2
  · show (right_coalesce t X).2.calls = s1.calls
    rw [r4, tc.1]
  · show (right_coalesce t X).2.grown = s1.grown
    rw [r5, tc.2]

theorem block_of_data (X : Nat) :
    block_of (X + SIZEOF_BLOCK) = X := by
  unfold block_of sub64
  rw [if_pos (Nat.le_add_left _ _)]
  omega

end Malloc
